import Mathlib

/-!
Verification development for the creator-prediction pipeline backend.

The definitions below are a shallow embedding of the pipeline orchestrator
(`pipeline.service.ts`), the queue/status layer (`lib/queue.ts`), the analysis
service (`analysis.service.ts`), the transcript persistence
(`transcript.service.ts`) and the aggregate recomputation
(`channel.service.ts` / `recalculateYouTuberScore`).

Modelling conventions:
* Databases (Prisma) are association lists inside a `DB` structure; ids are
  natural numbers, external string ids are `String`.
* The Redis status store is an association list keyed by creator id.
* The BullMQ queue is a list of `QueuedJob`s with explicit ids and delays;
  delivering a job removes it from the list and runs the handler; a handler
  that re-throws causes the queue to retry the job with exponential backoff
  until the attempt budget is exhausted (then it is moved to the failed set).
* External collaborators (YouTube listing, transcript fetch, AI extraction and
  verification) are oracles passed as arguments to the handler functions.
* Wall-clock timestamps written into status records (`startedAt` /
  `completedAt`) are not modelled; the fixed string `nowISO` stands for
  `new Date().toISOString()`.
-/

namespace Receipts

/-- One transcript segment as stored (JSON-serialised) in `Video.transcript`. -/
structure TranscriptSegment where
  text : String
  offsetSec : Nat
  timestamp : String
  duration : Nat
deriving DecidableEq, Repr

/-- The sentinel segment written on a permanently failed transcript fetch
(`pipeline.service.ts` writes
`[{ text: "TRANSCRIPT_UNAVAILABLE", offsetSec: 0, timestamp: "0:00", duration: 0 }]`). -/
def unavailableSegment : TranscriptSegment :=
  { text := "TRANSCRIPT_UNAVAILABLE", offsetSec := 0, timestamp := "0:00", duration := 0 }

/-- The full sentinel transcript value. -/
def unavailableTranscript : List TranscriptSegment := [unavailableSegment]

/-- A `Video` row: `transcript` is nullable, the sentinel value is a non-null
transcript equal to `unavailableTranscript`. -/
structure Video where
  id : Nat
  videoId : String
  youtuberId : String
  transcript : Option (List TranscriptSegment)
  analyzed : Bool
  avgScore : Option ℚ
  publishedAt : Nat
deriving DecidableEq, Repr

/-- A `Prediction` row (only the fields the pipeline claims touch). -/
structure Prediction where
  videoId : Nat
  accuracyScore : Option ℚ
deriving DecidableEq, Repr

/-- A `YouTuber` row with its derived aggregate statistics. -/
structure YouTuberRec where
  id : String
  channelId : String
  avgScore : ℚ
  totalPredictions : Nat
  correctPredictions : Nat
  accuracyPercent : ℚ
deriving DecidableEq, Repr

/-- The relational store.  `nextVideoId` supplies fresh primary keys for
videos created by the sync upsert. -/
structure DB where
  youtubers : List YouTuberRec
  videos : List Video
  predictions : List Prediction
  nextVideoId : Nat
deriving DecidableEq, Repr

/-- Pipeline status enum (`lib/queue.ts`, `PipelineStatus.status`). -/
inductive Status
  | idle
  | syncing
  | fetchingTranscripts
  | analyzing
  | completed
  | failed
deriving DecidableEq, Repr

/-- The soft-state progress record kept per creator in Redis
(`lib/queue.ts`, `PipelineStatus`). -/
structure PipelineStatus where
  youtuberId : String
  status : Status
  totalVideos : Nat
  transcriptsFetched : Nat
  videosAnalyzed : Nat
  currentStep : String
  error : Option String
  startedAt : Option String
  completedAt : Option String
deriving DecidableEq, Repr

/-- A partial update (`Partial<PipelineStatus>`): `none` means the field is
absent from the update object. -/
structure StatusUpdate where
  status : Option Status := none
  totalVideos : Option Nat := none
  transcriptsFetched : Option Nat := none
  videosAnalyzed : Option Nat := none
  currentStep : Option String := none
  error : Option String := none
  startedAt : Option String := none
  completedAt : Option String := none
deriving DecidableEq, Repr

/-- The defaults spread first in `updatePipelineStatus`
(`{ youtuberId, status: "idle", totalVideos: 0, ... }`). -/
def defaultStatus (yid : String) : PipelineStatus :=
  { youtuberId := yid, status := .idle, totalVideos := 0, transcriptsFetched := 0,
    videosAnalyzed := 0, currentStep := "", error := none, startedAt := none,
    completedAt := none }

/-- The read-merge part of `updatePipelineStatus` (`lib/queue.ts`): defaults,
overridden by the currently stored record when present, overridden by the
fields present in the update. -/
def applyUpdate (yid : String) (current : Option PipelineStatus) (u : StatusUpdate) :
    PipelineStatus :=
  let base := current.getD (defaultStatus yid)
  { youtuberId := base.youtuberId
    status := u.status.getD base.status
    totalVideos := u.totalVideos.getD base.totalVideos
    transcriptsFetched := u.transcriptsFetched.getD base.transcriptsFetched
    videosAnalyzed := u.videosAnalyzed.getD base.videosAnalyzed
    currentStep := u.currentStep.getD base.currentStep
    error := u.error <|> base.error
    startedAt := u.startedAt <|> base.startedAt
    completedAt := u.completedAt <|> base.completedAt }

/-- Redis key expiry used by `updatePipelineStatus` (`"EX", 86400`). -/
def STATUS_TTL_SECONDS : Nat := 86400

/-- The full write of `updatePipelineStatus`: the merged record together with
the absolute expiry instant set by the `EX 86400` option of `redis.set`
(every write, whatever fields it carries, resets the TTL). -/
def updatePipelineStatusWrite (yid : String) (current : Option PipelineStatus)
    (u : StatusUpdate) (now : Nat) : PipelineStatus × Nat :=
  (applyUpdate yid current u, now + STATUS_TTL_SECONDS)

/-- Stand-in for `new Date().toISOString()`; wall-clock time is not modelled. -/
def nowISO : String := "1970-01-01T00:00:00.000Z"

/-- `PIPELINE_CONFIG.defaultMonthsBack`. -/
def PIPELINE_defaultMonthsBack : Nat := 12
/-- `PIPELINE_CONFIG.delayBetweenTranscripts` (ms). -/
def PIPELINE_delayBetweenTranscripts : Nat := 2000
/-- `PIPELINE_CONFIG.delayBetweenAnalysis` (ms). -/
def PIPELINE_delayBetweenAnalysis : Nat := 3000
/-- `PIPELINE_CONFIG.maxVideosToProcess`. -/
def PIPELINE_maxVideosToProcess : Nat := 50
/-- `QUEUE_CONFIG.defaultJobOptions.attempts`. -/
def QUEUE_attempts : Nat := 3
/-- `QUEUE_CONFIG.defaultJobOptions.backoff.delay` (ms). -/
def QUEUE_backoffDelay : Nat := 5000
/-- `QUEUE_CONFIG.concurrency`. -/
def QUEUE_concurrency : Nat := 1

/-- Backoff policy shape from `QUEUE_CONFIG.defaultJobOptions.backoff.type`. -/
inductive BackoffKind
  | exponential
  | fixed
deriving DecidableEq, Repr

/-- `QUEUE_CONFIG.defaultJobOptions.backoff.type = "exponential"`. -/
def QUEUE_backoffKind : BackoffKind := .exponential

/-- The tagged union `PipelineJobData` (`lib/queue.ts`). -/
inductive JobData
  | syncVideos (youtuberId channelId : String) (monthsBack : Nat)
  | fetchTranscript (videoId : Nat) (youtuberId : String)
  | analyzeVideo (videoId : Nat) (youtuberId : String)
  | completePipeline (youtuberId : String)
deriving DecidableEq, Repr

/-- The creator a job belongs to (every variant carries `youtuberId`). -/
def JobData.creator : JobData → String
  | .syncVideos y _ _ => y
  | .fetchTranscript _ y => y
  | .analyzeVideo _ y => y
  | .completePipeline y => y

/-- Discriminator for `type === "sync-videos"`. -/
def JobData.isSync : JobData → Bool
  | .syncVideos .. => true
  | _ => false

/-- Discriminator for `type === "fetch-transcript"`. -/
def JobData.isFetch : JobData → Bool
  | .fetchTranscript .. => true
  | _ => false

/-- Discriminator for `type === "analyze-video"`. -/
def JobData.isAnalyze : JobData → Bool
  | .analyzeVideo .. => true
  | _ => false

/-- Discriminator for `type === "complete-pipeline"`. -/
def JobData.isComplete : JobData → Bool
  | .completePipeline .. => true
  | _ => false

/-- A queued BullMQ job: id, payload, enqueue-time delay, and the number of
attempts already made (for the retry/backoff policy). -/
structure QueuedJob where
  id : Nat
  data : JobData
  delay : Nat
  attemptsMade : Nat
deriving DecidableEq, Repr

/-- Whole-system state: relational store, Redis status store, pipeline queue
(pending and delayed jobs), the failed set, and the fresh-id counter. -/
structure SysState where
  db : DB
  store : List (String × PipelineStatus)
  queue : List QueuedJob
  failedJobs : List QueuedJob
  nextJobId : Nat
deriving DecidableEq, Repr

/-- A status-store write, recorded as (key, record written). -/
abbrev StatusWrite := String × PipelineStatus

/-- Read the status record stored for a creator. -/
def getStatusEntry (store : List (String × PipelineStatus)) (yid : String) :
    Option PipelineStatus :=
  (store.find? (fun p => p.1 == yid)).map (·.2)

/-- Overwrite the status record stored for a creator. -/
def setStatusEntry (store : List (String × PipelineStatus)) (yid : String)
    (st : PipelineStatus) : List (String × PipelineStatus) :=
  (yid, st) :: store.filter (fun p => p.1 != yid)

/-- Perform `updatePipelineStatus` on the system state, returning the write. -/
def writeStatus (s : SysState) (yid : String) (u : StatusUpdate) :
    SysState × StatusWrite :=
  let st := applyUpdate yid (getStatusEntry s.store yid) u
  ({ s with store := setStatusEntry s.store yid st }, (yid, st))

/-- `addJob` (`lib/queue.ts`): append to the queue with a fresh id, delay as
given, zero attempts made. -/
def addJobS (s : SysState) (d : JobData) (delay : Nat) : SysState :=
  { s with
    queue := s.queue ++ [{ id := s.nextJobId, data := d, delay := delay, attemptsMade := 0 }]
    nextJobId := s.nextJobId + 1 }

/-- The staggered enqueue loops (`for (let i = ...) addJob(..., i * spacing)`),
as the list of (payload, delay) pairs; `offset` is the starting index (0 for
the in-pipeline loops, `jobsQueued` for the startup sweep). -/
def staggered (mk : Video → JobData) (spacing offset : Nat) : List Video → List (JobData × Nat)
  | [] => []
  | v :: vs => (mk v, offset * spacing) :: staggered mk spacing (offset + 1) vs

/-- Enqueue a list of (payload, delay) pairs in order. -/
def enqueueJobsFrom (s : SysState) : List (JobData × Nat) → SysState
  | [] => s
  | d :: ds => enqueueJobsFrom (addJobS s d.1 d.2) ds

/-- Look up a video row by primary key. -/
def DB.findVideo (db : DB) (vid : Nat) : Option Video :=
  db.videos.find? (fun v => v.id == vid)

/-- Update a video row by primary key. -/
def DB.updateVideo (db : DB) (vid : Nat) (f : Video → Video) : DB :=
  { db with videos := db.videos.map (fun v => if v.id == vid then f v else v) }

/-- Look up a creator row. -/
def DB.findYoutuber (db : DB) (yid : String) : Option YouTuberRec :=
  db.youtubers.find? (fun y => y.id == yid)

/-- `prisma.video.count({ where: { youtuberId, transcript: { not: null } } })`. -/
def countVideosWithTranscript (db : DB) (yid : String) : Nat :=
  (db.videos.filter (fun v => v.youtuberId == yid && v.transcript.isSome)).length

/-- `prisma.video.count({ where: { youtuberId, analyzed: true } })`. -/
def countAnalyzed (db : DB) (yid : String) : Nat :=
  (db.videos.filter (fun v => v.youtuberId == yid && v.analyzed)).length

/-- `prisma.prediction.count({ where: { video: { youtuberId } } })`. -/
def countPredictionsOf (db : DB) (yid : String) : Nat :=
  (db.predictions.filter (fun p =>
    match db.findVideo p.videoId with
    | some v => v.youtuberId == yid
    | none => false)).length

/-- Insertion step for sorting videos by `publishedAt` descending (the
`orderBy: { publishedAt: "desc" }` of the Prisma queries); stable. -/
def insertByPublishedDesc (v : Video) : List Video → List Video
  | [] => [v]
  | w :: ws =>
    if v.publishedAt ≤ w.publishedAt then w :: insertByPublishedDesc v ws
    else v :: w :: ws

/-- Stable sort by `publishedAt` descending. -/
def sortByPublishedDesc : List Video → List Video
  | [] => []
  | v :: vs => insertByPublishedDesc v (sortByPublishedDesc vs)

/-- The sync handler's transcript-needing query:
`findMany({ where: { youtuberId, transcript: null }, orderBy: publishedAt desc, take: 50 })`. -/
def transcriptNeededSelection (db : DB) (yid : String) : List Video :=
  (sortByPublishedDesc (db.videos.filter (fun v =>
    v.youtuberId == yid && v.transcript.isNone))).take PIPELINE_maxVideosToProcess

/-- The analysis-phase selection used by `queueAnalysisJobs` and
`forceStartAnalysis`:
`findMany({ where: { youtuberId, transcript: { not: null }, analyzed: false }, orderBy: publishedAt desc, take: 50 })`. -/
def analysisCandidates (db : DB) (yid : String) : List Video :=
  (sortByPublishedDesc (db.videos.filter (fun v =>
    v.youtuberId == yid && v.transcript.isSome && !v.analyzed))).take PIPELINE_maxVideosToProcess

/-- JavaScript `Math.round` on a non-negative rational. -/
def jsRound (x : ℚ) : ℤ := ⌊x + 1 / 2⌋

/-- Predictions of a creator's analyzed videos carrying a non-null
`accuracyScore` (the prediction-level aggregate of `recalculateYouTuberScore`). -/
def analyzedScoredPreds (db : DB) (yid : String) : List Prediction :=
  db.predictions.filter (fun p =>
    (match db.findVideo p.videoId with
     | some v => v.youtuberId == yid && v.analyzed
     | none => false) && p.accuracyScore.isSome)

/-- Predictions of a creator's analyzed videos with `accuracyScore ≥ 70`
(the "correct" count of `recalculateYouTuberScore`). -/
def correctPreds (db : DB) (yid : String) : List Prediction :=
  db.predictions.filter (fun p =>
    (match db.findVideo p.videoId with
     | some v => v.youtuberId == yid && v.analyzed
     | none => false) &&
    (match p.accuracyScore with
     | some q => decide ((70 : ℚ) ≤ q)
     | none => false))

/-- Analyzed videos of a creator with non-null `avgScore` (the video-level
aggregate of `recalculateYouTuberScore`). -/
def analyzedScoredVideos (db : DB) (yid : String) : List Video :=
  db.videos.filter (fun v => v.youtuberId == yid && v.analyzed && v.avgScore.isSome)

/-- `recalculateYouTuberScore` (`channel.service.ts`): recomputes the creator
aggregates from Video/Prediction rows and writes them to the creator row. -/
def recalculateYouTuberScore (db : DB) (yid : String) : DB :=
  let scoredVideos := analyzedScoredVideos db yid
  let videoAvg : ℚ :=
    if scoredVideos.length = 0 then 0
    else (scoredVideos.map (fun v => v.avgScore.getD 0)).sum / scoredVideos.length
  let totalPredictions := (analyzedScoredPreds db yid).length
  let correct := (correctPreds db yid).length
  let accuracyPercent : ℚ :=
    if totalPredictions = 0 then 0
    else (jsRound ((correct : ℚ) / totalPredictions * 100 * 100) : ℚ) / 100
  { db with
    youtubers := db.youtubers.map (fun y =>
      if y.id == yid then
        { y with avgScore := videoAvg, totalPredictions := totalPredictions,
                 correctPredictions := correct, accuracyPercent := accuracyPercent }
      else y) }

/-- `completePipeline` (`pipeline.service.ts`): recalculate aggregates, count
analyzed videos and predictions, write `completed`; on a thrown error
(`err = some msg`) write `failed` instead. -/
def completePipelineFn (s : SysState) (yid : String) (err : Option String) :
    SysState × List StatusWrite :=
  match err with
  | some msg =>
    let (s1, w) := writeStatus s yid { status := some .failed, error := some msg }
    (s1, [w])
  | none =>
    let db1 := recalculateYouTuberScore s.db yid
    let s1 := { s with db := db1 }
    let analyzed := countAnalyzed db1 yid
    let preds := countPredictionsOf db1 yid
    let (s2, w) := writeStatus s1 yid
      { status := some .completed, videosAnalyzed := some analyzed,
        currentStep := some ("Completed! " ++ toString analyzed ++ " videos analyzed, "
          ++ toString preds ++ " predictions found."),
        completedAt := some nowISO }
    (s2, [w])

/-- `queueAnalysisJobs` (`pipeline.service.ts`): set status `analyzing`,
select un-analyzed videos with non-null transcript, then either complete the
pipeline immediately (no candidates) or enqueue one staggered analyze-video
job per candidate plus one trailing complete-pipeline job. -/
def queueAnalysisJobs (s : SysState) (yid : String) (completeErr : Option String) :
    SysState × List StatusWrite :=
  let (s1, w1) := writeStatus s yid
    { status := some .analyzing, currentStep := some "Starting video analysis..." }
  let vids := analysisCandidates s1.db yid
  if vids.isEmpty then
    let (s2, ws) := completePipelineFn s1 yid completeErr
    (s2, w1 :: ws)
  else
    let s2 := enqueueJobsFrom s1
      (staggered (fun v => .analyzeVideo v.id yid) PIPELINE_delayBetweenAnalysis 0 vids)
    let s3 := addJobS s2 (.completePipeline yid)
      (vids.length * PIPELINE_delayBetweenAnalysis + 5000)
    (s3, [w1])

/-- Result of the fetch-transcript handler. -/
structure FetchOut where
  state : SysState
  log : List StatusWrite
  advanced : Bool
  threw : Bool
deriving Repr

/-- `processFetchTranscript` (`pipeline.service.ts`): save the fetched
transcript, or on fetch failure write the unavailable sentinel; republish the
count of videos with any transcript; scan the queue for sibling
fetch-transcript jobs of the same creator and, when none remain, advance to
the analysis phase.  `fetchRes = none` models `fetchAndSaveTranscript`
throwing.  A missing video row makes the handler itself throw. -/
def processFetchTranscript (s : SysState) (jobId : Nat) (vid : Nat) (yid : String)
    (fetchRes : Option (List TranscriptSegment)) (completeErr : Option String) : FetchOut :=
  match s.db.findVideo vid with
  | none => ⟨s, [], false, true⟩
  | some _ =>
    let success := fetchRes.isSome
    let db1 :=
      match fetchRes with
      | some t => s.db.updateVideo vid (fun v => { v with transcript := some t })
      | none => s.db.updateVideo vid (fun v => { v with transcript := some unavailableTranscript })
    let s1 := { s with db := db1 }
    let cnt := countVideosWithTranscript db1 yid
    let (s2, w1) := writeStatus s1 yid
      { transcriptsFetched := some cnt,
        currentStep := some ("Processed " ++ toString cnt ++ " transcripts"
          ++ (if success then "" else " (some unavailable)") ++ "...") }
    let siblings := s2.queue.filter (fun j =>
      j.data.isFetch && j.data.creator == yid && j.id != jobId)
    if siblings.isEmpty then
      let (s3, ws) := queueAnalysisJobs s2 yid completeErr
      ⟨s3, w1 :: ws, true, false⟩
    else
      ⟨s2, [w1], false, false⟩

/-- Video metadata returned by the external video-platform listing. -/
structure VideoMeta where
  videoId : String
  publishedAt : Nat
deriving DecidableEq, Repr

/-- `prisma.video.upsert({ where: { videoId } })` inside `syncChannelVideos`:
create a fresh row (null transcript, not analyzed) when the external id is
new; the update branch touches only metadata fields not modelled here. -/
def upsertVideo (db : DB) (yid : String) (m : VideoMeta) : DB :=
  match db.videos.find? (fun v => v.videoId == m.videoId) with
  | some _ => db
  | none =>
    let fresh : Video :=
      { id := db.nextVideoId, videoId := m.videoId, youtuberId := yid, transcript := none,
        analyzed := false, avgScore := none, publishedAt := m.publishedAt }
    { db with videos := db.videos ++ [fresh], nextVideoId := db.nextVideoId + 1 }

/-- Upsert every fetched video in order. -/
def upsertVideos (db : DB) (yid : String) : List VideoMeta → DB
  | [] => db
  | m :: ms => upsertVideos (upsertVideo db yid m) yid ms

/-- Result of the sync-videos handler. -/
structure SyncOut where
  state : SysState
  log : List StatusWrite
  threw : Bool
deriving Repr

/-- The `timePeriod` string formatting of `processSyncVideos`. -/
def timePeriodText (monthsBack : Nat) : String :=
  if monthsBack ≥ 12 then
    toString (monthsBack / 12) ++ " year" ++ (if monthsBack / 12 > 1 then "s" else "")
  else
    toString monthsBack ++ " month" ++ (if monthsBack > 1 then "s" else "")

/-- `processSyncVideos` (`pipeline.service.ts`): upsert the fetched video
list, set status `fetching-transcripts` with the capped count, enqueue one
staggered fetch-transcript job per transcript-less video (or skip straight to
the analysis enqueue); on a thrown sync error write `failed` with the error
message and re-throw.  `syncRes` is the `syncChannelVideos` oracle. -/
def processSyncVideos (s : SysState) (yid : String) (monthsBack : Nat)
    (syncRes : Except String (List VideoMeta)) (completeErr : Option String) : SyncOut :=
  let (s0, w0) := writeStatus s yid
    { currentStep := some ("Syncing videos from last " ++ timePeriodText monthsBack ++ "...") }
  match syncRes with
  | .error msg =>
    let (s1, w1) := writeStatus s0 yid { status := some .failed, error := some msg }
    ⟨s1, [w0, w1], true⟩
  | .ok metas =>
    let db1 := upsertVideos s0.db yid metas
    let s1 := { s0 with db := db1 }
    let videoCount := min metas.length PIPELINE_maxVideosToProcess
    let (s2, w2) := writeStatus s1 yid
      { status := some .fetchingTranscripts, totalVideos := some videoCount,
        currentStep := some ("Found " ++ toString metas.length ++ " videos. Fetching transcripts...") }
    let vids := transcriptNeededSelection s2.db yid
    if vids.isEmpty then
      let (s3, ws) := queueAnalysisJobs s2 yid completeErr
      ⟨s3, w0 :: w2 :: ws, false⟩
    else
      let s3 := enqueueJobsFrom s2
        (staggered (fun v => .fetchTranscript v.id yid) PIPELINE_delayBetweenTranscripts 0 vids)
      ⟨s3, [w0, w2], false⟩

/-- One prediction extracted by the AI collaborator; `verification = some q`
means the verification search found data and scored it `q`, `none` means the
prediction was left unverified (null `accuracyScore`). -/
structure ExtractedPred where
  verification : Option ℚ
deriving DecidableEq, Repr

/-- The analysis result returned by `analyzeVideo` (counts only). -/
structure AnalysisResult where
  videoId : Nat
  predictionsFound : Nat
  predictionsVerified : Nat
  avgScore : ℚ
deriving DecidableEq, Repr

/-- The unavailable-placeholder test of `analysis.service.ts`:
`transcript.length === 1 && transcript[0]?.text === "TRANSCRIPT_UNAVAILABLE"`. -/
def isUnavailablePlaceholder (t : List TranscriptSegment) : Bool :=
  t.length == 1 && ((t.head?.map (·.text)).getD "" == "TRANSCRIPT_UNAVAILABLE")

/-- `analyzeVideo` (`analysis.service.ts`).  `crash = true` models any thrown
failure before side effects; `fetchRes` is the transcript-fetch oracle used by
`getTranscript` when the stored transcript is null; `extracted` is the AI
extraction/verification oracle.  On the unavailable placeholder the video is
marked analyzed with `avgScore 0` and no predictions are created; otherwise
one Prediction row per extracted prediction is created (with its verification
score), the video average is stored, and the creator aggregates recomputed. -/
def analyzeVideoFn (db : DB) (videoDbId : Nat) (fetchRes : Option (List TranscriptSegment))
    (extracted : List ExtractedPred) (crash : Bool) : Option (DB × AnalysisResult) :=
  if crash then none
  else
    match db.findVideo videoDbId with
    | none => none
    | some video =>
      let transcriptRes : Option (List TranscriptSegment) :=
        match video.transcript with
        | some t => some t
        | none => fetchRes
      match transcriptRes with
      | none => none
      | some transcript =>
        let db0 :=
          match video.transcript with
          | some _ => db
          | none => db.updateVideo videoDbId (fun v => { v with transcript := some transcript })
        if isUnavailablePlaceholder transcript then
          let db1 := db0.updateVideo videoDbId (fun v => { v with analyzed := true, avgScore := some 0 })
          some (db1, { videoId := videoDbId, predictionsFound := 0, predictionsVerified := 0, avgScore := 0 })
        else
          let newPreds := extracted.map (fun e =>
            ({ videoId := videoDbId, accuracyScore := e.verification } : Prediction))
          let db1 := { db0 with predictions := db0.predictions ++ newPreds }
          let scores := extracted.filterMap (·.verification)
          let avgScore : ℚ := if scores.length = 0 then 0 else scores.sum / scores.length
          let db2 := db1.updateVideo videoDbId (fun v => { v with analyzed := true, avgScore := some avgScore })
          let db3 := recalculateYouTuberScore db2 video.youtuberId
          some (db3, { videoId := videoDbId, predictionsFound := extracted.length,
                       predictionsVerified := scores.length, avgScore := avgScore })

/-- `processAnalyzeVideo` (`pipeline.service.ts`): run the analysis; on
success republish the analyzed-video count; on failure only log — a single
video's failure does not fail the pipeline. -/
def processAnalyzeVideo (s : SysState) (vid : Nat) (yid : String)
    (fetchRes : Option (List TranscriptSegment)) (extracted : List ExtractedPred)
    (crash : Bool) : SysState × List StatusWrite :=
  match analyzeVideoFn s.db vid fetchRes extracted crash with
  | none => (s, [])
  | some (db1, _res) =>
    let s1 := { s with db := db1 }
    let analyzed := countAnalyzed db1 yid
    let (s2, w) := writeStatus s1 yid
      { videosAnalyzed := some analyzed,
        currentStep := some ("Analyzed " ++ toString analyzed ++ " videos...") }
    (s2, [w])

/-- The sentinel-marking loop of `forceStartAnalysis`: every transcript-less
video of the creator gets the unavailable sentinel. -/
def markTranscriptless (db : DB) (yid : String) : DB :=
  { db with
    videos := db.videos.map (fun v =>
      if v.youtuberId == yid && v.transcript.isNone
      then { v with transcript := some unavailableTranscript } else v) }

/-- `forceStartAnalysis` (`pipeline.service.ts`): select the un-analyzed
videos with non-null transcript (before marking!), mark every transcript-less
video with the sentinel, then either write `completed` (nothing to analyze)
or write `analyzing` and enqueue the staggered analysis batch plus one
completion job. -/
def forceStartAnalysisFn (s : SysState) (yid : String) : SysState × List StatusWrite :=
  match s.db.findYoutuber yid with
  | none => (s, [])
  | some _ =>
    let videosToAnalyze := analysisCandidates s.db yid
    let s1 := { s with db := markTranscriptless s.db yid }
    if videosToAnalyze.isEmpty then
      let (s2, w) := writeStatus s1 yid
        { status := some .completed,
          currentStep := some "No videos with valid transcripts to analyze.",
          completedAt := some nowISO }
      (s2, [w])
    else
      let (s2, w) := writeStatus s1 yid
        { status := some .analyzing, totalVideos := some videosToAnalyze.length,
          transcriptsFetched := some videosToAnalyze.length, videosAnalyzed := some 0,
          currentStep := some ("Starting analysis of " ++ toString videosToAnalyze.length ++ " videos..."),
          startedAt := some nowISO }
      let s3 := enqueueJobsFrom s2
        (staggered (fun v => .analyzeVideo v.id yid) PIPELINE_delayBetweenAnalysis 0 videosToAnalyze)
      let s4 := addJobS s3 (.completePipeline yid)
        (videosToAnalyze.length * PIPELINE_delayBetweenAnalysis + 5000)
      (s4, [w])

/-- `startChannelPipeline` (`pipeline.service.ts`): initialize status to
`syncing` and enqueue the sync job. -/
def startChannelPipelineFn (s : SysState) (yid : String) : SysState × List StatusWrite :=
  match s.db.findYoutuber yid with
  | none => (s, [])
  | some y =>
    let (s1, w) := writeStatus s yid
      { status := some .syncing, totalVideos := some 0, transcriptsFetched := some 0,
        videosAnalyzed := some 0, currentStep := some "Starting video sync (last 1 year)...",
        startedAt := some nowISO }
    (addJobS s1 (.syncVideos yid y.channelId PIPELINE_defaultMonthsBack) 0, [w])

/-- `isPipelineRunning` (`pipeline.service.ts`). -/
def isPipelineRunningFn (store : List (String × PipelineStatus)) (yid : String) : Bool :=
  match getStatusEntry store yid with
  | none => false
  | some st =>
    st.status == .syncing || st.status == .fetchingTranscripts || st.status == .analyzing

/-- Whether any pending or active fetch-transcript job for the creator exists. -/
def hasFetchJobFor (queue : List QueuedJob) (yid : String) : Bool :=
  queue.any (fun j => j.data.isFetch && j.data.creator == yid)

/-- The stuck-pipeline test of `runStartupAnalysis`: a cached status exists,
reads `fetching-transcripts`, and no fetch-transcript job for the creator is
pending or active. -/
def isStuck (s : SysState) (yid : String) : Bool :=
  match getStatusEntry s.store yid with
  | some st => st.status == .fetchingTranscripts && !(hasFetchJobFor s.queue yid)
  | none => false

/-- The stuck-pipeline detection loop of `runStartupAnalysis`: for every
creator whose cached status is `fetching-transcripts` with no remaining
fetch-transcript job, invoke `forceStartAnalysis`. -/
def stuckSweepLoop (s : SysState) (log : List StatusWrite) :
    List YouTuberRec → SysState × List StatusWrite
  | [] => (s, log)
  | y :: ys =>
    if isStuck s y.id then
      let (s1, w) := forceStartAnalysisFn s y.id
      stuckSweepLoop s1 (log ++ w) ys
    else stuckSweepLoop s log ys

/-- The global orphaned-video query of `runStartupAnalysis`:
`findMany({ where: { transcript: { not: null }, analyzed: false }, orderBy: publishedAt desc, take: 100 })`. -/
def startupUnanalyzed (db : DB) : List Video :=
  (sortByPublishedDesc (db.videos.filter (fun v =>
    v.transcript.isSome && !v.analyzed))).take 100

/-- Fuel-driven helper for `groupByCreator`; the fuel dominates the list
length, so the zero-fuel branch is never taken at the call below. -/
def groupByCreatorAux : Nat → List Video → List (String × List Video)
  | 0, _ => []
  | _, [] => []
  | fuel + 1, v :: vs =>
    (v.youtuberId, v :: vs.filter (fun w => w.youtuberId == v.youtuberId)) ::
      groupByCreatorAux fuel (vs.filter (fun w => w.youtuberId != v.youtuberId))

/-- Grouping by creator in first-occurrence order (the JS `Map` grouping):
the first group is the head video's creator with all its videos in order,
followed by the grouping of the remaining videos. -/
def groupByCreator (vs : List Video) : List (String × List Video) :=
  groupByCreatorAux vs.length vs

/-- The per-creator enqueue loop of `runStartupAnalysis`'s orphan pass:
skip creators whose pipeline is running; otherwise write `analyzing` and
enqueue the analysis batch with delays offset by the running `jobsQueued`
counter, plus one completion job. -/
def orphanLoop (s : SysState) (log : List StatusWrite) (jobsQueued : Nat) :
    List (String × List Video) → SysState × List StatusWrite
  | [] => (s, log)
  | (yid, vids) :: gs =>
    if isPipelineRunningFn s.store yid then orphanLoop s log jobsQueued gs
    else
      let (s1, w) := writeStatus s yid
        { status := some .analyzing, totalVideos := some vids.length,
          transcriptsFetched := some vids.length, videosAnalyzed := some 0,
          currentStep := some ("Auto-analyzing " ++ toString vids.length ++ " videos on startup..."),
          startedAt := some nowISO }
      let s2 := enqueueJobsFrom s1
        (staggered (fun v => .analyzeVideo v.id yid) PIPELINE_delayBetweenAnalysis jobsQueued vids)
      let s3 := addJobS s2 (.completePipeline yid)
        ((jobsQueued + vids.length) * PIPELINE_delayBetweenAnalysis + 5000)
      orphanLoop s3 (log ++ [w]) (jobsQueued + vids.length) gs

/-- `runStartupAnalysis` (`pipeline.service.ts`): the stuck-pipeline sweep
over all creators, then the global orphaned-analysis pass grouped by creator. -/
def runStartupAnalysisFn (s : SysState) : SysState × List StatusWrite :=
  let (s1, log1) := stuckSweepLoop s [] s.db.youtubers
  let groups := groupByCreator (startupUnanalyzed s1.db)
  orphanLoop s1 log1 0 groups

/-- An operation of the whole system: a controller entry point, the startup
sweep, or the queue delivering one job to its handler (with the oracles for
the external calls that run during it). -/
inductive Op
  | start (yid : String)
  | runSync (jobId : Nat) (res : Except String (List VideoMeta)) (completeErr : Option String)
  | runFetch (jobId : Nat) (res : Option (List TranscriptSegment)) (completeErr : Option String)
  | runAnalyze (jobId : Nat) (fetchRes : Option (List TranscriptSegment))
      (extracted : List ExtractedPred) (crash : Bool)
  | runComplete (jobId : Nat) (err : Option String)
  | forceStart (yid : String)
  | sweep
deriving Repr

/-- Whether an operation is the administrative force-restart. -/
def Op.isForceStart : Op → Bool
  | .forceStart _ => true
  | _ => false

/-- Whether an operation is a controller start. -/
def Op.isStart : Op → Bool
  | .start _ => true
  | _ => false

/-- Whether an operation is the startup sweep. -/
def Op.isSweep : Op → Bool
  | .sweep => true
  | _ => false

/-- Look up a queued job by id. -/
def findJob (s : SysState) (jobId : Nat) : Option QueuedJob :=
  s.queue.find? (fun j => j.id == jobId)

/-- Remove a queued job by id (the queue marks it active/delivered). -/
def removeJob (s : SysState) (jobId : Nat) : SysState :=
  { s with queue := s.queue.filter (fun j => j.id != jobId) }

/-- The queue's reaction to a handler throw (`QUEUE_CONFIG.defaultJobOptions`):
retry with exponential backoff while attempts remain, otherwise move the job
to the failed set. -/
def retriedJob (j : QueuedJob) : QueuedJob :=
  { j with attemptsMade := j.attemptsMade + 1, delay := QUEUE_backoffDelay * 2 ^ j.attemptsMade }

def requeueFailed (s : SysState) (j : QueuedJob) : SysState :=
  if j.attemptsMade + 1 < QUEUE_attempts then
    { s with queue := s.queue ++ [retriedJob j] }
  else
    { s with failedJobs := s.failedJobs ++ [j] }

/-- Apply one operation: controller calls run directly; a `run*` operation
delivers the named job (when present and of the right type) to its handler
and applies the retry policy when the handler throws.  Returns the new state
and the list of status-store writes performed. -/
def applyOp (s : SysState) : Op → SysState × List StatusWrite
  | .start yid => startChannelPipelineFn s yid
  | .runSync jobId res completeErr =>
    (match findJob s jobId with
     | some j =>
       match j.data with
       | .syncVideos yid _ch monthsBack =>
         let out := processSyncVideos (removeJob s jobId) yid monthsBack res completeErr
         (if out.threw then requeueFailed out.state j else out.state, out.log)
       | _ => (s, [])
     | none => (s, []))
  | .runFetch jobId res completeErr =>
    (match findJob s jobId with
     | some j =>
       match j.data with
       | .fetchTranscript vid yid =>
         let out := processFetchTranscript (removeJob s jobId) jobId vid yid res completeErr
         (if out.threw then requeueFailed out.state j else out.state, out.log)
       | _ => (s, [])
     | none => (s, []))
  | .runAnalyze jobId fetchRes extracted crash =>
    (match findJob s jobId with
     | some j =>
       match j.data with
       | .analyzeVideo vid yid =>
         processAnalyzeVideo (removeJob s jobId) vid yid fetchRes extracted crash
       | _ => (s, [])
     | none => (s, []))
  | .runComplete jobId err =>
    (match findJob s jobId with
     | some j =>
       match j.data with
       | .completePipeline yid => completePipelineFn (removeJob s jobId) yid err
       | _ => (s, [])
     | none => (s, []))
  | .forceStart yid => forceStartAnalysisFn s yid
  | .sweep => runStartupAnalysisFn s

/-- Run a list of operations, concatenating the status-write logs. -/
def runOps (s : SysState) : List Op → SysState × List StatusWrite
  | [] => (s, [])
  | op :: ops =>
    let (s1, w1) := applyOp s op
    let (s2, w2) := runOps s1 ops
    (s2, w1 ++ w2)

/-- The system state at process start over a given relational store: empty
status store, empty queue. -/
def initState (db : DB) : SysState :=
  { db := db, store := [], queue := [], failedJobs := [], nextJobId := 0 }

/-- The statuses written for one creator, in order. -/
def statusLogFor (log : List StatusWrite) (yid : String) : List Status :=
  (log.filter (fun w => w.1 == yid)).map (fun w => w.2.status)

/-- Rank of a status in the forward phase order. -/
def Status.rank : Status → Nat
  | .idle => 0
  | .syncing => 1
  | .fetchingTranscripts => 2
  | .analyzing => 3
  | .completed => 4
  | .failed => 5

/-- The "never regresses" order on statuses: along the normal chain a status
may only advance, `failed` is terminal (nothing but `failed` may follow it),
and any status may step to `failed`. -/
def statusLe (a b : Status) : Bool :=
  if a == .failed then b == .failed else a.rank ≤ b.rank

/-- A status sequence never regresses: each consecutive pair respects
`statusLe`.  A sequence satisfying this (started at `idle`) is exactly a
subsequence of `idle → syncing → fetching-transcripts → analyzing → completed`
possibly ending in a (then final) run of `failed`. -/
def chainOk : List Status → Bool
  | [] => true
  | [_] => true
  | a :: b :: rest => statusLe a b && chainOk (b :: rest)

/-- The jobs queued for one creator. -/
def jobsFor (s : SysState) (c : String) : List QueuedJob :=
  s.queue.filter (fun j => j.data.creator == c)

/-- Delays of the pending analyze-video jobs of one creator. -/
def analyzeDelaysFor (queue : List QueuedJob) (c : String) : List Nat :=
  (queue.filter (fun j => j.data.isAnalyze && j.data.creator == c)).map (·.delay)

/-- Delays of the pending complete-pipeline jobs of one creator. -/
def completeDelaysFor (queue : List QueuedJob) (c : String) : List Nat :=
  (queue.filter (fun j => j.data.isComplete && j.data.creator == c)).map (·.delay)

/-- The queued jobs a staggered enqueue loop produces, with consecutive ids
from `baseId` and delays `offset * spacing, (offset+1) * spacing, ...`. -/
def staggeredJobsFrom (mk : Video → JobData) (spacing offset baseId : Nat) :
    List Video → List QueuedJob
  | [] => []
  | v :: vs =>
    { id := baseId, data := mk v, delay := offset * spacing, attemptsMade := 0 } ::
      staggeredJobsFrom mk spacing (offset + 1) (baseId + 1) vs

/-- A queued complete-pipeline job. -/
def completionJob (yid : String) (jid delay : Nat) : QueuedJob :=
  { id := jid, data := JobData.completePipeline yid, delay := delay, attemptsMade := 0 }

/-- The jobs the analysis-phase enqueue (`queueAnalysisJobs`, and likewise
`forceStartAnalysis`) appends to the queue: one analyze-video job per
candidate with delays `i * delayBetweenAnalysis`, then one complete-pipeline
job delayed `count * delayBetweenAnalysis + 5000`; nothing when there is no
candidate (the pipeline completes immediately instead). -/
def analysisBatch (db : DB) (yid : String) (baseId : Nat) : List QueuedJob :=
  let vids := analysisCandidates db yid
  if vids.isEmpty then []
  else
    staggeredJobsFrom (fun v => .analyzeVideo v.id yid) PIPELINE_delayBetweenAnalysis 0 baseId vids
      ++ [{ id := baseId + vids.length, data := .completePipeline yid,
            delay := vids.length * PIPELINE_delayBetweenAnalysis + 5000, attemptsMade := 0 }]

/-- An operation is tame when it is queue-driven (no controller start, no
administrative force-restart, no startup sweep) and its sync oracle, if any,
succeeds. -/
def Op.tame : Op → Bool
  | .start _ => false
  | .forceStart _ => false
  | .sweep => false
  | .runSync _ res _ =>
    (match res with
     | .ok _ => true
     | .error _ => false)
  | .runFetch _ _ _ => true
  | .runAnalyze _ _ _ _ => true
  | .runComplete _ _ => true

/-- An operation is queue-safe when it is not the administrative
force-restart and not a controller start (the startup sweep and all
queue-driven deliveries are allowed). -/
def Op.queueSafe : Op → Bool
  | .start _ => false
  | .forceStart _ => false
  | _ => true

/-- The stored status of a creator, `idle` when absent. -/
def statusOfS (s : SysState) (c : String) : Status :=
  ((getStatusEntry s.store c).map (·.status)).getD .idle

/-- Job ids are fresh and pairwise distinct. -/
def IdsOk (s : SysState) : Prop :=
  (∀ j ∈ s.queue, j.id < s.nextJobId) ∧ (s.queue.map (·.id)).Nodup

/-- Per-creator correlation between the stored status and the kinds of jobs
pending for that creator; this is the inductive invariant behind phase
monotonicity. -/
def TypeOk (s : SysState) (c : String) : Prop :=
  match statusOfS s c with
  | .idle => jobsFor s c = []
  | .syncing => (∀ j ∈ jobsFor s c, j.data.isSync) ∧ (jobsFor s c).length ≤ 1
  | .fetchingTranscripts => ∀ j ∈ jobsFor s c, j.data.isFetch
  | .analyzing =>
    (∀ j ∈ jobsFor s c, j.data.isAnalyze ∨ j.data.isComplete) ∧
      ((jobsFor s c).filter (fun j => j.data.isComplete)).length ≤ 1
  | .completed => ∀ j ∈ jobsFor s c, j.data.isAnalyze
  | .failed => ∀ j ∈ jobsFor s c, j.data.isAnalyze

/-- The fetch-transcript jobs pending in a queue. -/
def fetchJobsOf (queue : List QueuedJob) : List QueuedJob :=
  queue.filter (fun j => j.data.isFetch)

/-- Queue/database correlation behind the "no pending fetch job for a
sentinel-marked video" invariant: every pending fetch-transcript job
references an existing video of its own creator whose transcript is still
null, pending fetch jobs reference pairwise distinct videos, every pending
analyze-video job references an existing video with a non-null transcript,
a creator with a pending sync job has no pending fetch job, and video ids
are fresh and distinct. -/
def FetchInv (s : SysState) : Prop :=
  (∀ j ∈ s.queue, ∀ vid yid, j.data = .fetchTranscript vid yid →
    ∃ v ∈ s.db.videos, v.id = vid ∧ v.youtuberId = yid ∧ v.transcript = none) ∧
  (∀ j ∈ s.queue, ∀ vid yid, j.data = .fetchTranscript vid yid →
    ∀ k ∈ s.queue, ∀ vid' yid', k.data = .fetchTranscript vid' yid' →
      j.id ≠ k.id → vid ≠ vid') ∧
  (∀ j ∈ s.queue, ∀ vid yid, j.data = .analyzeVideo vid yid →
    ∃ v ∈ s.db.videos, v.id = vid ∧ v.transcript.isSome) ∧
  (∀ c, (∃ j ∈ s.queue, j.data.isSync ∧ j.data.creator = c) →
    ∀ j ∈ s.queue, ¬ (j.data.isFetch ∧ j.data.creator = c)) ∧
  (∀ v ∈ s.db.videos, v.id < s.db.nextVideoId) ∧
  ((s.db.videos.map (·.id)).Nodup)


/-- Invariant for the startup sweep's per-creator delay schedule: either no
analyze/complete job is queued for the creator, or the creator's pending
analysis jobs follow the offset staggered pattern with one trailing
completion job, and its status is `analyzing`. -/
def C4Inv (s : SysState) (c : String) : Prop :=
  (analyzeDelaysFor s.queue c = [] ∧ completeDelaysFor s.queue c = []) ∨
  (statusOfS s c = .analyzing ∧ ∃ o n, 0 < n ∧
    analyzeDelaysFor s.queue c
      = (List.range n).map (fun i => (o + i) * PIPELINE_delayBetweenAnalysis) ∧
    completeDelaysFor s.queue c = [(o + n) * PIPELINE_delayBetweenAnalysis + 5000])

/-- Whether some pending fetch-transcript job references a video whose stored
transcript is the unavailable sentinel (the intersection the C6 claim asserts
empty). -/
def fetchRefersSentinel (s : SysState) : Bool :=
  s.queue.any (fun j =>
    match j.data with
    | .fetchTranscript vid _ =>
      s.db.videos.any (fun v => v.id == vid && v.transcript == some unavailableTranscript)
    | _ => false)

/-- Well-formedness of the relational store: video primary keys are below the
id counter and pairwise distinct. -/
def DBWf (db : DB) : Prop :=
  (∀ v ∈ db.videos, v.id < db.nextVideoId) ∧ (db.videos.map (·.id)).Nodup

/-- At most one pending sync job per creator. -/
def syncUniqueFor (s : SysState) : Prop :=
  ∀ j ∈ s.queue, ∀ k ∈ s.queue, j.data.isSync = true → k.data.isSync = true →
    j.data.creator = k.data.creator → j = k

/-- The inductive invariant behind the fetch/sentinel disjointness claim:
fresh distinct job ids, the queue/database correlation `FetchInv`, and
per-creator sync-job uniqueness. -/
def C6Inv (s : SysState) : Prop :=
  IdsOk s ∧ FetchInv s ∧ syncUniqueFor s

/-- A controller start is admissible only for a creator with no pending jobs
(the pipeline is not already running through the queue); the administrative
force-restart is never admissible; queue deliveries and the startup sweep
always are. -/
def stepOkB (s : SysState) : Op → Bool
  | .forceStart _ => false
  | .start yid => s.queue.all (fun j => j.data.creator != yid)
  | _ => true

/-- Every step of the run is admissible in the state where it fires. -/
def okRunB : SysState → List Op → Bool
  | _, [] => true
  | s, op :: ops => stepOkB s op && okRunB (applyOp s op).1 ops

/-- A step is status-tame when it is a queue delivery with a succeeding sync
oracle, or a controller start of a creator that is idle with no pending jobs;
the force-restart and the startup sweep are not status-tame (both can rewind
the stored phase), and neither is a failing sync delivery (its `failed` write
would be rolled back by the queue's retry). -/
def stepTameB (s : SysState) : Op → Bool
  | .start yid => (statusOfS s yid == Status.idle) && (jobsFor s yid).isEmpty
  | .forceStart _ => false
  | .sweep => false
  | .runSync _ res _ =>
    (match res with
     | .ok _ => true
     | .error _ => false)
  | .runFetch _ _ _ => true
  | .runAnalyze _ _ _ _ => true
  | .runComplete _ _ => true

/-- Every step of the run is status-tame in the state where it fires. -/
def tameRunB : SysState → List Op → Bool
  | _, [] => true
  | s, op :: ops => stepTameB s op && tameRunB (applyOp s op).1 ops

/-- What one step (or run) guarantees per creator about the status store: the
type invariant is preserved, the statuses written for the creator extend the
current status without regressing, and the stored status afterwards is the
last status written (the current one when nothing was written). -/
def C2Post (s t : SysState) (log : List StatusWrite) (c : String) : Prop :=
  TypeOk t c ∧
  chainOk (statusOfS s c :: statusLogFor log c) = true ∧
  statusOfS t c = (statusLogFor log c).getLastD (statusOfS s c)

/-! ## Sample data used by concrete witnesses and counterexamples -/

/-- A one-segment real transcript for sample data. -/
def sampleSegment (t : String) : TranscriptSegment :=
  { text := t, offsetSec := 0, timestamp := "0:00", duration := 1 }

/-- Sample video row constructor. -/
def sampleVideo (i pub : Nat) (yid : String) (tr : Option (List TranscriptSegment))
    (an : Bool) : Video :=
  { id := i, videoId := "v" ++ toString i, youtuberId := yid, transcript := tr,
    analyzed := an, avgScore := none, publishedAt := pub }

/-- Five un-analyzed videos of creator "c": two sentinel-marked, three with
real transcripts (the C1 scenario). -/
def c1vids : List Video :=
  [ sampleVideo 1 50 "c" (some unavailableTranscript) false,
    sampleVideo 2 40 "c" (some unavailableTranscript) false,
    sampleVideo 3 30 "c" (some [sampleSegment "a"]) false,
    sampleVideo 4 20 "c" (some [sampleSegment "b"]) false,
    sampleVideo 5 10 "c" (some [sampleSegment "d"]) false ]

def c9sampleCur : PipelineStatus :=
  { youtuberId := "c", status := .analyzing, totalVideos := 7, transcriptsFetched := 5,
    videosAnalyzed := 2, currentStep := "step", error := none, startedAt := some "t0",
    completedAt := none }

/-- Sample partial update (names only `currentStep`) for the C9 witness. -/
def c9sampleUpd : StatusUpdate := { currentStep := some "next" }
def c8state : SysState :=
  { db := { youtubers := [], videos := [], predictions := [], nextVideoId := 0 }
    store := [], queue := [{ id := 0, data := .syncVideos "c" "ch" 12, delay := 0, attemptsMade := 0 }]
    failedJobs := [], nextJobId := 1 }
def ytC : YouTuberRec :=
  { id := "c", channelId := "ch", avgScore := 0, totalPredictions := 0,
    correctPredictions := 0, accuracyPercent := 0 }

/-- The sentinel-marked video row used by the C10 witness. -/
def c10video : Video :=
  { id := 1, videoId := "x1", youtuberId := "c", transcript := some unavailableTranscript,
    analyzed := false, avgScore := none, publishedAt := 3 }

/-- Concrete database for the C10 witness: one sentinel-marked video. -/
def c10db : DB := { youtubers := [ytC], videos := [c10video], predictions := [], nextVideoId := 2 }
def c7db : DB :=
  { youtubers := [{ ytC with totalPredictions := 5, correctPredictions := 5 }]
    videos := [{ c10video with analyzed := true }]
    predictions := [{ videoId := 1, accuracyScore := none }], nextVideoId := 2 }

/-- C7 counterexample: immediately after `complete-pipeline` runs on a
creator with one Prediction row whose `accuracyScore` is null, the stored
`totalPredictions` (0) does not equal the count of the creator's Prediction
rows (1): the aggregation counts only predictions with a non-null score on
analyzed videos. -/
def c5state : SysState :=
  { db := c10db, store := []
    queue := [{ id := 2, data := .fetchTranscript 9 "c", delay := 0, attemptsMade := 0 }]
    failedJobs := [], nextJobId := 3 }
def c1db : DB := { youtubers := [ytC], videos := c1vids, predictions := [], nextVideoId := 6 }

/-- C1 counterexample: on the concrete 5-video scenario (2 sentinel, 3 real,
none analyzed) the analysis-phase enqueue creates 5 analyze-video jobs, not
3 as the claim states. -/
def c4state : SysState :=
  initState
    { youtubers := [ytC, { ytC with id := "b", channelId := "chb" }]
      videos := [ sampleVideo 1 20 "c" (some [sampleSegment "a"]) false,
                  sampleVideo 2 10 "b" (some [sampleSegment "b"]) false ]
      predictions := [], nextVideoId := 3 }

/-- C4 counterexample: in the orphaned-analysis startup sweep over two
creators, the second creator's single analyze-video job is enqueued with
delay 3000 (offset by the first creator's jobs), not `0 × spacing = 0` as the
"exactly this same pattern" claim predicts. -/
def c3db : DB :=
  { youtubers := [ytC]
    videos := [ sampleVideo 1 10 "c" none false,
                sampleVideo 2 5 "c" (some [sampleSegment "a"]) false ]
    predictions := [], nextVideoId := 3 }

/-- The cached (stale) status record of the stuck creator. -/
def c3status : PipelineStatus :=
  { defaultStatus "c" with
    status := .fetchingTranscripts, totalVideos := 2, transcriptsFetched := 1 }

/-- Concrete stuck state for the C3 counterexample and witness. -/
def c3state : SysState :=
  { db := c3db, store := [("c", c3status)], queue := [], failedJobs := [], nextJobId := 0 }

/-- C3 counterexample: the sweep's enqueue is **not** "exactly as the §4.4
enqueue would at that point" when that enqueue is computed on the
post-marking state: on `c3state`, §4.4 on the marked database would enqueue
two analyze-video jobs (the just-marked video included), but the sweep
enqueues only one, because `forceStartAnalysis` selects its candidates
before writing the sentinels. -/
def c6db : DB :=
  { youtubers := [ytC], videos := [sampleVideo 1 10 "c" none false], predictions := [],
    nextVideoId := 2 }

/-- Start, deliver the sync job (it enqueues one fetch job for video 1), then
force-restart while that fetch job is still pending. -/
def c6badOps : List Op :=
  [Op.start "c", Op.runSync 0 (Except.ok []) none, Op.forceStart "c"]

/-- An admissible run: start, sync (enqueues the fetch job), deliver the fetch
job with a failed fetch (sentinel written, job consumed, analysis enqueued). -/
def c6ops : List Op :=
  [Op.start "c", Op.runSync 0 (Except.ok []) none, Op.runFetch 1 none none]

/-- C6 counterexample: with the force-restart the intersection is non-empty —
after start → sync → forceStart, the pending fetch job for video 1 references
a video whose transcript now holds the unavailable sentinel. -/
def c2db : DB :=
  { youtubers := [ytC]
    videos := [sampleVideo 1 10 "c" none false]
    predictions := [], nextVideoId := 2 }
def c2badOps : List Op :=
  [Op.start "c", Op.runSync 0 (Except.ok []) none, Op.runFetch 1 none none,
   Op.runAnalyze 2 none [] true, Op.runComplete 3 none, Op.sweep]
def c2ops : List Op :=
  [Op.start "c", Op.runSync 0 (Except.ok []) none,
   Op.runFetch 1 (some [sampleSegment "a"]) none]


/-! ## Shared lemmas about the status store -/

theorem getStatusEntry_set_self (store : List (String × PipelineStatus)) (yid : String)
    (st : PipelineStatus) : getStatusEntry (setStatusEntry store yid st) yid = some st := by
  simp [getStatusEntry, setStatusEntry]

theorem getStatusEntry_set_ne (store : List (String × PipelineStatus)) (yid c : String)
    (st : PipelineStatus) (h : yid ≠ c) :
    getStatusEntry (setStatusEntry store yid st) c = getStatusEntry store c := by
  simp only [getStatusEntry, setStatusEntry]
  have hbc : (yid == c) = false := by simpa using h
  rw [List.find?_cons_of_neg _ (by simp [hbc])]
  congr 1
  induction store with
  | nil => rfl
  | cons a l ih =>
    by_cases ha : a.1 = yid
    · have : (a.1 != yid) = false := by simp [ha]
      rw [List.filter_cons_of_neg (by simp [this])]
      rw [List.find?_cons_of_neg _ (by simp [ha, hbc, h])]
      exact ih
    · have : (a.1 != yid) = true := by simp [ha]
      rw [List.filter_cons_of_pos (by simp [this])]
      by_cases hac : a.1 = c
      · rw [List.find?_cons_of_pos _ (by simp [hac]), List.find?_cons_of_pos _ (by simp [hac])]
      · rw [List.find?_cons_of_neg _ (by simp [hac]), List.find?_cons_of_neg _ (by simp [hac])]
        exact ih

/-! ## C9: the status write is a read-merge-write with TTL reset -/

/-- C9: `updatePipelineStatus` is a read-merge-write: for every partial
update, each `PipelineStatus` field not named in the update keeps its
previously stored value (or the zero/idle/empty default when no record
exists), and every write — whatever fields it names — resets the record's
24-hour expiry. -/
theorem updatePipelineStatus_read_merge_write (yid : String) (cur : Option PipelineStatus)
    (u : StatusUpdate) (now : Nat) :
    (u.status = none →
      (updatePipelineStatusWrite yid cur u now).1.status = (cur.getD (defaultStatus yid)).status) ∧
    (u.totalVideos = none →
      (updatePipelineStatusWrite yid cur u now).1.totalVideos
        = (cur.getD (defaultStatus yid)).totalVideos) ∧
    (u.transcriptsFetched = none →
      (updatePipelineStatusWrite yid cur u now).1.transcriptsFetched
        = (cur.getD (defaultStatus yid)).transcriptsFetched) ∧
    (u.videosAnalyzed = none →
      (updatePipelineStatusWrite yid cur u now).1.videosAnalyzed
        = (cur.getD (defaultStatus yid)).videosAnalyzed) ∧
    (u.currentStep = none →
      (updatePipelineStatusWrite yid cur u now).1.currentStep
        = (cur.getD (defaultStatus yid)).currentStep) ∧
    (u.error = none →
      (updatePipelineStatusWrite yid cur u now).1.error = (cur.getD (defaultStatus yid)).error) ∧
    (u.startedAt = none →
      (updatePipelineStatusWrite yid cur u now).1.startedAt
        = (cur.getD (defaultStatus yid)).startedAt) ∧
    (u.completedAt = none →
      (updatePipelineStatusWrite yid cur u now).1.completedAt
        = (cur.getD (defaultStatus yid)).completedAt) ∧
    (updatePipelineStatusWrite yid cur u now).2 = now + STATUS_TTL_SECONDS := by
  refine ⟨?_, ?_, ?_, ?_, ?_, ?_, ?_, ?_, rfl⟩ <;>
    (intro h; simp [updatePipelineStatusWrite, applyUpdate, h])

/-- Sample stored record for the C9 witness. -/


theorem updatePipelineStatus_read_merge_write_witness :
    (updatePipelineStatusWrite "c" (some c9sampleCur) c9sampleUpd 11).1.status = .analyzing ∧
    (updatePipelineStatusWrite "c" (some c9sampleCur) c9sampleUpd 11).1.totalVideos = 7 ∧
    (updatePipelineStatusWrite "c" (some c9sampleCur) c9sampleUpd 11).2 = 11 + STATUS_TTL_SECONDS := by
  have h := updatePipelineStatus_read_merge_write "c" (some c9sampleCur) c9sampleUpd 11
  refine ⟨?_, ?_, h.2.2.2.2.2.2.2.2⟩
  · simpa [c9sampleCur] using h.1 rfl
  · simpa [c9sampleCur] using h.2.1 rfl

/-! ## C8: sync failure marks failed, re-throws, and the retry policy applies -/

/-- C8: when the sync handler's fetch/upsert throws, the handler writes status
`failed` carrying the error's message, enqueues no pipeline jobs of its own,
and re-throws — so the queue's retry policy (attempt budget
`QUEUE_attempts = 3`, exponential backoff with base `QUEUE_backoffDelay`)
applies to the whole sync job: while attempts remain the same sync job is
retried with exponentially backed-off delay, otherwise it moves to the failed
set. -/
theorem syncFailure_failsAndRethrows (s : SysState) (jobId : Nat) (j : QueuedJob)
    (yid ch : String) (mb : Nat) (msg : String) (completeErr : Option String)
    (hfind : findJob s jobId = some j) (hdata : j.data = .syncVideos yid ch mb) :
    ((getStatusEntry (applyOp s (.runSync jobId (.error msg) completeErr)).1.store yid).map
        (fun r => (r.status, r.error)) = some (.failed, some msg)) ∧
    ((applyOp s (.runSync jobId (.error msg) completeErr)).1.queue =
      (removeJob s jobId).queue ++
        (if j.attemptsMade + 1 < QUEUE_attempts then [retriedJob j] else [])) ∧
    ((applyOp s (.runSync jobId (.error msg) completeErr)).1.failedJobs =
      s.failedJobs ++ (if j.attemptsMade + 1 < QUEUE_attempts then [] else [j])) ∧
    QUEUE_attempts = 3 ∧ QUEUE_backoffKind = .exponential ∧ QUEUE_backoffDelay = 5000 := by
  by_cases hatt : j.attemptsMade + 1 < QUEUE_attempts <;>
    (simp [applyOp, hfind, hdata, processSyncVideos, writeStatus, requeueFailed, removeJob,
      getStatusEntry_set_self, applyUpdate, hatt, QUEUE_backoffKind, retriedJob];
     exact ⟨rfl, rfl⟩)

/-- Concrete single-job state for the C8 witness. -/

theorem syncFailure_failsAndRethrows_witness :
    ((getStatusEntry (applyOp c8state (.runSync 0 (.error "boom") none)).1.store "c").map
        (fun r => (r.status, r.error)) = some (.failed, some "boom")) ∧
    QUEUE_attempts = 3 := by
  have h := syncFailure_failsAndRethrows c8state 0
    { id := 0, data := .syncVideos "c" "ch" 12, delay := 0, attemptsMade := 0 }
    "c" "ch" 12 "boom" none rfl rfl
  exact ⟨h.1, h.2.2.2.1⟩

/-! ## C10: analysis of a sentinel-marked video is a harmless no-op -/

/-- C10: when `analyzeVideo` runs on a video whose stored transcript is
exactly the single-segment `TRANSCRIPT_UNAVAILABLE` sentinel, it marks the
video analyzed with `avgScore 0`, creates no Prediction rows, and returns a
result with zero predictions found and zero verified — independently of the
AI oracles, which are never consulted. -/
theorem analyzeVideo_sentinel_noop (db : DB) (vid : Nat) (v : Video)
    (hfind : db.findVideo vid = some v)
    (htr : v.transcript = some unavailableTranscript)
    (fetchRes : Option (List TranscriptSegment)) (extracted : List ExtractedPred) :
    analyzeVideoFn db vid fetchRes extracted false
      = some (db.updateVideo vid (fun w => { w with analyzed := true, avgScore := some 0 }),
              { videoId := vid, predictionsFound := 0, predictionsVerified := 0, avgScore := 0 }) ∧
    (db.updateVideo vid (fun w => { w with analyzed := true, avgScore := some 0 })).predictions
      = db.predictions := by
  refine ⟨?_, rfl⟩
  simp [analyzeVideoFn, hfind, htr, isUnavailablePlaceholder, unavailableTranscript,
    unavailableSegment]


/-! ## C7: aggregates written by complete-pipeline -/

theorem find?_cons_eq {α : Type} (p : α → Bool) (a : α) (l : List α) :
    List.find? p (a :: l) = cond (p a) (some a) (List.find? p l) := rfl

theorem find?_map_update (l : List YouTuberRec) (yid : String) (f : YouTuberRec → YouTuberRec)
    (hf : ∀ z, (f z).id = z.id) :
    (l.map (fun z => if z.id == yid then f z else z)).find? (fun z => z.id == yid)
      = (l.find? (fun z => z.id == yid)).map f := by
  induction l with
  | nil => rfl
  | cons a l ih =>
    simp only [List.map_cons]
    rw [find?_cons_eq, find?_cons_eq]
    by_cases h : (a.id == yid) = true
    · rw [if_pos h]
      have hfa : ((f a).id == yid) = true := by rw [hf]; exact h
      rw [hfa, h]
      rfl
    · have hb : (a.id == yid) = false := by simpa using h
      rw [if_neg h, hb]
      simpa using ih

/-- The creator row after `recalculateYouTuberScore`: all four aggregates are
replaced by recomputed values over the persisted rows. -/
theorem recalc_findYoutuber (db : DB) (yid : String) (y : YouTuberRec)
    (hy : db.findYoutuber yid = some y) :
    (recalculateYouTuberScore db yid).findYoutuber yid = some
      { y with
        avgScore :=
          if (analyzedScoredVideos db yid).length = 0 then 0
          else ((analyzedScoredVideos db yid).map (fun v => v.avgScore.getD 0)).sum
            / ((analyzedScoredVideos db yid).length : ℚ),
        totalPredictions := (analyzedScoredPreds db yid).length,
        correctPredictions := (correctPreds db yid).length,
        accuracyPercent :=
          if (analyzedScoredPreds db yid).length = 0 then 0
          else (jsRound (((correctPreds db yid).length : ℚ)
              / ((analyzedScoredPreds db yid).length : ℚ) * 100 * 100) : ℚ) / 100 } := by
  have key := find?_map_update db.youtubers yid
    (fun z => { z with
        avgScore :=
          if (analyzedScoredVideos db yid).length = 0 then 0
          else ((analyzedScoredVideos db yid).map (fun v => v.avgScore.getD 0)).sum
            / ((analyzedScoredVideos db yid).length : ℚ),
        totalPredictions := (analyzedScoredPreds db yid).length,
        correctPredictions := (correctPreds db yid).length,
        accuracyPercent :=
          if (analyzedScoredPreds db yid).length = 0 then 0
          else (jsRound (((correctPreds db yid).length : ℚ)
              / ((analyzedScoredPreds db yid).length : ℚ) * 100 * 100) : ℚ) / 100 })
    (fun z => rfl)
  simp only [recalculateYouTuberScore, DB.findYoutuber] at hy ⊢
  rw [key, hy]
  rfl

theorem completePipelineFn_db (s : SysState) (yid : String) :
    (completePipelineFn s yid none).1.db = recalculateYouTuberScore s.db yid := by
  simp [completePipelineFn, writeStatus]

/-- Database with one analyzed video and one unverified prediction (null
`accuracyScore`), refuting the raw-row-count reading of the aggregate. -/

theorem completePipeline_aggregates_counterexample :
    ¬ (((completePipelineFn (initState c7db) "c" none).1.db.findYoutuber "c").map
          (·.totalPredictions)
        = some (countPredictionsOf (completePipelineFn (initState c7db) "c" none).1.db "c")) := by
  decide

/-- C7 amended: immediately after `complete-pipeline` runs for a creator, the
stored aggregates equal a direct aggregation over the (unchanged) persisted
rows at that instant, recomputed rather than incremented — but the
aggregation is over the predictions of *analyzed* videos with a *non-null*
`accuracyScore`: `totalPredictions` is the count of those rows,
`correctPredictions` the count of those with score ≥ 70, and
`accuracyPercent` their percentage rounded to two decimals (0 when there are
none); the status is then `completed`. -/
theorem completePipeline_aggregates (s : SysState) (yid : String) (y : YouTuberRec)
    (hy : s.db.findYoutuber yid = some y) :
    ∃ r, (completePipelineFn s yid none).1.db.findYoutuber yid = some r ∧
      (completePipelineFn s yid none).1.db.predictions = s.db.predictions ∧
      (completePipelineFn s yid none).1.db.videos = s.db.videos ∧
      r.totalPredictions = (analyzedScoredPreds s.db yid).length ∧
      r.correctPredictions = (correctPreds s.db yid).length ∧
      r.accuracyPercent =
        (if (analyzedScoredPreds s.db yid).length = 0 then (0 : ℚ)
         else (jsRound (((correctPreds s.db yid).length : ℚ)
             / ((analyzedScoredPreds s.db yid).length : ℚ) * 100 * 100) : ℚ) / 100) ∧
      ((getStatusEntry (completePipelineFn s yid none).1.store yid).map (·.status))
        = some Status.completed := by
  refine ⟨{ y with
      avgScore :=
        if (analyzedScoredVideos s.db yid).length = 0 then 0
        else ((analyzedScoredVideos s.db yid).map (fun v => v.avgScore.getD 0)).sum
          / ((analyzedScoredVideos s.db yid).length : ℚ),
      totalPredictions := (analyzedScoredPreds s.db yid).length,
      correctPredictions := (correctPreds s.db yid).length,
      accuracyPercent :=
        if (analyzedScoredPreds s.db yid).length = 0 then 0
        else (jsRound (((correctPreds s.db yid).length : ℚ)
            / ((analyzedScoredPreds s.db yid).length : ℚ) * 100 * 100) : ℚ) / 100 },
    ?_, ?_, ?_, rfl, rfl, rfl, ?_⟩
  · rw [completePipelineFn_db]
    exact recalc_findYoutuber s.db yid y hy
  · rw [completePipelineFn_db]
    simp [recalculateYouTuberScore]
  · rw [completePipelineFn_db]
    simp [recalculateYouTuberScore]
  · simp [completePipelineFn, writeStatus, getStatusEntry_set_self, applyUpdate]

theorem completePipeline_aggregates_witness :
    ∃ r, (completePipelineFn (initState c7db) "c" none).1.db.findYoutuber "c" = some r ∧
      (completePipelineFn (initState c7db) "c" none).1.db.predictions = c7db.predictions ∧
      (completePipelineFn (initState c7db) "c" none).1.db.videos = c7db.videos ∧
      r.totalPredictions = (analyzedScoredPreds c7db "c").length ∧
      r.correctPredictions = (correctPreds c7db "c").length ∧
      r.accuracyPercent =
        (if (analyzedScoredPreds c7db "c").length = 0 then (0 : ℚ)
         else (jsRound (((correctPreds c7db "c").length : ℚ)
             / ((analyzedScoredPreds c7db "c").length : ℚ) * 100 * 100) : ℚ) / 100) ∧
      ((getStatusEntry (completePipelineFn (initState c7db) "c" none).1.store "c").map (·.status))
        = some Status.completed :=
  completePipeline_aggregates (initState c7db) "c"
    { ytC with totalPredictions := 5, correctPredictions := 5 } (by decide)

theorem analyzeVideo_sentinel_noop_witness :
    analyzeVideoFn c10db 1 none [{ verification := some 90 }] false
      = some (c10db.updateVideo 1 (fun w => { w with analyzed := true, avgScore := some 0 }),
              { videoId := 1, predictionsFound := 0, predictionsVerified := 0, avgScore := 0 }) := by
  exact (analyzeVideo_sentinel_noop c10db 1 c10video (by decide) rfl none
    [{ verification := some 90 }]).1

/-! ## Shared lemmas about the analysis-phase enqueue -/

theorem completePipelineFn_db_some (s : SysState) (yid msg : String) :
    (completePipelineFn s yid (some msg)).1.db = s.db := by
  simp [completePipelineFn, writeStatus]

theorem completePipelineFn_queue (s : SysState) (yid : String) (err : Option String) :
    (completePipelineFn s yid err).1.queue = s.queue := by
  cases err <;> simp [completePipelineFn, writeStatus]

theorem completePipelineFn_nextJobId (s : SysState) (yid : String) (err : Option String) :
    (completePipelineFn s yid err).1.nextJobId = s.nextJobId := by
  cases err <;> simp [completePipelineFn, writeStatus]

theorem completePipelineFn_transcriptsFetched (s : SysState) (yid : String) (err : Option String) :
    (getStatusEntry (completePipelineFn s yid err).1.store yid).map (·.transcriptsFetched)
      = some ((getStatusEntry s.store yid).getD (defaultStatus yid)).transcriptsFetched := by
  cases err <;>
    simp [completePipelineFn, writeStatus, getStatusEntry_set_self, applyUpdate]

theorem enqueueStaggered_spec (mk : Video → JobData) (spacing : Nat) (vids : List Video) :
    ∀ (offset : Nat) (s : SysState),
      enqueueJobsFrom s (staggered mk spacing offset vids)
        = { s with queue := s.queue ++ staggeredJobsFrom mk spacing offset s.nextJobId vids,
                   nextJobId := s.nextJobId + vids.length } := by
  induction vids with
  | nil => intro offset s; simp [staggered, enqueueJobsFrom, staggeredJobsFrom]
  | cons v vs ih =>
    intro offset s
    simp only [staggered, enqueueJobsFrom, staggeredJobsFrom, ih, addJobS]
    simp
    omega

theorem queueAnalysisJobs_queue (s : SysState) (yid : String) (err : Option String) :
    (queueAnalysisJobs s yid err).1.queue = s.queue ++ analysisBatch s.db yid s.nextJobId := by
  unfold queueAnalysisJobs analysisBatch
  by_cases hv : (analysisCandidates s.db yid).isEmpty
  · cases err <;> simp [hv, completePipelineFn, writeStatus]
  · simp [hv, writeStatus, enqueueStaggered_spec, addJobS]

theorem queueAnalysisJobs_db_videos (s : SysState) (yid : String) (err : Option String) :
    (queueAnalysisJobs s yid err).1.db.videos = s.db.videos := by
  unfold queueAnalysisJobs
  by_cases hv : (analysisCandidates s.db yid).isEmpty
  · cases err <;>
      simp [hv, completePipelineFn, writeStatus, recalculateYouTuberScore]
  · simp [hv, writeStatus, enqueueStaggered_spec, addJobS]

theorem queueAnalysisJobs_transcriptsFetched (s : SysState) (yid : String) (err : Option String) :
    (getStatusEntry (queueAnalysisJobs s yid err).1.store yid).map (·.transcriptsFetched)
      = some ((getStatusEntry s.store yid).getD (defaultStatus yid)).transcriptsFetched := by
  unfold queueAnalysisJobs
  simp only [writeStatus]
  by_cases hv : (analysisCandidates s.db yid).isEmpty
  · simp only [hv, if_true]
    rw [completePipelineFn_transcriptsFetched]
    simp [getStatusEntry_set_self, applyUpdate]
  · simp [hv, enqueueStaggered_spec, addJobS, getStatusEntry_set_self, applyUpdate]

/-! ## C5: the fetch-transcript handler republishes progress and advances -/

theorem countVideosWithTranscript_congr (db db' : DB) (yid : String)
    (h : db.videos = db'.videos) :
    countVideosWithTranscript db yid = countVideosWithTranscript db' yid := by
  simp [countVideosWithTranscript, h]

/-- C5: after each fetch-transcript job finishes (fetch succeeded or its
failure handled by the sentinel write), the handler stores into
PipelineStatus the count of the creator's videos with any non-null transcript
(real or sentinel), and it advances to the analysis phase if and only if no
other pending or active fetch-transcript job for the same creator exists
besides the job currently finishing. -/
theorem fetchHandler_republishes_and_advances (s : SysState) (jobId vid : Nat) (yid : String)
    (v : Video) (hfind : s.db.findVideo vid = some v)
    (fetchRes : Option (List TranscriptSegment)) (completeErr : Option String) :
    ((getStatusEntry (processFetchTranscript s jobId vid yid fetchRes completeErr).state.store
        yid).map (·.transcriptsFetched)
      = some (countVideosWithTranscript
          (processFetchTranscript s jobId vid yid fetchRes completeErr).state.db yid)) ∧
    ((processFetchTranscript s jobId vid yid fetchRes completeErr).advanced = true ↔
      s.queue.filter (fun j => j.data.isFetch && j.data.creator == yid && j.id != jobId) = []) := by
  unfold processFetchTranscript
  rw [hfind]
  by_cases hs : (s.queue.filter
      (fun j => j.data.isFetch && j.data.creator == yid && j.id != jobId)).isEmpty
  · have hnil : s.queue.filter
        (fun j => j.data.isFetch && j.data.creator == yid && j.id != jobId) = [] :=
      List.isEmpty_iff.mp hs
    cases fetchRes <;>
      (constructor
       · simp only [writeStatus, hnil]
         simp only [List.isEmpty_nil, if_true]
         rw [queueAnalysisJobs_transcriptsFetched]
         rw [countVideosWithTranscript_congr _ _ _ (queueAnalysisJobs_db_videos _ _ _)]
         simp [getStatusEntry_set_self, applyUpdate]
       · simp [writeStatus, hnil])
  · have hne : ¬ s.queue.filter
        (fun j => j.data.isFetch && j.data.creator == yid && j.id != jobId) = [] := by
      intro hh
      rw [hh] at hs
      exact hs List.isEmpty_nil
    cases fetchRes <;>
      (constructor
       · simp [writeStatus, hs, getStatusEntry_set_self, applyUpdate]
       · simp [writeStatus, hs, hne])


/-- Concrete state for the C5 witness: the finishing job has a sibling
fetch-transcript job for the same creator still pending. -/

theorem fetchHandler_republishes_and_advances_witness :
    ((getStatusEntry (processFetchTranscript c5state 1 1 "c" none none).state.store "c").map
        (·.transcriptsFetched)
      = some (countVideosWithTranscript
          (processFetchTranscript c5state 1 1 "c" none none).state.db "c")) ∧
    ((processFetchTranscript c5state 1 1 "c" none none).advanced = true ↔
      c5state.queue.filter (fun j => j.data.isFetch && j.data.creator == "c" && j.id != 1)
        = []) :=
  fetchHandler_republishes_and_advances c5state 1 1 "c" c10video (by decide) none none

/-! ## C1: the analysis-phase enqueue after the transcript phase -/

theorem insertByPublishedDesc_length (v : Video) :
    ∀ l : List Video, (insertByPublishedDesc v l).length = l.length + 1 := by
  intro l
  induction l with
  | nil => rfl
  | cons w ws ih =>
    by_cases h : v.publishedAt ≤ w.publishedAt <;> simp [insertByPublishedDesc, h, ih]

theorem sortByPublishedDesc_length :
    ∀ l : List Video, (sortByPublishedDesc l).length = l.length := by
  intro l
  induction l with
  | nil => rfl
  | cons v vs ih => simp [sortByPublishedDesc, insertByPublishedDesc_length, ih]

theorem length_filter_split {α : Type} (l : List α) (p q : α → Bool) :
    (l.filter (fun a => p a && q a)).length + (l.filter (fun a => p a && !q a)).length
      = (l.filter p).length := by
  induction l with
  | nil => rfl
  | cons a l ih =>
    cases hp : p a <;> cases hq : q a <;> simp [List.filter_cons, hp, hq] <;> omega

theorem analysisCandidates_length (db : DB) (yid : String)
    (h : (db.videos.filter (fun v =>
      v.youtuberId == yid && v.transcript.isSome && !v.analyzed)).length ≤ 50) :
    (analysisCandidates db yid).length
      = (db.videos.filter (fun v =>
          v.youtuberId == yid && v.transcript.isSome && !v.analyzed)).length := by
  simp only [analysisCandidates, PIPELINE_maxVideosToProcess, List.length_take,
    sortByPublishedDesc_length]
  omega

theorem isAnalyze_analyzeVideo (vid : Nat) (yid : String) :
    (JobData.analyzeVideo vid yid).isAnalyze = true := rfl

theorem isAnalyze_completePipeline (yid : String) :
    (JobData.completePipeline yid).isAnalyze = false := rfl

theorem filter_analyze_staggered (yid : String) (spacing : Nat) :
    ∀ (vids : List Video) (offset baseId : Nat),
      ((staggeredJobsFrom (fun v => JobData.analyzeVideo v.id yid) spacing offset baseId
          vids).filter (fun j => j.data.isAnalyze)).length = vids.length := by
  intro vids
  induction vids with
  | nil => intro offset baseId; rfl
  | cons v vs ih =>
    intro offset baseId
    simp only [staggeredJobsFrom, List.filter_cons, isAnalyze_analyzeVideo, if_true,
      List.length_cons, ih]

theorem analysisBatch_analyze_count (db : DB) (yid : String) (baseId : Nat) :
    ((analysisBatch db yid baseId).filter (fun j => j.data.isAnalyze)).length
      = (analysisCandidates db yid).length := by
  unfold analysisBatch
  by_cases hv : (analysisCandidates db yid).isEmpty
  · simp [hv, List.isEmpty_iff.mp hv]
  · simp [hv, List.filter_append, filter_analyze_staggered, isAnalyze_completePipeline]

/-- C1 amended: for a creator with 5 un-analyzed videos carrying a non-null
transcript — 2 holding the unavailable sentinel and 3 holding real
transcripts — the analysis-phase enqueue creates exactly 5 analyze-video
jobs, one per video *including* the sentinel-marked ones (the selection
filter is `transcript != null`); the sentinel jobs later no-op in the
analysis handler rather than being excluded at enqueue time. -/
theorem analysisEnqueue_counts_sentinels (s : SysState) (yid : String)
    (hsen : (s.db.videos.filter (fun v =>
        (v.youtuberId == yid && v.transcript.isSome && !v.analyzed)
          && (v.transcript == some unavailableTranscript))).length = 2)
    (hreal : (s.db.videos.filter (fun v =>
        (v.youtuberId == yid && v.transcript.isSome && !v.analyzed)
          && !(v.transcript == some unavailableTranscript))).length = 3) :
    ((queueAnalysisJobs s yid none).1.queue.filter (fun j => j.data.isAnalyze)).length
      = (s.queue.filter (fun j => j.data.isAnalyze)).length + 5 := by
  have hsplit := length_filter_split s.db.videos
    (fun v => v.youtuberId == yid && v.transcript.isSome && !v.analyzed)
    (fun v => v.transcript == some unavailableTranscript)
  have h5 : (s.db.videos.filter (fun v =>
      v.youtuberId == yid && v.transcript.isSome && !v.analyzed)).length = 5 := by
    omega
  rw [queueAnalysisJobs_queue, List.filter_append, List.length_append,
    analysisBatch_analyze_count, analysisCandidates_length _ _ (by omega)]
  omega

/-- Concrete database realising the C1 scenario. -/

theorem analysisEnqueue_counts_sentinels_counterexample :
    ¬ (((queueAnalysisJobs (initState c1db) "c" none).1.queue.filter
        (fun j => j.data.isAnalyze)).length = 3) := by
  decide

theorem analysisEnqueue_counts_sentinels_witness :
    ((queueAnalysisJobs (initState c1db) "c" none).1.queue.filter
        (fun j => j.data.isAnalyze)).length
      = ((initState c1db).queue.filter (fun j => j.data.isAnalyze)).length + 5 :=
  analysisEnqueue_counts_sentinels (initState c1db) "c" (by decide) (by decide)


/-! ## C4: staggered delays and the trailing completion job -/

theorem isComplete_analyzeVideo (vid : Nat) (yid : String) :
    (JobData.analyzeVideo vid yid).isComplete = false := rfl

theorem isComplete_completePipeline (yid : String) :
    (JobData.completePipeline yid).isComplete = true := rfl

theorem filter_analyze_staggered_eq (yid : String) (spacing : Nat) :
    ∀ (vids : List Video) (offset baseId : Nat),
      (staggeredJobsFrom (fun v => JobData.analyzeVideo v.id yid) spacing offset baseId
          vids).filter (fun j => j.data.isAnalyze)
        = staggeredJobsFrom (fun v => JobData.analyzeVideo v.id yid) spacing offset baseId vids := by
  intro vids
  induction vids with
  | nil => intro offset baseId; rfl
  | cons v vs ih =>
    intro offset baseId
    simp only [staggeredJobsFrom, List.filter_cons, isAnalyze_analyzeVideo, if_true, ih]

theorem filter_complete_staggered_nil (yid : String) (spacing : Nat) :
    ∀ (vids : List Video) (offset baseId : Nat),
      (staggeredJobsFrom (fun v => JobData.analyzeVideo v.id yid) spacing offset baseId
          vids).filter (fun j => j.data.isComplete) = [] := by
  intro vids
  induction vids with
  | nil => intro offset baseId; rfl
  | cons v vs ih =>
    intro offset baseId
    simp only [staggeredJobsFrom, List.filter_cons, isComplete_analyzeVideo, ih]
    simp

theorem staggered_delays (yid : String) (spacing : Nat) :
    ∀ (vids : List Video) (offset baseId : Nat),
      (staggeredJobsFrom (fun v => JobData.analyzeVideo v.id yid) spacing offset baseId
          vids).map (·.delay)
        = (List.range vids.length).map (fun i => (offset + i) * spacing) := by
  intro vids
  induction vids with
  | nil => intro offset baseId; rfl
  | cons v vs ih =>
    intro offset baseId
    simp only [staggeredJobsFrom, List.map_cons, List.length_cons, List.range_succ_eq_map,
      ih, List.map_map]
    refine List.cons_eq_cons.mpr ⟨by simp, ?_⟩
    exact List.map_congr_left (fun i _ => by
      show (offset + 1 + i) * spacing = (offset + (i + 1)) * spacing
      exact congrArg (· * spacing) (by omega))

theorem pattern_delays_lt (o n spacing m d : Nat) (hm : 0 < m)
    (hd : d ∈ (List.range n).map (fun i => (o + i) * spacing)) :
    d < (o + n) * spacing + m := by
  obtain ⟨i, hi, rfl⟩ := List.mem_map.mp hd
  have hin : i < n := List.mem_range.mp hi
  have hle : (o + i) * spacing ≤ (o + n) * spacing :=
    Nat.mul_le_mul_right spacing (by omega)
  omega

theorem enqueueJobsFrom_store (ds : List (JobData × Nat)) :
    ∀ s : SysState, (enqueueJobsFrom s ds).store = s.store := by
  induction ds with
  | nil => intro s; rfl
  | cons d ds ih => intro s; simp [enqueueJobsFrom, ih, addJobS]

theorem statusOfS_write (s : SysState) (yid : String) (u : StatusUpdate) (st : Status)
    (hu : u.status = some st) : statusOfS (writeStatus s yid u).1 yid = st := by
  simp [statusOfS, writeStatus, getStatusEntry_set_self, applyUpdate, hu]

theorem statusOfS_write_ne (s : SysState) (yid : String) (u : StatusUpdate) (c : String)
    (h : yid ≠ c) : statusOfS (writeStatus s yid u).1 c = statusOfS s c := by
  simp [statusOfS, writeStatus, getStatusEntry_set_ne _ _ _ _ h]

theorem isRunning_of_analyzing (s : SysState) (c : String) (h : statusOfS s c = .analyzing) :
    isPipelineRunningFn s.store c = true := by
  unfold statusOfS at h
  unfold isPipelineRunningFn
  cases hg : getStatusEntry s.store c with
  | none => rw [hg] at h; simp at h
  | some st =>
    rw [hg] at h
    simp only [Option.map_some', Option.getD_some] at h
    simp [h]

theorem staggered_creator_analyze (yid : String) (spacing : Nat) :
    ∀ (vids : List Video) (offset baseId : Nat),
      ∀ j ∈ staggeredJobsFrom (fun v => JobData.analyzeVideo v.id yid) spacing offset baseId vids,
        j.data.creator = yid ∧ j.data.isAnalyze = true := by
  intro vids
  induction vids with
  | nil => intro offset baseId j hj; simp [staggeredJobsFrom] at hj
  | cons v vs ih =>
    intro offset baseId j hj
    simp only [staggeredJobsFrom, List.mem_cons] at hj
    rcases hj with h | h
    · subst h; exact ⟨rfl, rfl⟩
    · exact ih _ _ j h

theorem analysisBatch_creator (db : DB) (yid : String) (baseId : Nat) :
    ∀ j ∈ analysisBatch db yid baseId, j.data.creator = yid := by
  intro j hj
  simp only [analysisBatch] at hj
  by_cases hv : (analysisCandidates db yid).isEmpty
  · simp [hv] at hj
  · rw [if_neg hv] at hj
    rcases List.mem_append.mp hj with h | h
    · exact (staggered_creator_analyze yid _ _ _ _ j h).1
    · rw [List.mem_singleton] at h
      subst h; rfl

theorem analyzeDelaysFor_append (q1 q2 : List QueuedJob) (c : String) :
    analyzeDelaysFor (q1 ++ q2) c = analyzeDelaysFor q1 c ++ analyzeDelaysFor q2 c := by
  simp [analyzeDelaysFor, List.filter_append]

theorem completeDelaysFor_append (q1 q2 : List QueuedJob) (c : String) :
    completeDelaysFor (q1 ++ q2) c = completeDelaysFor q1 c ++ completeDelaysFor q2 c := by
  simp [completeDelaysFor, List.filter_append]

theorem delaysFor_nil_of_other_creator (q : List QueuedJob) (c yid : String) (hne : yid ≠ c)
    (h : ∀ j ∈ q, j.data.creator = yid) :
    analyzeDelaysFor q c = [] ∧ completeDelaysFor q c = [] := by
  constructor <;>
    (simp only [analyzeDelaysFor, completeDelaysFor]
     rw [List.filter_eq_nil_iff.mpr, List.map_nil]
     intro j hj
     have hc := h j hj
     simp [hc, hne])

theorem filter_analyzeFor_staggered_eq (c : String) (spacing : Nat) :
    ∀ (vids : List Video) (offset baseId : Nat),
      (staggeredJobsFrom (fun v => JobData.analyzeVideo v.id c) spacing offset baseId
          vids).filter (fun j => j.data.isAnalyze && j.data.creator == c)
        = staggeredJobsFrom (fun v => JobData.analyzeVideo v.id c) spacing offset baseId vids := by
  intro vids
  induction vids with
  | nil => intro offset baseId; rfl
  | cons v vs ih =>
    intro offset baseId
    simp only [staggeredJobsFrom, List.filter_cons, ih]
    simp [JobData.creator, isAnalyze_analyzeVideo]

theorem filter_completeFor_staggered_nil (c : String) (spacing : Nat) :
    ∀ (vids : List Video) (offset baseId : Nat),
      (staggeredJobsFrom (fun v => JobData.analyzeVideo v.id c) spacing offset baseId
          vids).filter (fun j => j.data.isComplete && j.data.creator == c) = [] := by
  intro vids
  induction vids with
  | nil => intro offset baseId; rfl
  | cons v vs ih =>
    intro offset baseId
    simp only [staggeredJobsFrom, List.filter_cons, ih]
    simp [isComplete_analyzeVideo]

theorem staggered_analyze_delaysFor (c : String) (spacing : Nat) (vids : List Video)
    (offset baseId : Nat) :
    analyzeDelaysFor (staggeredJobsFrom (fun v => JobData.analyzeVideo v.id c) spacing offset
        baseId vids) c
      = (List.range vids.length).map (fun i => (offset + i) * spacing) := by
  unfold analyzeDelaysFor
  rw [filter_analyzeFor_staggered_eq, staggered_delays]

theorem staggered_complete_delaysFor (c : String) (spacing : Nat) (vids : List Video)
    (offset baseId : Nat) :
    completeDelaysFor (staggeredJobsFrom (fun v => JobData.analyzeVideo v.id c) spacing offset
        baseId vids) c = [] := by
  unfold completeDelaysFor
  rw [filter_completeFor_staggered_nil, List.map_nil]

theorem analysisBatch_empty (db : DB) (c : String) (baseId : Nat)
    (he : (analysisCandidates db c).isEmpty) : analysisBatch db c baseId = [] := by
  simp [analysisBatch, he]

theorem analysisBatch_analyze_delaysFor (db : DB) (c : String) (baseId : Nat)
    (hne : ¬ (analysisCandidates db c).isEmpty = true) :
    analyzeDelaysFor (analysisBatch db c baseId) c
      = (List.range (analysisCandidates db c).length).map
          (fun i => (0 + i) * PIPELINE_delayBetweenAnalysis) := by
  simp only [analysisBatch]
  rw [if_neg hne, analyzeDelaysFor_append, staggered_analyze_delaysFor]
  simp [analyzeDelaysFor, isAnalyze_completePipeline]

theorem analysisBatch_complete_delaysFor (db : DB) (c : String) (baseId : Nat)
    (hne : ¬ (analysisCandidates db c).isEmpty = true) :
    completeDelaysFor (analysisBatch db c baseId) c
      = [(analysisCandidates db c).length * PIPELINE_delayBetweenAnalysis + 5000] := by
  simp only [analysisBatch]
  rw [if_neg hne, completeDelaysFor_append, staggered_complete_delaysFor]
  simp [completeDelaysFor, isComplete_completePipeline, JobData.creator]

theorem forceStart_state_none (s : SysState) (yid : String)
    (hy : s.db.findYoutuber yid = none) : (forceStartAnalysisFn s yid).1 = s := by
  simp [forceStartAnalysisFn, hy]

theorem forceStart_queue_some (s : SysState) (yid : String) (y : YouTuberRec)
    (hy : s.db.findYoutuber yid = some y) :
    (forceStartAnalysisFn s yid).1.queue = s.queue ++ analysisBatch s.db yid s.nextJobId := by
  simp only [forceStartAnalysisFn, analysisBatch]
  rw [hy]
  by_cases hv : (analysisCandidates s.db yid).isEmpty
  · simp [hv, writeStatus]
  · simp [hv, writeStatus, enqueueStaggered_spec, addJobS]

theorem forceStart_statusOf_ne (s : SysState) (yid c : String) (h : yid ≠ c) :
    statusOfS (forceStartAnalysisFn s yid).1 c = statusOfS s c := by
  cases hy : s.db.findYoutuber yid with
  | none => rw [forceStart_state_none s yid hy]
  | some y =>
    simp only [forceStartAnalysisFn]
    rw [hy]
    by_cases hv : (analysisCandidates s.db yid).isEmpty <;>
      simp [hv, statusOfS, writeStatus, getStatusEntry_set_ne _ _ _ _ h,
        enqueueStaggered_spec, addJobS]

theorem forceStart_statusOf_self (s : SysState) (yid : String) (y : YouTuberRec)
    (hy : s.db.findYoutuber yid = some y) :
    statusOfS (forceStartAnalysisFn s yid).1 yid
      = (if (analysisCandidates s.db yid).isEmpty then Status.completed
         else Status.analyzing) := by
  simp only [forceStartAnalysisFn]
  rw [hy]
  by_cases hv : (analysisCandidates s.db yid).isEmpty <;>
    simp [hv, statusOfS, writeStatus, getStatusEntry_set_self, applyUpdate,
      enqueueStaggered_spec, addJobS]

theorem forceStart_C4Inv (s : SysState) (c : String) (yid : String)
    (hguard : yid = c → statusOfS s c ≠ .analyzing)
    (h : C4Inv s c) : C4Inv (forceStartAnalysisFn s yid).1 c := by
  by_cases hyc : yid = c
  · subst hyc
    rcases h with hclear | hpat
    · cases hy : s.db.findYoutuber yid with
      | none => rw [forceStart_state_none s yid hy]; exact Or.inl hclear
      | some y =>
        by_cases hv : (analysisCandidates s.db yid).isEmpty
        · left
          rw [forceStart_queue_some s yid y hy, analysisBatch_empty _ _ _ hv,
            List.append_nil]
          exact hclear
        · right
          have hlen : 0 < (analysisCandidates s.db yid).length :=
            List.length_pos.mpr (fun hnil => hv (by simp [hnil]))
          refine ⟨?_, 0, (analysisCandidates s.db yid).length, hlen, ?_, ?_⟩
          · rw [forceStart_statusOf_self s yid y hy, if_neg hv]
          · rw [forceStart_queue_some s yid y hy, analyzeDelaysFor_append, hclear.1,
              analysisBatch_analyze_delaysFor _ _ _ hv, List.nil_append]
          · rw [forceStart_queue_some s yid y hy, completeDelaysFor_append, hclear.2,
              analysisBatch_complete_delaysFor _ _ _ hv, List.nil_append]
            simp
    · exact absurd hpat.1 (hguard rfl)
  · cases hy : s.db.findYoutuber yid with
    | none => rw [forceStart_state_none s yid hy]; exact h
    | some y =>
      have hb := delaysFor_nil_of_other_creator (analysisBatch s.db yid s.nextJobId) c yid hyc
        (analysisBatch_creator s.db yid s.nextJobId)
      have hst := forceStart_statusOf_ne s yid c hyc
      unfold C4Inv
      rw [forceStart_queue_some s yid y hy, analyzeDelaysFor_append, completeDelaysFor_append,
        hb.1, hb.2, hst, List.append_nil, List.append_nil]
      exact h

theorem stuckSweepLoop_inv (c : String) :
    ∀ (ys : List YouTuberRec) (s : SysState) (log : List StatusWrite),
      C4Inv s c → C4Inv (stuckSweepLoop s log ys).1 c := by
  intro ys
  induction ys with
  | nil => intro s log h; exact h
  | cons y ys ih =>
    intro s log h
    show C4Inv (stuckSweepLoop s log (y :: ys)).1 c
    rw [stuckSweepLoop]
    by_cases hcond : isStuck s y.id = true
    · rw [if_pos hcond]
      refine ih _ _ (forceStart_C4Inv s c y.id ?_ h)
      intro hyc han
      rw [hyc] at hcond
      unfold isStuck at hcond
      unfold statusOfS at han
      cases hg : getStatusEntry s.store c with
      | none => rw [hg] at han; simp at han
      | some st =>
        rw [hg] at hcond han
        simp only [Option.map_some', Option.getD_some] at han
        simp [han] at hcond
    · rw [if_neg hcond]
      exact ih s log h

theorem groupByCreatorAux_nonempty :
    ∀ (fuel : Nat) (l : List Video) (g : String × List Video),
      g ∈ groupByCreatorAux fuel l → g.2 ≠ [] := by
  intro fuel
  induction fuel with
  | zero => intro l g hg; simp [groupByCreatorAux] at hg
  | succ fuel ih =>
    intro l g hg
    cases l with
    | nil => simp [groupByCreatorAux] at hg
    | cons v vs =>
      simp only [groupByCreatorAux, List.mem_cons] at hg
      rcases hg with h | h
      · rw [h]; simp
      · exact ih _ g h

theorem orphanStep_state (s : SysState) (yid : String) (vids : List Video) (q : Nat)
    (u : StatusUpdate) :
    (addJobS (enqueueJobsFrom (writeStatus s yid u).1
        (staggered (fun v => JobData.analyzeVideo v.id yid) PIPELINE_delayBetweenAnalysis q vids))
      (JobData.completePipeline yid)
      ((q + vids.length) * PIPELINE_delayBetweenAnalysis + 5000)).queue
      = s.queue
        ++ staggeredJobsFrom (fun v => JobData.analyzeVideo v.id yid)
            PIPELINE_delayBetweenAnalysis q s.nextJobId vids
        ++ [completionJob yid (s.nextJobId + vids.length)
              ((q + vids.length) * PIPELINE_delayBetweenAnalysis + 5000)] := by
  simp [writeStatus, enqueueStaggered_spec, addJobS, completionJob]

theorem orphanStep_store (s : SysState) (yid : String) (vids : List Video) (q : Nat)
    (u : StatusUpdate) :
    (addJobS (enqueueJobsFrom (writeStatus s yid u).1
        (staggered (fun v => JobData.analyzeVideo v.id yid) PIPELINE_delayBetweenAnalysis q vids))
      (JobData.completePipeline yid)
      ((q + vids.length) * PIPELINE_delayBetweenAnalysis + 5000)).store
      = (writeStatus s yid u).1.store := by
  simp [enqueueStaggered_spec, addJobS]

theorem orphanStep_inv_self (s : SysState) (c : String) (vids : List Video) (q : Nat)
    (u : StatusUpdate) (hu : u.status = some .analyzing) (hlen : 0 < vids.length)
    (hclear : analyzeDelaysFor s.queue c = [] ∧ completeDelaysFor s.queue c = []) :
    C4Inv (addJobS (enqueueJobsFrom (writeStatus s c u).1
        (staggered (fun v => JobData.analyzeVideo v.id c) PIPELINE_delayBetweenAnalysis q vids))
      (JobData.completePipeline c)
      ((q + vids.length) * PIPELINE_delayBetweenAnalysis + 5000)) c := by
  right
  refine ⟨?_, q, vids.length, hlen, ?_, ?_⟩
  · unfold statusOfS
    rw [orphanStep_store]
    have := statusOfS_write s c u .analyzing hu
    unfold statusOfS at this
    exact this
  · rw [orphanStep_state, analyzeDelaysFor_append, analyzeDelaysFor_append, hclear.1,
      staggered_analyze_delaysFor, List.nil_append]
    simp [analyzeDelaysFor, isAnalyze_completePipeline, completionJob]
  · rw [orphanStep_state, completeDelaysFor_append, completeDelaysFor_append, hclear.2,
      staggered_complete_delaysFor, List.nil_append, List.nil_append]
    simp [completeDelaysFor, isComplete_completePipeline, JobData.creator, completionJob]

theorem orphanStep_inv_ne (s : SysState) (c yid : String) (hyc : yid ≠ c) (vids : List Video)
    (q : Nat) (u : StatusUpdate) (h : C4Inv s c) :
    C4Inv (addJobS (enqueueJobsFrom (writeStatus s yid u).1
        (staggered (fun v => JobData.analyzeVideo v.id yid) PIPELINE_delayBetweenAnalysis q vids))
      (JobData.completePipeline yid)
      ((q + vids.length) * PIPELINE_delayBetweenAnalysis + 5000)) c := by
  have hjobs : ∀ j ∈ staggeredJobsFrom (fun v => JobData.analyzeVideo v.id yid)
      PIPELINE_delayBetweenAnalysis q s.nextJobId vids
      ++ [completionJob yid (s.nextJobId + vids.length)
            ((q + vids.length) * PIPELINE_delayBetweenAnalysis + 5000)],
      j.data.creator = yid := by
    intro j hj
    rcases List.mem_append.mp hj with hh | hh
    · exact (staggered_creator_analyze yid _ _ _ _ j hh).1
    · rw [List.mem_singleton] at hh
      subst hh; rfl
  have hb := delaysFor_nil_of_other_creator _ c yid hyc hjobs
  have hst : statusOfS (addJobS (enqueueJobsFrom (writeStatus s yid u).1
      (staggered (fun v => JobData.analyzeVideo v.id yid) PIPELINE_delayBetweenAnalysis q vids))
      (JobData.completePipeline yid)
      ((q + vids.length) * PIPELINE_delayBetweenAnalysis + 5000)) c = statusOfS s c := by
    unfold statusOfS
    rw [orphanStep_store]
    have := statusOfS_write_ne s yid u c hyc
    unfold statusOfS at this
    exact this
  unfold C4Inv
  rw [orphanStep_state, List.append_assoc, analyzeDelaysFor_append, completeDelaysFor_append,
    hb.1, hb.2, hst, List.append_nil, List.append_nil]
  exact h

theorem orphanLoop_inv (c : String) :
    ∀ (gs : List (String × List Video)) (s : SysState) (log : List StatusWrite) (q : Nat),
      (∀ g ∈ gs, g.2 ≠ []) → C4Inv s c → C4Inv (orphanLoop s log q gs).1 c := by
  intro gs
  induction gs with
  | nil => intro s log q _ h; exact h
  | cons g gs ih =>
    intro s log q hne h
    obtain ⟨yid, vids⟩ := g
    show C4Inv (orphanLoop s log q ((yid, vids) :: gs)).1 c
    rw [orphanLoop]
    by_cases hrun : isPipelineRunningFn s.store yid = true
    · rw [if_pos hrun]
      exact ih s log q (fun g hg => hne g (List.mem_cons_of_mem _ hg)) h
    · rw [if_neg hrun]
      have hvne : vids ≠ [] := hne (yid, vids) (List.mem_cons_self _ _)
      have hlen : 0 < vids.length := List.length_pos.mpr hvne
      by_cases hyc : yid = c
      · subst hyc
        rcases h with hclear | hpat
        · exact ih _ _ _ (fun g hg => hne g (List.mem_cons_of_mem _ hg))
            (orphanStep_inv_self s yid vids q _ rfl hlen hclear)
        · exact absurd (isRunning_of_analyzing s yid hpat.1) hrun
      · exact ih _ _ _ (fun g hg => hne g (List.mem_cons_of_mem _ hg))
          (orphanStep_inv_ne s c yid hyc vids q _ h)

theorem sweep_C4Inv (s : SysState) (c : String) (h : C4Inv s c) :
    C4Inv (runStartupAnalysisFn s).1 c := by
  have h1 := stuckSweepLoop_inv c s.db.youtubers s [] h
  unfold runStartupAnalysisFn
  exact orphanLoop_inv c _ _ _ _
    (fun g hg => groupByCreatorAux_nonempty _ _ g hg) h1

/-- C4 amended: (a) whenever the in-pipeline analysis enqueue runs with
`count > 0` candidate videos, the i-th analyze-video job carries delay
`i × delayBetweenAnalysis` and exactly one complete-pipeline job carries
delay `count × delayBetweenAnalysis + 5000`, exceeding every sibling's delay;
(b) the startup sweep (stuck-pipeline repair followed by the
orphaned-analysis pass) enqueues, per creator it picks up, the same pattern
shifted by a constant offset `o` — the running count of analysis jobs already
queued for earlier creators in the same sweep (`o = 0` in the stuck-pipeline
repair, which uses exactly the §4.4 pattern) — with completion delay
`(o + count) × delayBetweenAnalysis + 5000`, still exceeding every sibling's
delay.  The claim's assertion that the orphan sweep uses *exactly* the
unshifted pattern is false. -/
theorem staggeredDelays_and_completion :
    (∀ (s : SysState) (yid : String) (err : Option String),
      ¬ (analysisCandidates s.db yid).isEmpty = true →
      ((queueAnalysisJobs s yid err).1.queue = s.queue ++ analysisBatch s.db yid s.nextJobId ∧
       ((analysisBatch s.db yid s.nextJobId).filter (fun j => j.data.isAnalyze)).map (·.delay)
         = (List.range (analysisCandidates s.db yid).length).map
             (fun i => i * PIPELINE_delayBetweenAnalysis) ∧
       ((analysisBatch s.db yid s.nextJobId).filter (fun j => j.data.isComplete)).map (·.delay)
         = [(analysisCandidates s.db yid).length * PIPELINE_delayBetweenAnalysis + 5000] ∧
       ∀ d ∈ ((analysisBatch s.db yid s.nextJobId).filter
           (fun j => j.data.isAnalyze)).map (·.delay),
         d < (analysisCandidates s.db yid).length * PIPELINE_delayBetweenAnalysis + 5000)) ∧
    (∀ (s : SysState) (c : String),
      analyzeDelaysFor s.queue c = [] → completeDelaysFor s.queue c = [] →
      ((analyzeDelaysFor (runStartupAnalysisFn s).1.queue c = [] ∧
        completeDelaysFor (runStartupAnalysisFn s).1.queue c = []) ∨
       ∃ o n, 0 < n ∧
         analyzeDelaysFor (runStartupAnalysisFn s).1.queue c
           = (List.range n).map (fun i => (o + i) * PIPELINE_delayBetweenAnalysis) ∧
         completeDelaysFor (runStartupAnalysisFn s).1.queue c
           = [(o + n) * PIPELINE_delayBetweenAnalysis + 5000] ∧
         ∀ d ∈ analyzeDelaysFor (runStartupAnalysisFn s).1.queue c,
           d < (o + n) * PIPELINE_delayBetweenAnalysis + 5000)) := by
  constructor
  · intro s yid err hne
    have hA : ((analysisBatch s.db yid s.nextJobId).filter (fun j => j.data.isAnalyze)).map
        (·.delay)
        = (List.range (analysisCandidates s.db yid).length).map
            (fun i => i * PIPELINE_delayBetweenAnalysis) := by
      simp only [analysisBatch]
      rw [if_neg hne, List.filter_append, filter_analyze_staggered_eq]
      simp only [List.filter_cons, List.filter_nil, isAnalyze_completePipeline,
        Bool.false_eq_true, if_false, List.append_nil]
      rw [staggered_delays]
      exact List.map_congr_left (fun i _ => by rw [Nat.zero_add])
    refine ⟨queueAnalysisJobs_queue s yid err, hA, ?_, ?_⟩
    · simp only [analysisBatch]
      rw [if_neg hne, List.filter_append, filter_complete_staggered_nil]
      simp [isComplete_completePipeline]
    · intro d hd
      rw [hA] at hd
      obtain ⟨i, hi, rfl⟩ := List.mem_map.mp hd
      have hin := List.mem_range.mp hi
      have hle : i * PIPELINE_delayBetweenAnalysis
          ≤ (analysisCandidates s.db yid).length * PIPELINE_delayBetweenAnalysis :=
        Nat.mul_le_mul_right _ (by omega)
      omega
  · intro s c h1 h2
    have hinv := sweep_C4Inv s c (Or.inl ⟨h1, h2⟩)
    rcases hinv with hcl | ⟨_, o, n, hn, ha, hc⟩
    · exact Or.inl hcl
    · refine Or.inr ⟨o, n, hn, ha, hc, ?_⟩
      intro d hd
      rw [ha] at hd
      exact pattern_delays_lt o n _ 5000 d (by omega) hd

/-- Two-creator state for the C4 counterexample and witness: each creator has
one orphaned analyzed-pending video, no pipeline status cached. -/

theorem staggeredDelays_and_completion_counterexample :
    ¬ (analyzeDelaysFor (runStartupAnalysisFn c4state).1.queue "b"
        = (List.range 1).map (fun i => i * PIPELINE_delayBetweenAnalysis)) := by
  decide

theorem staggeredDelays_and_completion_witness :
    (((queueAnalysisJobs (initState c1db) "c" none).1.queue
        = (initState c1db).queue ++ analysisBatch (initState c1db).db "c"
            (initState c1db).nextJobId) ∧
      ((analysisBatch (initState c1db).db "c" (initState c1db).nextJobId).filter
          (fun j => j.data.isAnalyze)).map (·.delay)
        = (List.range (analysisCandidates (initState c1db).db "c").length).map
            (fun i => i * PIPELINE_delayBetweenAnalysis) ∧
      ((analysisBatch (initState c1db).db "c" (initState c1db).nextJobId).filter
          (fun j => j.data.isComplete)).map (·.delay)
        = [(analysisCandidates (initState c1db).db "c").length * PIPELINE_delayBetweenAnalysis
            + 5000] ∧
      ∀ d ∈ ((analysisBatch (initState c1db).db "c" (initState c1db).nextJobId).filter
          (fun j => j.data.isAnalyze)).map (·.delay),
        d < (analysisCandidates (initState c1db).db "c").length * PIPELINE_delayBetweenAnalysis
            + 5000) ∧
    ((analyzeDelaysFor (runStartupAnalysisFn c4state).1.queue "b" = [] ∧
      completeDelaysFor (runStartupAnalysisFn c4state).1.queue "b" = []) ∨
     ∃ o n, 0 < n ∧
       analyzeDelaysFor (runStartupAnalysisFn c4state).1.queue "b"
         = (List.range n).map (fun i => (o + i) * PIPELINE_delayBetweenAnalysis) ∧
       completeDelaysFor (runStartupAnalysisFn c4state).1.queue "b"
         = [(o + n) * PIPELINE_delayBetweenAnalysis + 5000] ∧
       ∀ d ∈ analyzeDelaysFor (runStartupAnalysisFn c4state).1.queue "b",
         d < (o + n) * PIPELINE_delayBetweenAnalysis + 5000) :=
  ⟨staggeredDelays_and_completion.1 (initState c1db) "c" none (by decide),
   staggeredDelays_and_completion.2 c4state "b" (by decide) (by decide)⟩


/-! ## C3: the stuck-at-transcript recovery sweep -/

theorem filter_map_comm {α : Type} (f g : α → α) (p : α → Bool)
    (hp : ∀ v, p (f v) = p v) (hfg : ∀ v, p v = true → f v = g v) :
    ∀ l : List α, (l.map f).filter p = (l.filter p).map g := by
  intro l
  induction l with
  | nil => rfl
  | cons a l ih =>
    cases hb : p a with
    | true =>
      have hpa : p (f a) = true := by rw [hp a, hb]
      rw [List.map_cons, List.filter_cons, List.filter_cons, if_pos hpa, if_pos hb,
        List.map_cons, ih, hfg a hb]
    | false =>
      have hpa : ¬ p (f a) = true := by rw [hp a, hb]; exact Bool.false_ne_true
      have hpb : ¬ p a = true := by rw [hb]; exact Bool.false_ne_true
      rw [List.map_cons, List.filter_cons, List.filter_cons, if_neg hpa, if_neg hpb, ih]

theorem markTranscriptless_filter_other (db : DB) (d c : String) (hdc : d ≠ c) :
    (markTranscriptless db d).videos.filter (fun v => v.youtuberId == c)
      = db.videos.filter (fun v => v.youtuberId == c) := by
  show (db.videos.map _).filter _ = _
  rw [filter_map_comm _ id _ ?hp ?hfg, List.map_id]
  case hp =>
    intro v
    by_cases h : (v.youtuberId == d && v.transcript.isNone) = true <;> simp [h]
  case hfg =>
    intro v hv
    have h1 : v.youtuberId = c := beq_iff_eq.mp hv
    have h2 : (v.youtuberId == d) = false := by
      rw [h1, beq_eq_false_iff_ne]
      exact fun hh => hdc hh.symm
    simp [h2]

theorem mark_filter_self (db : DB) (c : String) :
    (markTranscriptless db c).videos.filter (fun v => v.youtuberId == c)
      = (db.videos.filter (fun v => v.youtuberId == c)).map
          (fun v => if v.transcript.isNone then
            { v with transcript := some unavailableTranscript } else v) := by
  show (db.videos.map _).filter _ = _
  rw [filter_map_comm _ _ _ ?hp ?hfg]
  case hp =>
    intro v
    by_cases h : (v.youtuberId == c && v.transcript.isNone) = true <;> simp [h]
  case hfg =>
    intro v hv
    by_cases h : v.transcript.isNone = true <;> simp [hv, h]

theorem candidates_filter_factor (m : List Video) (c : String) :
    m.filter (fun v => v.youtuberId == c && v.transcript.isSome && !v.analyzed)
      = (m.filter (fun v => v.youtuberId == c)).filter
          (fun v => v.transcript.isSome && !v.analyzed) := by
  induction m with
  | nil => rfl
  | cons a l ih =>
    cases hb : a.youtuberId == c <;> cases ht : a.transcript.isSome <;>
      cases ha : a.analyzed <;> simp [List.filter_cons, hb, ht, ha, ih]

theorem analysisCandidates_congr (db db' : DB) (c : String)
    (h : db.videos.filter (fun v => v.youtuberId == c)
      = db'.videos.filter (fun v => v.youtuberId == c)) :
    analysisCandidates db c = analysisCandidates db' c := by
  unfold analysisCandidates
  rw [candidates_filter_factor, candidates_filter_factor, h]

theorem analysisBatch_congr (db db' : DB) (c : String) (b : Nat)
    (h : db.videos.filter (fun v => v.youtuberId == c)
      = db'.videos.filter (fun v => v.youtuberId == c)) :
    analysisBatch db c b = analysisBatch db' c b := by
  unfold analysisBatch
  rw [analysisCandidates_congr db db' c h]

theorem analysisBatch_not_fetch (db : DB) (yid : String) (baseId : Nat) :
    ∀ j ∈ analysisBatch db yid baseId, j.data.isFetch = false := by
  intro j hj
  simp only [analysisBatch] at hj
  by_cases hv : (analysisCandidates db yid).isEmpty
  · simp [hv] at hj
  · rw [if_neg hv] at hj
    rcases List.mem_append.mp hj with h | h
    · have := (staggered_creator_analyze yid _ _ _ _ j h).2
      cases hj2 : j.data <;> simp_all [JobData.isAnalyze, JobData.isFetch]
    · rw [List.mem_singleton] at h
      subst h; rfl

theorem hasFetchJobFor_append_no_fetch (q l : List QueuedJob) (c : String)
    (h : ∀ j ∈ l, j.data.isFetch = false) :
    hasFetchJobFor (q ++ l) c = hasFetchJobFor q c := by
  unfold hasFetchJobFor
  rw [List.any_append]
  have : l.any (fun j => j.data.isFetch && j.data.creator == c) = false := by
    rw [List.any_eq_false]
    intro j hj
    simp [h j hj]
  rw [this, Bool.or_false]

theorem batch_filter_self (db : DB) (c : String) (b : Nat) :
    (analysisBatch db c b).filter (fun j => j.data.creator == c) = analysisBatch db c b := by
  rw [List.filter_eq_self]
  intro j hj
  simp [analysisBatch_creator db c b j hj]

theorem batch_filter_other (db : DB) (d c : String) (hdc : d ≠ c) (b : Nat) :
    (analysisBatch db d b).filter (fun j => j.data.creator == c) = [] := by
  rw [List.filter_eq_nil_iff]
  intro j hj
  simp [analysisBatch_creator db d b j hj, hdc]

theorem forceStart_db_some (s : SysState) (yid : String) (y : YouTuberRec)
    (hy : s.db.findYoutuber yid = some y) :
    (forceStartAnalysisFn s yid).1.db = markTranscriptless s.db yid := by
  simp only [forceStartAnalysisFn]
  rw [hy]
  by_cases hv : (analysisCandidates s.db yid).isEmpty <;>
    simp [hv, writeStatus, enqueueStaggered_spec, addJobS]

theorem statusOf_entry (s : SysState) (c : String) (st : Status) (h : statusOfS s c = st)
    (hne : st ≠ Status.idle) :
    ∃ r, getStatusEntry s.store c = some r ∧ r.status = st := by
  unfold statusOfS at h
  cases hg : getStatusEntry s.store c with
  | none =>
    rw [hg] at h
    simp only [Option.map_none', Option.getD_none] at h
    exact absurd h.symm hne
  | some r =>
    rw [hg] at h
    simp only [Option.map_some', Option.getD_some] at h
    exact ⟨r, rfl, h⟩

theorem isStuck_true_of (s : SysState) (c : String)
    (hst : statusOfS s c = .fetchingTranscripts) (hq : hasFetchJobFor s.queue c = false) :
    isStuck s c = true := by
  obtain ⟨r, hg, hr⟩ := statusOf_entry s c .fetchingTranscripts hst (by decide)
  unfold isStuck
  rw [hg]
  show (r.status == Status.fetchingTranscripts && !hasFetchJobFor s.queue c) = true
  rw [hr, hq]
  rfl

theorem isStuck_false_of_analyzing (s : SysState) (c : String)
    (hst : statusOfS s c = .analyzing) : isStuck s c = false := by
  obtain ⟨r, hg, hr⟩ := statusOf_entry s c .analyzing hst (by decide)
  unfold isStuck
  rw [hg]
  show (r.status == Status.fetchingTranscripts && !hasFetchJobFor s.queue c) = false
  rw [hr]
  rfl

theorem orphanStep_db (s : SysState) (yid : String) (vids : List Video) (q : Nat)
    (u : StatusUpdate) :
    (addJobS (enqueueJobsFrom (writeStatus s yid u).1
        (staggered (fun v => JobData.analyzeVideo v.id yid) PIPELINE_delayBetweenAnalysis q vids))
      (JobData.completePipeline yid)
      ((q + vids.length) * PIPELINE_delayBetweenAnalysis + 5000)).db = s.db := by
  simp [writeStatus, enqueueStaggered_spec, addJobS]

theorem jobsProj_append (q1 q2 : List QueuedJob) (c : String) :
    ((q1 ++ q2).filter (fun j => j.data.creator == c)).map (fun j => (j.data, j.delay))
      = (q1.filter (fun j => j.data.creator == c)).map (fun j => (j.data, j.delay))
        ++ (q2.filter (fun j => j.data.creator == c)).map (fun j => (j.data, j.delay)) := by
  rw [List.filter_append, List.map_append]

theorem orphanLoop_c_stable (c : String) :
    ∀ (gs : List (String × List Video)) (s : SysState) (log : List StatusWrite) (q : Nat),
      statusOfS s c = .analyzing →
      statusOfS (orphanLoop s log q gs).1 c = .analyzing ∧
      ((orphanLoop s log q gs).1.queue.filter (fun j => j.data.creator == c)).map
          (fun j => (j.data, j.delay))
        = (s.queue.filter (fun j => j.data.creator == c)).map (fun j => (j.data, j.delay)) ∧
      (orphanLoop s log q gs).1.db = s.db := by
  intro gs
  induction gs with
  | nil => intro s log q h; exact ⟨h, rfl, rfl⟩
  | cons g gs ih =>
    intro s log q h
    obtain ⟨yid, vids⟩ := g
    show _ ∧ ((orphanLoop s log q ((yid, vids) :: gs)).1.queue.filter _).map _ = _ ∧ _
    rw [orphanLoop]
    by_cases hrun : isPipelineRunningFn s.store yid = true
    · rw [if_pos hrun]
      exact ih s log q h
    · rw [if_neg hrun]
      have hyc : yid ≠ c := by
        intro hh
        rw [hh] at hrun
        exact hrun (isRunning_of_analyzing s c h)
      have main : ∀ (u : StatusUpdate) (s' : SysState),
          s' = addJobS (enqueueJobsFrom (writeStatus s yid u).1
              (staggered (fun v => JobData.analyzeVideo v.id yid)
                PIPELINE_delayBetweenAnalysis q vids))
            (JobData.completePipeline yid)
            ((q + vids.length) * PIPELINE_delayBetweenAnalysis + 5000) →
          ∀ (log' : List StatusWrite),
          statusOfS (orphanLoop s' log' (q + vids.length) gs).1 c = .analyzing ∧
          ((orphanLoop s' log' (q + vids.length) gs).1.queue.filter
              (fun j => j.data.creator == c)).map (fun j => (j.data, j.delay))
            = (s.queue.filter (fun j => j.data.creator == c)).map
                (fun j => (j.data, j.delay)) ∧
          (orphanLoop s' log' (q + vids.length) gs).1.db = s.db := by
        intro u s' hs' log'
        have hst : statusOfS s' c = .analyzing := by
          rw [hs']
          unfold statusOfS
          rw [orphanStep_store]
          have hw := statusOfS_write_ne s yid u c hyc
          unfold statusOfS at hw
          rw [hw]
          exact h
        have hnil : (staggeredJobsFrom (fun v => JobData.analyzeVideo v.id yid)
            PIPELINE_delayBetweenAnalysis q s.nextJobId vids
            ++ [completionJob yid (s.nextJobId + vids.length)
                  ((q + vids.length) * PIPELINE_delayBetweenAnalysis + 5000)]).filter
              (fun j => j.data.creator == c) = [] := by
          rw [List.filter_eq_nil_iff]
          intro j hj
          have hj2 : j.data.creator = yid := by
            rcases List.mem_append.mp hj with hh | hh
            · exact (staggered_creator_analyze yid _ _ _ _ j hh).1
            · rw [List.mem_singleton] at hh
              subst hh
              rfl
          simp [hj2, hyc]
        have hproj : (s'.queue.filter (fun j => j.data.creator == c)).map
            (fun j => (j.data, j.delay))
            = (s.queue.filter (fun j => j.data.creator == c)).map
                (fun j => (j.data, j.delay)) := by
          rw [hs', orphanStep_state, List.append_assoc, jobsProj_append, hnil,
            List.map_nil, List.append_nil]
        have hdb : s'.db = s.db := by
          rw [hs', orphanStep_db]
        obtain ⟨h1, h2, h3⟩ := ih s' log' (q + vids.length) hst
        exact ⟨h1, by rw [h2, hproj], by rw [h3, hdb]⟩
      exact main _ _ rfl _

theorem stuckSweepLoop_c_stable (c : String) :
    ∀ (ys : List YouTuberRec) (s : SysState) (log : List StatusWrite),
      statusOfS s c = .analyzing →
      statusOfS (stuckSweepLoop s log ys).1 c = .analyzing ∧
      ((stuckSweepLoop s log ys).1.queue.filter (fun j => j.data.creator == c)).map
          (fun j => (j.data, j.delay))
        = (s.queue.filter (fun j => j.data.creator == c)).map (fun j => (j.data, j.delay)) ∧
      (stuckSweepLoop s log ys).1.db.videos.filter (fun v => v.youtuberId == c)
        = s.db.videos.filter (fun v => v.youtuberId == c) := by
  intro ys
  induction ys with
  | nil => intro s log h; exact ⟨h, rfl, rfl⟩
  | cons y ys ih =>
    intro s log h
    show _ ∧ ((stuckSweepLoop s log (y :: ys)).1.queue.filter _).map _ = _ ∧ _
    rw [stuckSweepLoop]
    by_cases hstuck : isStuck s y.id = true
    · rw [if_pos hstuck]
      have hyc : y.id ≠ c := by
        intro hh
        rw [hh] at hstuck
        rw [isStuck_false_of_analyzing s c h] at hstuck
        exact Bool.false_ne_true hstuck
      have main : ∀ s' : SysState, s' = (forceStartAnalysisFn s y.id).1 →
          ∀ log' : List StatusWrite,
          statusOfS (stuckSweepLoop s' log' ys).1 c = .analyzing ∧
          ((stuckSweepLoop s' log' ys).1.queue.filter (fun j => j.data.creator == c)).map
              (fun j => (j.data, j.delay))
            = (s.queue.filter (fun j => j.data.creator == c)).map
                (fun j => (j.data, j.delay)) ∧
          (stuckSweepLoop s' log' ys).1.db.videos.filter (fun v => v.youtuberId == c)
            = s.db.videos.filter (fun v => v.youtuberId == c) := by
        intro s' hs' log'
        cases hy : s.db.findYoutuber y.id with
        | none =>
          rw [forceStart_state_none s y.id hy] at hs'
          rw [hs']
          exact ih s log' h
        | some yr =>
          have hst : statusOfS s' c = .analyzing := by
            rw [hs', forceStart_statusOf_ne s y.id c hyc]
            exact h
          obtain ⟨h1, h2, h3⟩ := ih s' log' hst
          refine ⟨h1, ?_, ?_⟩
          · rw [h2, hs', forceStart_queue_some s y.id yr hy, jobsProj_append,
              batch_filter_other s.db y.id c hyc s.nextJobId, List.map_nil, List.append_nil]
          · rw [h3, hs', forceStart_db_some s y.id yr hy,
              markTranscriptless_filter_other s.db y.id c hyc]
      exact main _ rfl _
    · rw [if_neg hstuck]
      exact ih s log h

theorem stuckSweepLoop_c3 (c : String) :
    ∀ (ys : List YouTuberRec) (s : SysState) (log : List StatusWrite),
      (∃ y ∈ ys, y.id = c) →
      (∃ y, s.db.findYoutuber c = some y) →
      statusOfS s c = .fetchingTranscripts →
      hasFetchJobFor s.queue c = false →
      ¬ (analysisCandidates s.db c).isEmpty = true →
      statusOfS (stuckSweepLoop s log ys).1 c = .analyzing ∧
      (stuckSweepLoop s log ys).1.db.videos.filter (fun v => v.youtuberId == c)
        = (markTranscriptless s.db c).videos.filter (fun v => v.youtuberId == c) ∧
      ∃ b, ((stuckSweepLoop s log ys).1.queue.filter (fun j => j.data.creator == c)).map
            (fun j => (j.data, j.delay))
          = (s.queue.filter (fun j => j.data.creator == c)).map (fun j => (j.data, j.delay))
            ++ (analysisBatch s.db c b).map (fun j => (j.data, j.delay)) := by
  intro ys
  induction ys with
  | nil =>
    intro s log hmem
    obtain ⟨y, hy, _⟩ := hmem
    exact absurd hy (List.not_mem_nil y)
  | cons y ys ih =>
    intro s log hmem hfound hst hq hne
    show _ ∧ _ ∧ ∃ b, ((stuckSweepLoop s log (y :: ys)).1.queue.filter _).map _ = _
    rw [stuckSweepLoop]
    by_cases hyc : y.id = c
    · have hstuck : isStuck s y.id = true := by
        rw [hyc]
        exact isStuck_true_of s c hst hq
      rw [if_pos hstuck]
      obtain ⟨yr, hyr⟩ := hfound
      have main : ∀ s' : SysState, s' = (forceStartAnalysisFn s y.id).1 →
          ∀ log' : List StatusWrite,
          statusOfS (stuckSweepLoop s' log' ys).1 c = .analyzing ∧
          (stuckSweepLoop s' log' ys).1.db.videos.filter (fun v => v.youtuberId == c)
            = (markTranscriptless s.db c).videos.filter (fun v => v.youtuberId == c) ∧
          ∃ b, ((stuckSweepLoop s' log' ys).1.queue.filter
                (fun j => j.data.creator == c)).map (fun j => (j.data, j.delay))
              = (s.queue.filter (fun j => j.data.creator == c)).map
                  (fun j => (j.data, j.delay))
                ++ (analysisBatch s.db c b).map (fun j => (j.data, j.delay)) := by
        intro s' hs' log'
        rw [hyc] at hs'
        have hposts : statusOfS s' c = .analyzing := by
          rw [hs', forceStart_statusOf_self s c yr hyr, if_neg hne]
        obtain ⟨h1, h2, h3⟩ := stuckSweepLoop_c_stable c ys s' log' hposts
        refine ⟨h1, ?_, ⟨s.nextJobId, ?_⟩⟩
        · rw [h3, hs', forceStart_db_some s c yr hyr]
        · rw [h2, hs', forceStart_queue_some s c yr hyr, jobsProj_append,
            batch_filter_self s.db c s.nextJobId]
      exact main _ rfl _
    · have hmem' : ∃ z ∈ ys, z.id = c := by
        obtain ⟨z, hz, hzc⟩ := hmem
        rcases List.mem_cons.mp hz with hh | hh
        · exact absurd (hh ▸ hzc) hyc
        · exact ⟨z, hh, hzc⟩
      by_cases hstuck : isStuck s y.id = true
      · rw [if_pos hstuck]
        cases hy : s.db.findYoutuber y.id with
        | none =>
          have main : ∀ s' : SysState, s' = (forceStartAnalysisFn s y.id).1 →
              ∀ log' : List StatusWrite,
              statusOfS (stuckSweepLoop s' log' ys).1 c = .analyzing ∧
              (stuckSweepLoop s' log' ys).1.db.videos.filter (fun v => v.youtuberId == c)
                = (markTranscriptless s.db c).videos.filter (fun v => v.youtuberId == c) ∧
              ∃ b, ((stuckSweepLoop s' log' ys).1.queue.filter
                    (fun j => j.data.creator == c)).map (fun j => (j.data, j.delay))
                  = (s.queue.filter (fun j => j.data.creator == c)).map
                      (fun j => (j.data, j.delay))
                    ++ (analysisBatch s.db c b).map (fun j => (j.data, j.delay)) := by
            intro s' hs' log'
            rw [forceStart_state_none s y.id hy] at hs'
            rw [hs']
            exact ih s log' hmem' hfound hst hq hne
          exact main _ rfl _
        | some yr =>
          have main : ∀ s' : SysState, s' = (forceStartAnalysisFn s y.id).1 →
              ∀ log' : List StatusWrite,
              statusOfS (stuckSweepLoop s' log' ys).1 c = .analyzing ∧
              (stuckSweepLoop s' log' ys).1.db.videos.filter (fun v => v.youtuberId == c)
                = (markTranscriptless s.db c).videos.filter (fun v => v.youtuberId == c) ∧
              ∃ b, ((stuckSweepLoop s' log' ys).1.queue.filter
                    (fun j => j.data.creator == c)).map (fun j => (j.data, j.delay))
                  = (s.queue.filter (fun j => j.data.creator == c)).map
                      (fun j => (j.data, j.delay))
                    ++ (analysisBatch s.db c b).map (fun j => (j.data, j.delay)) := by
            intro s' hs' log'
            have hcf : s'.db.videos.filter (fun v => v.youtuberId == c)
                = s.db.videos.filter (fun v => v.youtuberId == c) := by
              rw [hs', forceStart_db_some s y.id yr hy,
                markTranscriptless_filter_other s.db y.id c hyc]
            have hfound' : ∃ z, s'.db.findYoutuber c = some z := by
              obtain ⟨z, hz⟩ := hfound
              refine ⟨z, ?_⟩
              rw [hs', forceStart_db_some s y.id yr hy]
              exact hz
            have hst' : statusOfS s' c = .fetchingTranscripts := by
              rw [hs', forceStart_statusOf_ne s y.id c hyc]
              exact hst
            have hq' : hasFetchJobFor s'.queue c = false := by
              rw [hs', forceStart_queue_some s y.id yr hy,
                hasFetchJobFor_append_no_fetch _ _ _
                  (analysisBatch_not_fetch s.db y.id s.nextJobId)]
              exact hq
            have hne' : ¬ (analysisCandidates s'.db c).isEmpty = true := by
              rw [analysisCandidates_congr s'.db s.db c hcf]
              exact hne
            obtain ⟨h1, h2, h3⟩ := ih s' log' hmem' hfound' hst' hq' hne'
            refine ⟨h1, ?_, ?_⟩
            · rw [h2, mark_filter_self, mark_filter_self, hcf]
            · obtain ⟨b, hb⟩ := h3
              refine ⟨b, ?_⟩
              rw [hb, analysisBatch_congr s'.db s.db c b hcf, hs',
                forceStart_queue_some s y.id yr hy, jobsProj_append,
                batch_filter_other s.db y.id c hyc s.nextJobId, List.map_nil,
                List.append_nil]
          exact main _ rfl _
      · rw [if_neg hstuck]
        exact ih s log hmem' hfound hst hq hne

/-- C3 amended: at startup, for every creator whose cached status is
`fetching-transcripts` and for whom no fetch-transcript job remains queued or
active, the recovery sweep marks all of that creator's transcript-less videos
with the unavailable sentinel and enqueues the analysis phase for that
creator exactly as the §4.4 enqueue would when computed on the
**pre-marking** state (the selection of up to 50 un-analyzed videos with a
non-null transcript happens *before* the sentinel marking, so just-marked
videos are not part of this run's analyze jobs), and — provided that
selection is non-empty — advances the creator's status to `analyzing` without
operator action. -/
theorem recoverySweep_advances_stuck (s : SysState) (c : String) (y : YouTuberRec)
    (hy : s.db.findYoutuber c = some y)
    (hst : statusOfS s c = .fetchingTranscripts)
    (hq : hasFetchJobFor s.queue c = false)
    (hne : ¬ (analysisCandidates s.db c).isEmpty = true) :
    statusOfS (runStartupAnalysisFn s).1 c = .analyzing ∧
    (runStartupAnalysisFn s).1.db.videos.filter (fun v => v.youtuberId == c)
      = (markTranscriptless s.db c).videos.filter (fun v => v.youtuberId == c) ∧
    ∃ b, ((runStartupAnalysisFn s).1.queue.filter (fun j => j.data.creator == c)).map
          (fun j => (j.data, j.delay))
        = (s.queue.filter (fun j => j.data.creator == c)).map (fun j => (j.data, j.delay))
          ++ (analysisBatch s.db c b).map (fun j => (j.data, j.delay)) := by
  have hmem : ∃ z ∈ s.db.youtubers, z.id = c := by
    have hfind : s.db.youtubers.find? (fun z => z.id == c) = some y := hy
    have hpy : (fun z : YouTuberRec => z.id == c) y = true :=
      List.find?_some (p := fun z : YouTuberRec => z.id == c) hfind
    exact ⟨y, List.mem_of_find?_eq_some hfind, beq_iff_eq.mp hpy⟩
  obtain ⟨h1, h2, h3⟩ := stuckSweepLoop_c3 c s.db.youtubers s [] hmem ⟨y, hy⟩ hst hq hne
  obtain ⟨g1, g2, g3⟩ := orphanLoop_c_stable c
    (groupByCreator (startupUnanalyzed (stuckSweepLoop s [] s.db.youtubers).1.db))
    (stuckSweepLoop s [] s.db.youtubers).1 (stuckSweepLoop s [] s.db.youtubers).2 0 h1
  obtain ⟨b, hb⟩ := h3
  unfold runStartupAnalysisFn
  exact ⟨g1,
    (congrArg (fun d => d.videos.filter (fun v => v.youtuberId == c)) g3).trans h2,
    b, g2.trans hb⟩

/-- One youtuber record, status stuck at `fetching-transcripts`: one
transcript-less video and one real-transcript video, neither analyzed. -/


theorem recoverySweep_advances_stuck_counterexample :
    ¬ ((runStartupAnalysisFn c3state).1.queue
        = analysisBatch (markTranscriptless c3state.db "c") "c" c3state.nextJobId) := by
  decide

theorem recoverySweep_advances_stuck_witness :
    statusOfS (runStartupAnalysisFn c3state).1 "c" = .analyzing ∧
    (runStartupAnalysisFn c3state).1.db.videos.filter (fun v => v.youtuberId == "c")
      = (markTranscriptless c3state.db "c").videos.filter (fun v => v.youtuberId == "c") ∧
    ∃ b, ((runStartupAnalysisFn c3state).1.queue.filter (fun j => j.data.creator == "c")).map
          (fun j => (j.data, j.delay))
        = (c3state.queue.filter (fun j => j.data.creator == "c")).map
            (fun j => (j.data, j.delay))
          ++ (analysisBatch c3state.db "c" b).map (fun j => (j.data, j.delay)) :=
  recoverySweep_advances_stuck c3state "c" ytC (by decide) (by decide) (by decide) (by decide)


/-! ## C6: no pending fetch-transcript job references a sentinel-marked video -/

theorem nodup_ids_inj {l : List Video} (h : (l.map (·.id)).Nodup)
    {v w : Video} (hv : v ∈ l) (hw : w ∈ l) (hid : v.id = w.id) : v = w :=
  List.inj_on_of_nodup_map h hv hw hid

theorem C6Inv_congr (t t' : SysState) (hq : t'.queue = t.queue)
    (hdbv : t'.db.videos = t.db.videos) (hdbn : t'.db.nextVideoId = t.db.nextVideoId)
    (hnj : t'.nextJobId = t.nextJobId) (h : C6Inv t) : C6Inv t' := by
  unfold C6Inv IdsOk FetchInv syncUniqueFor at h ⊢
  rw [hq, hdbv, hdbn, hnj]
  exact h

theorem C6Inv_filterQueue (t : SysState) (p : QueuedJob → Bool) (h : C6Inv t) :
    C6Inv { t with queue := t.queue.filter p } := by
  obtain ⟨⟨hbound, hnodup⟩, ⟨f1, f2, f3, f4, f5, f6⟩, hsu⟩ := h
  refine ⟨⟨?_, ?_⟩, ⟨?_, ?_, ?_, ?_, f5, f6⟩, ?_⟩
  · intro j hj
    exact hbound j (List.mem_of_mem_filter hj)
  · exact List.Nodup.sublist ((List.filter_sublist _).map _) hnodup
  · intro j hj vid yid hd
    exact f1 j (List.mem_of_mem_filter hj) vid yid hd
  · intro j hj vid yid hd k hk vid' yid' hd' hne
    exact f2 j (List.mem_of_mem_filter hj) vid yid hd k (List.mem_of_mem_filter hk)
      vid' yid' hd' hne
  · intro j hj vid yid hd
    exact f3 j (List.mem_of_mem_filter hj) vid yid hd
  · intro c hex j hj hjf
    obtain ⟨k, hk, hks⟩ := hex
    exact f4 c ⟨k, List.mem_of_mem_filter hk, hks⟩ j (List.mem_of_mem_filter hj) hjf
  · intro j hj k hk hjs hks hcr
    exact hsu j (List.mem_of_mem_filter hj) k (List.mem_of_mem_filter hk) hjs hks hcr

theorem C6Inv_removeJob (s : SysState) (jobId : Nat) (h : C6Inv s) :
    C6Inv (removeJob s jobId) :=
  C6Inv_filterQueue s _ h

theorem findJob_mem (s : SysState) (jobId : Nat) (j : QueuedJob)
    (h : findJob s jobId = some j) : j ∈ s.queue ∧ j.id = jobId := by
  refine ⟨List.mem_of_find?_eq_some h, ?_⟩
  have hpj : (fun k : QueuedJob => k.id == jobId) j = true :=
    List.find?_some (p := fun k : QueuedJob => k.id == jobId) h
  exact beq_iff_eq.mp hpj

theorem C6Inv_mapVideos (t t' : SysState) (f : Video → Video)
    (hq : t'.queue = t.queue)
    (hv : t'.db.videos = t.db.videos.map f)
    (hn : t'.db.nextVideoId = t.db.nextVideoId)
    (hj : t'.nextJobId = t.nextJobId)
    (hf_id : ∀ v, (f v).id = v.id)
    (hf_some : ∀ v, v.transcript.isSome = true → (f v).transcript.isSome = true)
    (hfix : ∀ k ∈ t.queue, ∀ a ya, k.data = .fetchTranscript a ya →
      ∀ v ∈ t.db.videos, v.id = a → f v = v)
    (h : C6Inv t) : C6Inv t' := by
  obtain ⟨⟨hbound, hnodup⟩, ⟨f1, f2, f3, f4, f5, f6⟩, hsu⟩ := h
  have hids : t'.db.videos.map (·.id) = t.db.videos.map (·.id) := by
    rw [hv, List.map_map]
    exact List.map_congr_left (fun v _ => hf_id v)
  refine ⟨⟨?_, ?_⟩, ⟨?_, ?_, ?_, ?_, ?_, ?_⟩, ?_⟩
  · intro j hjq
    rw [hq] at hjq
    rw [hj]
    exact hbound j hjq
  · rw [hq]
    exact hnodup
  · intro j hjq vid yid hd
    rw [hq] at hjq
    obtain ⟨v, hvm, hvid, hvy, hvt⟩ := f1 j hjq vid yid hd
    have hfv : f v = v := hfix j hjq vid yid hd v hvm hvid
    have hmem : f v ∈ t.db.videos.map f := List.mem_map_of_mem f hvm
    rw [hfv] at hmem
    rw [hv]
    exact ⟨v, hmem, hvid, hvy, hvt⟩
  · intro j hjq vid yid hd k hkq vid' yid' hd' hne
    rw [hq] at hjq hkq
    exact f2 j hjq vid yid hd k hkq vid' yid' hd' hne
  · intro j hjq vid yid hd
    rw [hq] at hjq
    obtain ⟨v, hvm, hvid, hvt⟩ := f3 j hjq vid yid hd
    refine ⟨f v, ?_, ?_, ?_⟩
    · rw [hv]
      exact List.mem_map_of_mem f hvm
    · rw [hf_id v]
      exact hvid
    · exact hf_some v hvt
  · intro c hex j hjq hjf
    rw [hq] at hjq
    obtain ⟨k, hk, hks⟩ := hex
    rw [hq] at hk
    exact f4 c ⟨k, hk, hks⟩ j hjq hjf
  · intro v hvm
    rw [hv] at hvm
    obtain ⟨w, hw, rfl⟩ := List.mem_map.mp hvm
    rw [hn, hf_id w]
    exact f5 w hw
  · rw [hids]
    exact f6
  · intro j hjq k hkq hjs hks hcr
    rw [hq] at hjq hkq
    exact hsu j hjq k hkq hjs hks hcr

theorem C6Inv_appendJobs (t t' : SysState) (newJobs : List QueuedJob)
    (hq : t'.queue = t.queue ++ newJobs)
    (hdbv : t'.db.videos = t.db.videos)
    (hdbn : t'.db.nextVideoId = t.db.nextVideoId)
    (hjle : t.nextJobId ≤ t'.nextJobId)
    (hids : ∀ j ∈ newJobs, t.nextJobId ≤ j.id ∧ j.id < t'.nextJobId)
    (hnodup : (newJobs.map (·.id)).Nodup)
    (hnosync : ∀ j ∈ newJobs, j.data.isSync = false)
    (hfetchref : ∀ j ∈ newJobs, ∀ a ya, j.data = .fetchTranscript a ya →
      ∃ v ∈ t.db.videos, v.id = a ∧ v.youtuberId = ya ∧ v.transcript = none)
    (hfnewnew : ∀ j ∈ newJobs, ∀ a ya, j.data = .fetchTranscript a ya →
      ∀ k ∈ newJobs, ∀ b yb, k.data = .fetchTranscript b yb → j.id ≠ k.id → a ≠ b)
    (hfmixed : ∀ j ∈ newJobs, ∀ a ya, j.data = .fetchTranscript a ya →
      ∀ k ∈ t.queue, ∀ b yb, k.data = .fetchTranscript b yb → a ≠ b)
    (hanref : ∀ j ∈ newJobs, ∀ a ya, j.data = .analyzeVideo a ya →
      ∃ v ∈ t.db.videos, v.id = a ∧ v.transcript.isSome)
    (hf4new : ∀ k ∈ t.queue, k.data.isSync = true → ∀ j ∈ newJobs,
      j.data.isFetch = true → j.data.creator ≠ k.data.creator)
    (h : C6Inv t) : C6Inv t' := by
  obtain ⟨⟨hbound, hnd⟩, ⟨f1, f2, f3, f4, f5, f6⟩, hsu⟩ := h
  refine ⟨⟨?_, ?_⟩, ⟨?_, ?_, ?_, ?_, ?_, ?_⟩, ?_⟩
  · intro j hj
    rw [hq] at hj
    rcases List.mem_append.mp hj with hh | hh
    · exact lt_of_lt_of_le (hbound j hh) hjle
    · exact (hids j hh).2
  · rw [hq, List.map_append, List.nodup_append]
    refine ⟨hnd, hnodup, ?_⟩
    intro a ha hb
    obtain ⟨j, hj, rfl⟩ := List.mem_map.mp ha
    obtain ⟨k, hk, hkk⟩ := List.mem_map.mp hb
    have h1 := hbound j hj
    have h2 := (hids k hk).1
    rw [hkk] at h2
    omega
  · intro j hj vid yid hd
    rw [hq] at hj
    rw [hdbv]
    rcases List.mem_append.mp hj with hh | hh
    · exact f1 j hh vid yid hd
    · exact hfetchref j hh vid yid hd
  · intro j hj vid yid hd k hk vid' yid' hd' hne
    rw [hq] at hj hk
    rcases List.mem_append.mp hj with hj1 | hj2 <;> rcases List.mem_append.mp hk with hk1 | hk2
    · exact f2 j hj1 vid yid hd k hk1 vid' yid' hd' hne
    · exact Ne.symm (hfmixed k hk2 vid' yid' hd' j hj1 vid yid hd)
    · exact hfmixed j hj2 vid yid hd k hk1 vid' yid' hd'
    · exact hfnewnew j hj2 vid yid hd k hk2 vid' yid' hd' hne
  · intro j hj vid yid hd
    rw [hq] at hj
    rw [hdbv]
    rcases List.mem_append.mp hj with hh | hh
    · exact f3 j hh vid yid hd
    · exact hanref j hh vid yid hd
  · intro c hex j hj hjf
    obtain ⟨k, hk, hks⟩ := hex
    rw [hq] at hk hj
    rcases List.mem_append.mp hk with hk1 | hk2
    · rcases List.mem_append.mp hj with hj1 | hj2
      · exact f4 c ⟨k, hk1, hks⟩ j hj1 hjf
      · exact hf4new k hk1 hks.1 j hj2 hjf.1 (by rw [hjf.2, hks.2])
    · exact absurd hks.1 (by simp [hnosync k hk2])
  · intro v hvm
    rw [hdbv] at hvm
    rw [hdbn]
    exact f5 v hvm
  · rw [hdbv]
    exact f6
  · intro j hj k hk hjs hks hcr
    rw [hq] at hj hk
    rcases List.mem_append.mp hj with hj1 | hj2
    · rcases List.mem_append.mp hk with hk1 | hk2
      · exact hsu j hj1 k hk1 hjs hks hcr
      · exact absurd hks (by simp [hnosync k hk2])
    · exact absurd hjs (by simp [hnosync j hj2])


theorem insertByPublishedDesc_perm (v : Video) :
    ∀ l : List Video, List.Perm (insertByPublishedDesc v l) (v :: l) := by
  intro l
  induction l with
  | nil => exact List.Perm.refl _
  | cons w ws ih =>
    rw [insertByPublishedDesc]
    by_cases h : v.publishedAt ≤ w.publishedAt
    · rw [if_pos h]
      exact (ih.cons w).trans (List.Perm.swap v w ws)
    · rw [if_neg h]

theorem sortByPublishedDesc_perm : ∀ l : List Video, List.Perm (sortByPublishedDesc l) l := by
  intro l
  induction l with
  | nil => exact List.Perm.refl _
  | cons v vs ih =>
    rw [sortByPublishedDesc]
    exact (insertByPublishedDesc_perm v _).trans (ih.cons v)

theorem mem_sortByPublishedDesc {v : Video} {l : List Video}
    (h : v ∈ sortByPublishedDesc l) : v ∈ l :=
  (sortByPublishedDesc_perm l).mem_iff.mp h

theorem sort_ids_nodup {l : List Video} (h : (l.map (·.id)).Nodup) :
    ((sortByPublishedDesc l).map (·.id)).Nodup :=
  (((sortByPublishedDesc_perm l).map (·.id)).nodup_iff).mpr h

theorem filter_ids_nodup {l : List Video} (p : Video → Bool) (h : (l.map (·.id)).Nodup) :
    ((l.filter p).map (·.id)).Nodup :=
  List.Nodup.sublist ((List.filter_sublist _).map _) h

theorem take_ids_nodup {l : List Video} (n : Nat) (h : (l.map (·.id)).Nodup) :
    ((l.take n).map (·.id)).Nodup := by
  rw [List.map_take]
  exact List.Nodup.sublist (List.take_sublist n _) h

theorem transcriptNeededSelection_mem {db : DB} {yid : String} {v : Video}
    (h : v ∈ transcriptNeededSelection db yid) :
    v ∈ db.videos ∧ v.youtuberId = yid ∧ v.transcript = none := by
  unfold transcriptNeededSelection at h
  have h1 := List.take_subset _ _ h
  have h2 := mem_sortByPublishedDesc h1
  have h3 := List.mem_filter.mp h2
  have hb := h3.2
  rw [Bool.and_eq_true] at hb
  exact ⟨h3.1, beq_iff_eq.mp hb.1, Option.isNone_iff_eq_none.mp hb.2⟩

theorem transcriptNeededSelection_ids_nodup (db : DB) (yid : String)
    (h : (db.videos.map (·.id)).Nodup) :
    ((transcriptNeededSelection db yid).map (·.id)).Nodup := by
  unfold transcriptNeededSelection
  exact take_ids_nodup _ (sort_ids_nodup (filter_ids_nodup _ h))

theorem analysisCandidates_mem {db : DB} {yid : String} {v : Video}
    (h : v ∈ analysisCandidates db yid) :
    v ∈ db.videos ∧ v.transcript.isSome = true := by
  unfold analysisCandidates at h
  have h1 := List.take_subset _ _ h
  have h2 := mem_sortByPublishedDesc h1
  have h3 := List.mem_filter.mp h2
  have hb := h3.2
  rw [Bool.and_eq_true, Bool.and_eq_true] at hb
  exact ⟨h3.1, hb.1.2⟩

theorem startupUnanalyzed_mem {db : DB} {v : Video} (h : v ∈ startupUnanalyzed db) :
    v ∈ db.videos ∧ v.transcript.isSome = true := by
  unfold startupUnanalyzed at h
  have h1 := List.take_subset _ _ h
  have h2 := mem_sortByPublishedDesc h1
  have h3 := List.mem_filter.mp h2
  have hb := h3.2
  rw [Bool.and_eq_true] at hb
  exact ⟨h3.1, hb.1⟩

theorem groupByCreatorAux_sub :
    ∀ (fuel : Nat) (l : List Video) (g : String × List Video),
      g ∈ groupByCreatorAux fuel l → ∀ v ∈ g.2, v ∈ l := by
  intro fuel
  induction fuel with
  | zero => intro l g hg; simp [groupByCreatorAux] at hg
  | succ fuel ih =>
    intro l g hg v hv
    cases l with
    | nil => simp [groupByCreatorAux] at hg
    | cons w ws =>
      simp only [groupByCreatorAux, List.mem_cons] at hg
      rcases hg with h | h
      · subst h
        rcases List.mem_cons.mp hv with hh | hh
        · rw [hh]
          exact List.mem_cons_self _ _
        · exact List.mem_cons_of_mem _ (List.mem_of_mem_filter hh)
      · exact List.mem_cons_of_mem _ (List.mem_of_mem_filter (ih _ g h v hv))

theorem staggeredJobsFrom_data :
    ∀ (vs : List Video) (mk : Video → JobData) (sp off b : Nat) (j : QueuedJob),
      j ∈ staggeredJobsFrom mk sp off b vs →
      ∃ v ∈ vs, j.data = mk v ∧ j.id < b + vs.length ∧ b ≤ j.id := by
  intro vs
  induction vs with
  | nil => intro mk sp off b j hj; simp [staggeredJobsFrom] at hj
  | cons v vs ih =>
    intro mk sp off b j hj
    simp only [staggeredJobsFrom, List.mem_cons] at hj
    rcases hj with h | h
    · subst h
      exact ⟨v, List.mem_cons_self _ _, rfl,
        by simp only [List.length_cons]; omega, Nat.le_refl _⟩
    · obtain ⟨w, hw, hd, hlt, hge⟩ := ih mk sp (off + 1) (b + 1) j h
      exact ⟨w, List.mem_cons_of_mem _ hw, hd,
        by simp only [List.length_cons]; omega, by omega⟩

theorem staggeredJobsFrom_ids_nodup :
    ∀ (vs : List Video) (mk : Video → JobData) (sp off b : Nat),
      ((staggeredJobsFrom mk sp off b vs).map (·.id)).Nodup := by
  intro vs
  induction vs with
  | nil => intro mk sp off b; simp [staggeredJobsFrom]
  | cons v vs ih =>
    intro mk sp off b
    simp only [staggeredJobsFrom, List.map_cons, List.nodup_cons]
    refine ⟨?_, ih mk sp (off + 1) (b + 1)⟩
    intro hmem
    obtain ⟨j, hj, hjid⟩ := List.mem_map.mp hmem
    obtain ⟨w, hw, hd, hlt, hge⟩ := staggeredJobsFrom_data vs mk sp (off + 1) (b + 1) j hj
    have hb : j.id = b := hjid
    omega

theorem staggeredJobsFrom_length :
    ∀ (vs : List Video) (mk : Video → JobData) (sp off b : Nat),
      (staggeredJobsFrom mk sp off b vs).length = vs.length := by
  intro vs
  induction vs with
  | nil => intro mk sp off b; rfl
  | cons v vs ih => intro mk sp off b; simp [staggeredJobsFrom, ih]

theorem staggeredJobsFrom_fetch_inj (yid : String) :
    ∀ (vs : List Video) (sp off b : Nat),
      ((vs.map (·.id)).Nodup) →
      ∀ j ∈ staggeredJobsFrom (fun v => JobData.fetchTranscript v.id yid) sp off b vs,
      ∀ k ∈ staggeredJobsFrom (fun v => JobData.fetchTranscript v.id yid) sp off b vs,
      ∀ a ya b2 yb, j.data = .fetchTranscript a ya → k.data = .fetchTranscript b2 yb →
        j.id ≠ k.id → a ≠ b2 := by
  intro vs
  induction vs with
  | nil => intro sp off b hnd j hj; simp [staggeredJobsFrom] at hj
  | cons v vs ih =>
    intro sp off b hnd j hj k hk a ya b2 yb hda hdb hne
    rw [List.map_cons, List.nodup_cons] at hnd
    simp only [staggeredJobsFrom, List.mem_cons] at hj hk
    rcases hj with hj | hj <;> rcases hk with hk | hk
    · subst hj
      subst hk
      exact absurd rfl hne
    · subst hj
      have hda2 : JobData.fetchTranscript v.id yid = JobData.fetchTranscript a ya := hda
      injection hda2 with ha _
      obtain ⟨w, hw, hd, _, _⟩ := staggeredJobsFrom_data vs _ sp (off + 1) (b + 1) k hk
      rw [hd] at hdb
      injection hdb with hb2 _
      rw [← ha, ← hb2]
      intro heq
      have hmm : w.id ∈ vs.map (·.id) := List.mem_map_of_mem _ hw
      rw [← heq] at hmm
      exact hnd.1 hmm
    · subst hk
      have hdb2 : JobData.fetchTranscript v.id yid = JobData.fetchTranscript b2 yb := hdb
      injection hdb2 with hb2 _
      obtain ⟨w, hw, hd, _, _⟩ := staggeredJobsFrom_data vs _ sp (off + 1) (b + 1) j hj
      rw [hd] at hda
      injection hda with ha _
      rw [← ha, ← hb2]
      intro heq
      have hmm : w.id ∈ vs.map (·.id) := List.mem_map_of_mem _ hw
      rw [heq] at hmm
      exact hnd.1 hmm
    · exact ih sp (off + 1) (b + 1) hnd.2 j hj k hk a ya b2 yb hda hdb hne

theorem analysisBatch_ids (db : DB) (yid : String) (bId : Nat) :
    ∀ j ∈ analysisBatch db yid bId,
      bId ≤ j.id ∧ j.id < bId + (analysisBatch db yid bId).length := by
  intro j hj
  simp only [analysisBatch] at hj ⊢
  by_cases hv : (analysisCandidates db yid).isEmpty
  · simp [hv] at hj
  · rw [if_neg hv] at hj ⊢
    rw [List.length_append, staggeredJobsFrom_length, List.length_singleton]
    rcases List.mem_append.mp hj with h | h
    · obtain ⟨w, hw, hd, hlt, hge⟩ := staggeredJobsFrom_data _ _ _ _ _ j h
      omega
    · rw [List.mem_singleton] at h
      subst h
      show bId ≤ bId + (analysisCandidates db yid).length ∧
        bId + (analysisCandidates db yid).length
          < bId + ((analysisCandidates db yid).length + 1)
      omega

theorem analysisBatch_ids_nodup (db : DB) (yid : String) (bId : Nat) :
    ((analysisBatch db yid bId).map (·.id)).Nodup := by
  simp only [analysisBatch]
  by_cases hv : (analysisCandidates db yid).isEmpty
  · simp [hv]
  · rw [if_neg hv, List.map_append, List.nodup_append]
    refine ⟨staggeredJobsFrom_ids_nodup _ _ _ _ _, by simp, ?_⟩
    intro a ha hb
    obtain ⟨j, hj, rfl⟩ := List.mem_map.mp ha
    obtain ⟨w, hw, hd, hlt, hge⟩ := staggeredJobsFrom_data _ _ _ _ _ j hj
    simp only [List.map_cons, List.map_nil, List.mem_singleton] at hb
    have h2 : j.id = bId + (analysisCandidates db yid).length := hb
    omega

theorem analysisBatch_no_sync (db : DB) (yid : String) (bId : Nat) :
    ∀ j ∈ analysisBatch db yid bId, j.data.isSync = false := by
  intro j hj
  simp only [analysisBatch] at hj
  by_cases hv : (analysisCandidates db yid).isEmpty
  · simp [hv] at hj
  · rw [if_neg hv] at hj
    rcases List.mem_append.mp hj with h | h
    · obtain ⟨w, hw, hd, _, _⟩ := staggeredJobsFrom_data _ _ _ _ _ j h
      rw [hd]
      rfl
    · rw [List.mem_singleton] at h
      subst h
      rfl

theorem analysisBatch_no_fetch_data (db : DB) (yid : String) (bId : Nat) :
    ∀ j ∈ analysisBatch db yid bId, ∀ a ya, ¬ (j.data = JobData.fetchTranscript a ya) := by
  intro j hj a ya hd
  have h1 := analysisBatch_not_fetch db yid bId j hj
  rw [hd] at h1
  simp [JobData.isFetch] at h1

theorem analysisBatch_analyze_ref (db : DB) (yid : String) (bId : Nat) :
    ∀ j ∈ analysisBatch db yid bId, ∀ a ya, j.data = JobData.analyzeVideo a ya →
      ∃ v ∈ db.videos, v.id = a ∧ v.transcript.isSome = true := by
  intro j hj a ya hd
  simp only [analysisBatch] at hj
  by_cases hv : (analysisCandidates db yid).isEmpty
  · simp [hv] at hj
  · rw [if_neg hv] at hj
    rcases List.mem_append.mp hj with h | h
    · obtain ⟨w, hw, hdw, _, _⟩ := staggeredJobsFrom_data _ _ _ _ _ j h
      rw [hdw] at hd
      injection hd with h1 h2
      obtain ⟨hmem, hsome⟩ := analysisCandidates_mem hw
      exact ⟨w, hmem, h1, hsome⟩
    · rw [List.mem_singleton] at h
      subst h
      have hccd : JobData.completePipeline yid = JobData.analyzeVideo a ya := hd
      simp at hccd

theorem upsertVideo_mem (db : DB) (yid : String) (m : VideoMeta) {v : Video}
    (h : v ∈ db.videos) : v ∈ (upsertVideo db yid m).videos := by
  unfold upsertVideo
  cases hfind : db.videos.find? (fun w => w.videoId == m.videoId) with
  | some w => exact h
  | none => exact List.mem_append_left _ h

theorem upsertVideos_mem (yid : String) :
    ∀ (ms : List VideoMeta) (db : DB) {v : Video},
      v ∈ db.videos → v ∈ (upsertVideos db yid ms).videos := by
  intro ms
  induction ms with
  | nil => intro db v h; exact h
  | cons m ms ih => intro db v h; exact ih _ (upsertVideo_mem db yid m h)

theorem upsertVideo_wf (db : DB) (yid : String) (m : VideoMeta) (h : DBWf db) :
    DBWf (upsertVideo db yid m) := by
  obtain ⟨hbd, hnd⟩ := h
  unfold upsertVideo
  cases hfind : db.videos.find? (fun w => w.videoId == m.videoId) with
  | some w => exact ⟨hbd, hnd⟩
  | none =>
    unfold DBWf
    refine ⟨?_, ?_⟩
    · intro v hv
      show v.id < db.nextVideoId + 1
      rcases List.mem_append.mp hv with hh | hh
      · exact Nat.lt_succ_of_lt (hbd v hh)
      · rw [List.mem_singleton] at hh
        subst hh
        show db.nextVideoId < db.nextVideoId + 1
        omega
    · show ((db.videos ++ _).map (·.id)).Nodup
      rw [List.map_append, List.nodup_append]
      refine ⟨hnd, by simp, ?_⟩
      intro a ha hmem
      obtain ⟨v, hv, rfl⟩ := List.mem_map.mp ha
      simp only [List.map_cons, List.map_nil, List.mem_singleton] at hmem
      have h2 : v.id = db.nextVideoId := hmem
      have h3 := hbd v hv
      omega

theorem upsertVideos_wf (yid : String) :
    ∀ (ms : List VideoMeta) (db : DB), DBWf db → DBWf (upsertVideos db yid ms) := by
  intro ms
  induction ms with
  | nil => intro db h; exact h
  | cons m ms ih => intro db h; exact ih _ (upsertVideo_wf db yid m h)

theorem queueAnalysisJobs_db_nextVideoId (s : SysState) (yid : String) (err : Option String) :
    (queueAnalysisJobs s yid err).1.db.nextVideoId = s.db.nextVideoId := by
  unfold queueAnalysisJobs
  by_cases hv : (analysisCandidates s.db yid).isEmpty
  · cases err <;> simp [hv, completePipelineFn, writeStatus, recalculateYouTuberScore]
  · simp [hv, writeStatus, enqueueStaggered_spec, addJobS]

theorem queueAnalysisJobs_nextJobId (s : SysState) (yid : String) (err : Option String) :
    (queueAnalysisJobs s yid err).1.nextJobId
      = s.nextJobId + (analysisBatch s.db yid s.nextJobId).length := by
  unfold queueAnalysisJobs analysisBatch
  by_cases hv : (analysisCandidates s.db yid).isEmpty
  · cases err <;> simp [hv, completePipelineFn, writeStatus]
  · simp [hv, writeStatus, enqueueStaggered_spec, addJobS, List.length_append,
      staggeredJobsFrom_length]
    omega

theorem C6Inv_queueAnalysisJobs (t : SysState) (yid : String) (err : Option String)
    (h : C6Inv t) : C6Inv (queueAnalysisJobs t yid err).1 := by
  apply C6Inv_appendJobs t _ (analysisBatch t.db yid t.nextJobId)
    (queueAnalysisJobs_queue t yid err) (queueAnalysisJobs_db_videos t yid err)
    (queueAnalysisJobs_db_nextVideoId t yid err) ?_ ?_ ?_ ?_ ?_ ?_ ?_ ?_ ?_ h
  · rw [queueAnalysisJobs_nextJobId]
    omega
  · intro j hj
    have h2 := analysisBatch_ids t.db yid t.nextJobId j hj
    rw [queueAnalysisJobs_nextJobId]
    exact h2
  · exact analysisBatch_ids_nodup t.db yid t.nextJobId
  · exact analysisBatch_no_sync t.db yid t.nextJobId
  · intro j hj a ya hd
    exact absurd hd (analysisBatch_no_fetch_data t.db yid t.nextJobId j hj a ya)
  · intro j hj a ya hd
    exact absurd hd (analysisBatch_no_fetch_data t.db yid t.nextJobId j hj a ya)
  · intro j hj a ya hd
    exact absurd hd (analysisBatch_no_fetch_data t.db yid t.nextJobId j hj a ya)
  · exact analysisBatch_analyze_ref t.db yid t.nextJobId
  · intro k hk hks j hj hjf
    have h2 := analysisBatch_not_fetch t.db yid t.nextJobId j hj
    rw [hjf] at h2
    simp at h2


theorem removeJob_queue (s : SysState) (jobId : Nat) :
    (removeJob s jobId).queue = s.queue.filter (fun j => j.id != jobId) := rfl

theorem fetchRefersSentinel_false_of_C6Inv (s : SysState) (h : C6Inv s) :
    fetchRefersSentinel s = false := by
  obtain ⟨_, ⟨f1, _, _, _, _, f6⟩, _⟩ := h
  unfold fetchRefersSentinel
  rw [List.any_eq_false]
  intro j hj hbad
  cases hd : j.data with
  | syncVideos a b c => simp [hd] at hbad
  | analyzeVideo a b => simp [hd] at hbad
  | completePipeline a => simp [hd] at hbad
  | fetchTranscript vid yid =>
    simp only [hd] at hbad
    rw [List.any_eq_true] at hbad
    obtain ⟨v, hv, hpv⟩ := hbad
    rw [Bool.and_eq_true] at hpv
    obtain ⟨w, hw, hwid, hwy, hwt⟩ := f1 j hj vid yid hd
    have hvid : v.id = vid := beq_iff_eq.mp hpv.1
    have hvw : v = w := nodup_ids_inj f6 hv hw (by rw [hvid, hwid])
    have hbad2 := hpv.2
    rw [hvw, hwt] at hbad2
    simp at hbad2

theorem C6Inv_appendSyncJob (t t' : SysState) (jnew : QueuedJob)
    (hq : t'.queue = t.queue ++ [jnew])
    (hdbv : t'.db.videos = t.db.videos)
    (hdbn : t'.db.nextVideoId = t.db.nextVideoId)
    (hjle : t.nextJobId ≤ t'.nextJobId)
    (hid : jnew.id < t'.nextJobId)
    (hidfresh : ∀ k ∈ t.queue, k.id ≠ jnew.id)
    (hsync : jnew.data.isSync = true)
    (hnosyncc : ∀ k ∈ t.queue, ¬ (k.data.isSync = true ∧ k.data.creator = jnew.data.creator))
    (hnofetchc : ∀ k ∈ t.queue, ¬ (k.data.isFetch = true ∧ k.data.creator = jnew.data.creator))
    (h : C6Inv t) : C6Inv t' := by
  obtain ⟨⟨hbound, hnd⟩, ⟨f1, f2, f3, f4, f5, f6⟩, hsu⟩ := h
  have hnotfetch : ∀ a ya, ¬ (jnew.data = JobData.fetchTranscript a ya) := by
    intro a ya hd
    rw [hd] at hsync
    simp [JobData.isSync] at hsync
  have hnotan : ∀ a ya, ¬ (jnew.data = JobData.analyzeVideo a ya) := by
    intro a ya hd
    rw [hd] at hsync
    simp [JobData.isSync] at hsync
  have hnotf : jnew.data.isFetch = false := by
    cases hd : jnew.data with
    | syncVideos a2 b2 c2 => rfl
    | fetchTranscript a2 b2 => rw [hd] at hsync; simp [JobData.isSync] at hsync
    | analyzeVideo a2 b2 => rw [hd] at hsync; simp [JobData.isSync] at hsync
    | completePipeline a2 => rw [hd] at hsync; simp [JobData.isSync] at hsync
  refine ⟨⟨?_, ?_⟩, ⟨?_, ?_, ?_, ?_, ?_, ?_⟩, ?_⟩
  · intro j hj
    rw [hq] at hj
    rcases List.mem_append.mp hj with hh | hh
    · exact lt_of_lt_of_le (hbound j hh) hjle
    · rw [List.mem_singleton] at hh
      subst hh
      exact hid
  · rw [hq, List.map_append, List.nodup_append]
    refine ⟨hnd, by simp, ?_⟩
    intro a ha hb
    obtain ⟨k, hk, rfl⟩ := List.mem_map.mp ha
    simp only [List.map_cons, List.map_nil, List.mem_singleton] at hb
    exact hidfresh k hk hb
  · intro j hj a ya hd
    rw [hq] at hj
    rw [hdbv]
    rcases List.mem_append.mp hj with hh | hh
    · exact f1 j hh a ya hd
    · rw [List.mem_singleton] at hh
      subst hh
      exact absurd hd (hnotfetch a ya)
  · intro j hj a ya hd k hk b yb hd' hne
    rw [hq] at hj hk
    rcases List.mem_append.mp hj with hj1 | hj1
    · rcases List.mem_append.mp hk with hk1 | hk1
      · exact f2 j hj1 a ya hd k hk1 b yb hd' hne
      · rw [List.mem_singleton] at hk1
        subst hk1
        exact absurd hd' (hnotfetch b yb)
    · rw [List.mem_singleton] at hj1
      subst hj1
      exact absurd hd (hnotfetch a ya)
  · intro j hj a ya hd
    rw [hq] at hj
    rw [hdbv]
    rcases List.mem_append.mp hj with hh | hh
    · exact f3 j hh a ya hd
    · rw [List.mem_singleton] at hh
      subst hh
      exact absurd hd (hnotan a ya)
  · intro c hex j hj hjf
    obtain ⟨k, hk, hks⟩ := hex
    rw [hq] at hk hj
    rcases List.mem_append.mp hj with hj1 | hj1
    · rcases List.mem_append.mp hk with hk1 | hk1
      · exact f4 c ⟨k, hk1, hks⟩ j hj1 hjf
      · rw [List.mem_singleton] at hk1
        subst hk1
        exact hnofetchc j hj1 ⟨hjf.1, by rw [hjf.2, hks.2]⟩
    · rw [List.mem_singleton] at hj1
      subst hj1
      have hjf1 := hjf.1
      rw [hnotf] at hjf1
      exact absurd hjf1 (by simp)
  · intro v hvm
    rw [hdbv] at hvm
    rw [hdbn]
    exact f5 v hvm
  · rw [hdbv]
    exact f6
  · intro j hj k hk hjs hks hcr
    rw [hq] at hj hk
    rcases List.mem_append.mp hj with hj1 | hj1 <;> rcases List.mem_append.mp hk with hk1 | hk1
    · exact hsu j hj1 k hk1 hjs hks hcr
    · rw [List.mem_singleton] at hk1
      subst hk1
      exact absurd ⟨hjs, hcr⟩ (hnosyncc j hj1)
    · rw [List.mem_singleton] at hj1
      subst hj1
      exact absurd ⟨hks, hcr.symm⟩ (hnosyncc k hk1)
    · rw [List.mem_singleton] at hj1
      rw [List.mem_singleton] at hk1
      rw [hj1, hk1]

theorem C6Inv_start (s : SysState) (yid : String)
    (hguard : ∀ j ∈ s.queue, j.data.creator ≠ yid)
    (h : C6Inv s) : C6Inv (startChannelPipelineFn s yid).1 := by
  have h' := h
  obtain ⟨⟨hbound, hnd⟩, _, _⟩ := h'
  unfold startChannelPipelineFn
  cases hy : s.db.findYoutuber yid with
  | none => exact h
  | some y =>
    apply C6Inv_appendSyncJob s _
      ⟨s.nextJobId, JobData.syncVideos yid y.channelId PIPELINE_defaultMonthsBack, 0, 0⟩
      ?_ ?_ ?_ ?_ ?_ ?_ rfl ?_ ?_ h
    · rfl
    · rfl
    · rfl
    · exact Nat.le_succ _
    · exact Nat.lt_succ_self _
    · intro k hk
      have h2 := hbound k hk
      show k.id ≠ s.nextJobId
      omega
    · intro k hk hbad
      exact hguard k hk hbad.2
    · intro k hk hbad
      exact hguard k hk hbad.2

theorem C6Inv_upsert (t : SysState) (yid : String) (metas : List VideoMeta) (h : C6Inv t)
    (t' : SysState) (hq : t'.queue = t.queue) (hnj : t'.nextJobId = t.nextJobId)
    (hdb : t'.db = upsertVideos t.db yid metas) : C6Inv t' := by
  obtain ⟨⟨hbound, hnd⟩, ⟨f1, f2, f3, f4, f5, f6⟩, hsu⟩ := h
  have hwf : DBWf t'.db := by
    rw [hdb]
    exact upsertVideos_wf yid metas t.db ⟨f5, f6⟩
  obtain ⟨hwf1, hwf2⟩ := hwf
  refine ⟨⟨?_, ?_⟩, ⟨?_, ?_, ?_, ?_, hwf1, hwf2⟩, ?_⟩
  · intro j hj
    rw [hq] at hj
    rw [hnj]
    exact hbound j hj
  · rw [hq]
    exact hnd
  · intro j hj a ya hd
    rw [hq] at hj
    obtain ⟨v, hv, h1, h2, h3⟩ := f1 j hj a ya hd
    refine ⟨v, ?_, h1, h2, h3⟩
    rw [hdb]
    exact upsertVideos_mem yid metas t.db hv
  · intro j hj a ya hd k hk b yb hd' hne
    rw [hq] at hj hk
    exact f2 j hj a ya hd k hk b yb hd' hne
  · intro j hj a ya hd
    rw [hq] at hj
    obtain ⟨v, hv, h1, h2⟩ := f3 j hj a ya hd
    refine ⟨v, ?_, h1, h2⟩
    rw [hdb]
    exact upsertVideos_mem yid metas t.db hv
  · intro c hex jj hj hjf
    obtain ⟨k, hk, hks⟩ := hex
    rw [hq] at hk hj
    exact f4 c ⟨k, hk, hks⟩ jj hj hjf
  · intro j hj k hk hjs hks hcr
    rw [hq] at hj hk
    exact hsu j hj k hk hjs hks hcr

theorem C6Inv_enqueueFetch (t : SysState) (yid : String)
    (hnosyncy : ∀ k ∈ t.queue, ¬ (k.data.isSync = true ∧ k.data.creator = yid))
    (hnofetchy : ∀ k ∈ t.queue, ¬ (k.data.isFetch = true ∧ k.data.creator = yid))
    (h : C6Inv t) :
    C6Inv (enqueueJobsFrom t (staggered (fun v => JobData.fetchTranscript v.id yid)
      PIPELINE_delayBetweenTranscripts 0 (transcriptNeededSelection t.db yid))) := by
  have h' := h
  obtain ⟨⟨hbound, hnd⟩, ⟨f1, f2, f3, f4, f5, f6⟩, hsu⟩ := h'
  rw [enqueueStaggered_spec]
  apply C6Inv_appendJobs t _
    (staggeredJobsFrom (fun v => JobData.fetchTranscript v.id yid)
      PIPELINE_delayBetweenTranscripts 0 t.nextJobId (transcriptNeededSelection t.db yid))
    ?_ ?_ ?_ ?_ ?_ ?_ ?_ ?_ ?_ ?_ ?_ ?_ h
  · rfl
  · rfl
  · rfl
  · exact Nat.le_add_right _ _
  · intro j hj
    obtain ⟨v, hv, hd, hlt, hge⟩ := staggeredJobsFrom_data _ _ _ _ _ j hj
    exact ⟨hge, hlt⟩
  · exact staggeredJobsFrom_ids_nodup _ _ _ _ _
  · intro j hj
    obtain ⟨v, hv, hd, h3, h4⟩ := staggeredJobsFrom_data _ _ _ _ _ j hj
    rw [hd]
    rfl
  · intro j hj a ya hd
    obtain ⟨v, hv, hdv, h3, h4⟩ := staggeredJobsFrom_data _ _ _ _ _ j hj
    rw [hdv] at hd
    injection hd with h1 h2
    obtain ⟨hm, hy2, ht2⟩ := transcriptNeededSelection_mem hv
    exact ⟨v, hm, h1, hy2.trans h2, ht2⟩
  · intro j hj a ya hd k hk b yb hd' hne
    exact staggeredJobsFrom_fetch_inj yid _ _ _ _
      (transcriptNeededSelection_ids_nodup t.db yid f6) j hj k hk a ya b yb hd hd' hne
  · intro j hj a ya hd k hk b yb hd'
    obtain ⟨v, hv, hdv, h3, h4⟩ := staggeredJobsFrom_data _ _ _ _ _ j hj
    rw [hdv] at hd
    injection hd with h1 h2
    obtain ⟨hm, hy2, ht2⟩ := transcriptNeededSelection_mem hv
    obtain ⟨w, hwm, hwid, hwy, hwt⟩ := f1 k hk b yb hd'
    have hyb : yb ≠ yid := by
      intro he
      exact hnofetchy k hk ⟨by rw [hd']; rfl, by rw [hd']; exact he⟩
    intro he
    have hvw : v = w := nodup_ids_inj f6 hm hwm (by rw [h1, he, hwid])
    rw [hvw, hwy] at hy2
    exact hyb hy2
  · intro j hj a ya hd
    obtain ⟨v, hv, hdv, h3, h4⟩ := staggeredJobsFrom_data _ _ _ _ _ j hj
    rw [hdv] at hd
    exact JobData.noConfusion hd
  · intro k hk hks j hj hjf
    obtain ⟨v, hv, hdv, h3, h4⟩ := staggeredJobsFrom_data _ _ _ _ _ j hj
    have hkc : k.data.creator ≠ yid := by
      intro he
      exact hnosyncy k hk ⟨hks, he⟩
    rw [hdv]
    exact fun he => hkc ((show yid = k.data.creator from he).symm)

theorem processSyncVideos_ok_threw (t : SysState) (yid : String) (mb : Nat)
    (metas : List VideoMeta) (err : Option String) :
    (processSyncVideos t yid mb (.ok metas) err).threw = false := by
  unfold processSyncVideos
  simp only [writeStatus]
  split <;> rfl

theorem processSyncVideos_error_threw (t : SysState) (yid : String) (mb : Nat)
    (msg : String) (err : Option String) :
    (processSyncVideos t yid mb (.error msg) err).threw = true := rfl

theorem C6Inv_processSyncVideos (t : SysState) (yid : String) (mb : Nat)
    (metas : List VideoMeta) (err : Option String)
    (hnosyncy : ∀ k ∈ t.queue, ¬ (k.data.isSync = true ∧ k.data.creator = yid))
    (hnofetchy : ∀ k ∈ t.queue, ¬ (k.data.isFetch = true ∧ k.data.creator = yid))
    (h : C6Inv t) : C6Inv (processSyncVideos t yid mb (.ok metas) err).state := by
  unfold processSyncVideos
  simp only [writeStatus]
  split
  · apply C6Inv_queueAnalysisJobs
    apply C6Inv_upsert t yid metas h
    · rfl
    · rfl
    · rfl
  · apply C6Inv_enqueueFetch
    · exact hnosyncy
    · exact hnofetchy
    · apply C6Inv_upsert t yid metas h
      · rfl
      · rfl
      · rfl

theorem C6Inv_runSync (s : SysState) (jobId : Nat) (res : Except String (List VideoMeta))
    (err : Option String) (h : C6Inv s) :
    C6Inv (applyOp s (Op.runSync jobId res err)).1 := by
  unfold applyOp
  simp only []
  cases hf : findJob s jobId with
  | none => exact h
  | some j =>
    simp only []
    obtain ⟨hjmem, hjid⟩ := findJob_mem s jobId j hf
    cases hjd : j.data with
    | fetchTranscript a b => exact h
    | analyzeVideo a b => exact h
    | completePipeline a => exact h
    | syncVideos yid ch mb =>
      show C6Inv (if (processSyncVideos (removeJob s jobId) yid mb res err).threw = true
          then requeueFailed (processSyncVideos (removeJob s jobId) yid mb res err).state j
          else (processSyncVideos (removeJob s jobId) yid mb res err).state)
      have h' := h
      obtain ⟨⟨hbound, hnd⟩, ⟨f1, f2, f3, f4, f5, f6⟩, hsu⟩ := h'
      have ht : C6Inv (removeJob s jobId) := C6Inv_removeJob s jobId h
      have hjs : j.data.isSync = true := by rw [hjd]; rfl
      have hjc : j.data.creator = yid := by rw [hjd]; rfl
      have hnosyncy : ∀ k ∈ (removeJob s jobId).queue,
          ¬ (k.data.isSync = true ∧ k.data.creator = yid) := by
        intro k hk hbad
        rw [removeJob_queue] at hk
        have hk2 := List.mem_filter.mp hk
        have hkj : k = j := hsu k hk2.1 j hjmem hbad.1 hjs (by rw [hbad.2, hjc])
        have hkid : (k.id != jobId) = true := hk2.2
        rw [hkj, hjid] at hkid
        simp at hkid
      have hnofetchy : ∀ k ∈ (removeJob s jobId).queue,
          ¬ (k.data.isFetch = true ∧ k.data.creator = yid) := by
        intro k hk hbad
        rw [removeJob_queue] at hk
        exact f4 yid ⟨j, hjmem, hjs, hjc⟩ k (List.mem_of_mem_filter hk) hbad
      cases res with
      | ok metas =>
        have hthrew := processSyncVideos_ok_threw (removeJob s jobId) yid mb metas err
        simp only [hthrew, Bool.false_eq_true, if_false]
        exact C6Inv_processSyncVideos (removeJob s jobId) yid mb metas err hnosyncy hnofetchy ht
      | error msg =>
        have hthrew := processSyncVideos_error_threw (removeJob s jobId) yid mb msg err
        simp only [hthrew, if_true]
        unfold requeueFailed
        split
        · apply C6Inv_appendSyncJob
            (processSyncVideos (removeJob s jobId) yid mb (.error msg) err).state _
            (retriedJob j) ?_ ?_ ?_ ?_ ?_ ?_ ?_ ?_ ?_ ?_
          · rfl
          · rfl
          · rfl
          · exact Nat.le_refl _
          · exact hbound j hjmem
          · intro k hk
            have hk2 := List.mem_filter.mp hk
            have hb2 : (k.id != jobId) = true := hk2.2
            simp only [bne_iff_ne, ne_eq] at hb2
            show k.id ≠ j.id
            rw [hjid]
            exact hb2
          · exact hjs
          · intro k hk hbad
            exact hnosyncy k hk ⟨hbad.1, by rw [← hjc]; exact hbad.2⟩
          · intro k hk hbad
            exact hnofetchy k hk ⟨hbad.1, by rw [← hjc]; exact hbad.2⟩
          · apply C6Inv_congr (removeJob s jobId)
            · rfl
            · rfl
            · rfl
            · rfl
            · exact ht
        · apply C6Inv_congr (removeJob s jobId)
          · rfl
          · rfl
          · rfl
          · rfl
          · exact ht


theorem C6Inv_updateTranscript (t : SysState) (vid : Nat) (tr : List TranscriptSegment)
    (hnoref : ∀ k ∈ t.queue, ∀ a ya, k.data = JobData.fetchTranscript a ya → a ≠ vid)
    (h : C6Inv t)
    (t' : SysState) (hq : t'.queue = t.queue)
    (hdb : t'.db = t.db.updateVideo vid (fun v => { v with transcript := some tr }))
    (hnj : t'.nextJobId = t.nextJobId) : C6Inv t' := by
  apply C6Inv_mapVideos t t'
    (fun v => if v.id == vid then { v with transcript := some tr } else v)
    hq ?_ ?_ hnj ?_ ?_ ?_ h
  · rw [hdb]
    rfl
  · rw [hdb]
    rfl
  · intro v
    by_cases hvv : (v.id == vid) = true <;> simp [hvv]
  · intro v hsome
    by_cases hvv : (v.id == vid) = true <;> simp [hvv, hsome]
  · intro k hk a ya hd v hv hvid
    have hne := hnoref k hk a ya hd
    have hb : (v.id == vid) = false := by
      rw [hvid]
      exact beq_eq_false_iff_ne.mpr hne
    simp [hb]

theorem ite_fetchOut_threw (c : Prop) [Decidable c] (A B : FetchOut)
    (hA : A.threw = false) (hB : B.threw = false) : (if c then A else B).threw = false := by
  by_cases h : c
  · rw [if_pos h]
    exact hA
  · rw [if_neg h]
    exact hB

theorem C6Inv_ite_fetchOut_state (c : Prop) [Decidable c] (A B : FetchOut)
    (hA : C6Inv A.state) (hB : C6Inv B.state) : C6Inv (if c then A else B).state := by
  by_cases h : c
  · rw [if_pos h]
    exact hA
  · rw [if_neg h]
    exact hB

theorem processFetchTranscript_threw (t : SysState) (jobId vid : Nat) (yid : String)
    (res : Option (List TranscriptSegment)) (err : Option String)
    (w : Video) (hw : t.db.findVideo vid = some w) :
    (processFetchTranscript t jobId vid yid res err).threw = false := by
  unfold processFetchTranscript
  rw [hw]
  simp only []
  cases res <;> exact ite_fetchOut_threw _ _ _ rfl rfl

theorem C6Inv_processFetch (t : SysState) (jobId vid : Nat) (yid : String)
    (res : Option (List TranscriptSegment)) (err : Option String)
    (w : Video) (hw : t.db.findVideo vid = some w)
    (hnoref : ∀ k ∈ t.queue, ∀ a ya, k.data = JobData.fetchTranscript a ya → a ≠ vid)
    (h : C6Inv t) :
    C6Inv (processFetchTranscript t jobId vid yid res err).state := by
  unfold processFetchTranscript
  rw [hw]
  simp only []
  cases res with
  | some tr =>
    apply C6Inv_ite_fetchOut_state
    · apply C6Inv_queueAnalysisJobs
      apply C6Inv_updateTranscript t vid tr hnoref h
      · rfl
      · rfl
      · rfl
    · apply C6Inv_updateTranscript t vid tr hnoref h
      · rfl
      · rfl
      · rfl
  | none =>
    apply C6Inv_ite_fetchOut_state
    · apply C6Inv_queueAnalysisJobs
      apply C6Inv_updateTranscript t vid unavailableTranscript hnoref h
      · rfl
      · rfl
      · rfl
    · apply C6Inv_updateTranscript t vid unavailableTranscript hnoref h
      · rfl
      · rfl
      · rfl

theorem C6Inv_runFetch (s : SysState) (jobId : Nat) (res : Option (List TranscriptSegment))
    (err : Option String) (h : C6Inv s) :
    C6Inv (applyOp s (Op.runFetch jobId res err)).1 := by
  unfold applyOp
  simp only []
  cases hf : findJob s jobId with
  | none => exact h
  | some j =>
    simp only []
    obtain ⟨hjmem, hjid⟩ := findJob_mem s jobId j hf
    cases hjd : j.data with
    | syncVideos a b c => exact h
    | analyzeVideo a b => exact h
    | completePipeline a => exact h
    | fetchTranscript vid yid =>
      show C6Inv
        (if (processFetchTranscript (removeJob s jobId) jobId vid yid res err).threw = true
         then requeueFailed (processFetchTranscript (removeJob s jobId) jobId vid yid res err).state j
         else (processFetchTranscript (removeJob s jobId) jobId vid yid res err).state)
      have h' := h
      obtain ⟨⟨hbound, hnd⟩, ⟨f1, f2, f3, f4, f5, f6⟩, hsu⟩ := h'
      have ht : C6Inv (removeJob s jobId) := C6Inv_removeJob s jobId h
      obtain ⟨v0, hv0, hv0id, hv0y, hv0t⟩ := f1 j hjmem vid yid hjd
      have hwex : ∃ w, s.db.findVideo vid = some w := by
        cases hwv : s.db.findVideo vid with
        | some w => exact ⟨w, rfl⟩
        | none =>
          have h2 := List.find?_eq_none.mp hwv v0 hv0
          rw [hv0id] at h2
          simp at h2
      obtain ⟨w, hw⟩ := hwex
      have hw2 : (removeJob s jobId).db.findVideo vid = some w := hw
      have hthrew := processFetchTranscript_threw (removeJob s jobId) jobId vid yid res err w hw2
      rw [hthrew, if_neg (by simp)]
      apply C6Inv_processFetch (removeJob s jobId) jobId vid yid res err w hw2 ?_ ht
      intro k hk a ya hd
      rw [removeJob_queue] at hk
      have hk2 := List.mem_filter.mp hk
      have hkne : j.id ≠ k.id := by
        have hb2 : (k.id != jobId) = true := hk2.2
        simp only [bne_iff_ne, ne_eq] at hb2
        rw [hjid]
        exact fun he => hb2 he.symm
      exact fun he => (f2 j hjmem vid yid hjd k hk2.1 a ya hd hkne) he.symm

theorem analyzeVideoFn_some_videos (db : DB) (vid : Nat)
    (fetchRes : Option (List TranscriptSegment)) (extracted : List ExtractedPred) (crash : Bool)
    (w : Video) (hw : db.findVideo vid = some w) (hsome : w.transcript.isSome = true)
    (db2 : DB) (r : AnalysisResult)
    (hout : analyzeVideoFn db vid fetchRes extracted crash = some (db2, r)) :
    ∃ q : ℚ, db2.videos = db.videos.map (fun v =>
      if v.id == vid then { v with analyzed := true, avgScore := some q } else v) ∧
    db2.nextVideoId = db.nextVideoId := by
  unfold analyzeVideoFn at hout
  cases crash with
  | true => simp at hout
  | false =>
    rw [if_neg (by simp)] at hout
    rw [hw] at hout
    simp only [] at hout
    obtain ⟨t0, ht0⟩ := Option.isSome_iff_exists.mp hsome
    rw [ht0] at hout
    simp only [] at hout
    by_cases hp : isUnavailablePlaceholder t0 = true
    · rw [if_pos hp] at hout
      injection hout with h1
      injection h1 with h2 h3
      refine ⟨0, ?_, ?_⟩
      · rw [← h2]
        rfl
      · rw [← h2]
        rfl
    · rw [if_neg hp] at hout
      injection hout with h1
      injection h1 with h2 h3
      refine ⟨(if (extracted.filterMap (·.verification)).length = 0 then (0 : ℚ)
        else (extracted.filterMap (·.verification)).sum
          / (extracted.filterMap (·.verification)).length), ?_, ?_⟩
      · rw [← h2]
        rfl
      · rw [← h2]
        rfl

theorem C6Inv_processAnalyze (t : SysState) (vid : Nat) (yid : String)
    (fetchRes : Option (List TranscriptSegment)) (extracted : List ExtractedPred) (crash : Bool)
    (v1 : Video) (hv1 : v1 ∈ t.db.videos) (hv1id : v1.id = vid)
    (hv1t : v1.transcript.isSome = true)
    (h : C6Inv t) : C6Inv (processAnalyzeVideo t vid yid fetchRes extracted crash).1 := by
  have h' := h
  obtain ⟨_, ⟨f1, _, _, _, _, f6⟩, _⟩ := h'
  unfold processAnalyzeVideo
  cases han : analyzeVideoFn t.db vid fetchRes extracted crash with
  | none => exact h
  | some pr =>
    obtain ⟨db2, r⟩ := pr
    simp only []
    have hwex : ∃ w, t.db.findVideo vid = some w := by
      cases hwv : t.db.findVideo vid with
      | some w => exact ⟨w, rfl⟩
      | none =>
        have h2 := List.find?_eq_none.mp hwv v1 hv1
        rw [hv1id] at h2
        simp at h2
    obtain ⟨w, hw⟩ := hwex
    have hwm : w ∈ t.db.videos := List.mem_of_find?_eq_some hw
    have hwid : w.id = vid :=
      beq_iff_eq.mp (List.find?_some (p := fun v : Video => v.id == vid) hw)
    have hww : w = v1 := nodup_ids_inj f6 hwm hv1 (by rw [hwid, hv1id])
    have hwt : w.transcript.isSome = true := by
      rw [hww]
      exact hv1t
    obtain ⟨q, hvids, hnvid⟩ :=
      analyzeVideoFn_some_videos t.db vid fetchRes extracted crash w hw hwt db2 r han
    apply C6Inv_mapVideos t _
      (fun v => if v.id == vid then { v with analyzed := true, avgScore := some q } else v)
      ?_ ?_ ?_ ?_ ?_ ?_ ?_ h
    · rfl
    · exact hvids
    · exact hnvid
    · rfl
    · intro v
      by_cases hvv : (v.id == vid) = true <;> simp [hvv]
    · intro v hs
      by_cases hvv : (v.id == vid) = true <;> simp [hvv, hs]
    · intro k hk a ya hd v hv hvid2
      obtain ⟨vr, hvr, hvrid, hvry, hvrt⟩ := f1 k hk a ya hd
      have hane : a ≠ vid := by
        intro he
        have hrv : vr = v1 := nodup_ids_inj f6 hvr hv1 (by rw [hvrid, he, hv1id])
        rw [hrv] at hvrt
        rw [hvrt] at hv1t
        simp at hv1t
      have hb : (v.id == vid) = false := by
        rw [hvid2]
        exact beq_eq_false_iff_ne.mpr hane
      simp [hb]

theorem C6Inv_runAnalyze (s : SysState) (jobId : Nat) (fetchRes : Option (List TranscriptSegment))
    (extracted : List ExtractedPred) (crash : Bool) (h : C6Inv s) :
    C6Inv (applyOp s (Op.runAnalyze jobId fetchRes extracted crash)).1 := by
  unfold applyOp
  simp only []
  cases hf : findJob s jobId with
  | none => exact h
  | some j =>
    simp only []
    obtain ⟨hjmem, hjid⟩ := findJob_mem s jobId j hf
    cases hjd : j.data with
    | syncVideos a b c => exact h
    | fetchTranscript a b => exact h
    | completePipeline a => exact h
    | analyzeVideo vid yid =>
      show C6Inv (processAnalyzeVideo (removeJob s jobId) vid yid fetchRes extracted crash).1
      have h' := h
      obtain ⟨_, ⟨_, _, f3, _, _, _⟩, _⟩ := h'
      obtain ⟨v1, hv1, hv1id, hv1t⟩ := f3 j hjmem vid yid hjd
      exact C6Inv_processAnalyze (removeJob s jobId) vid yid fetchRes extracted crash
        v1 hv1 hv1id hv1t (C6Inv_removeJob s jobId h)

theorem C6Inv_runComplete (s : SysState) (jobId : Nat) (err : Option String) (h : C6Inv s) :
    C6Inv (applyOp s (Op.runComplete jobId err)).1 := by
  unfold applyOp
  simp only []
  cases hf : findJob s jobId with
  | none => exact h
  | some j =>
    simp only []
    cases hjd : j.data with
    | syncVideos a b c => exact h
    | fetchTranscript a b => exact h
    | analyzeVideo a b => exact h
    | completePipeline yid =>
      show C6Inv (completePipelineFn (removeJob s jobId) yid err).1
      have ht : C6Inv (removeJob s jobId) := C6Inv_removeJob s jobId h
      cases err with
      | some msg =>
        apply C6Inv_congr (removeJob s jobId)
        · rfl
        · rfl
        · rfl
        · rfl
        · exact ht
      | none =>
        apply C6Inv_congr (removeJob s jobId)
        · rfl
        · rfl
        · rfl
        · rfl
        · exact ht


theorem isStuck_no_fetch (s : SysState) (yid : String) (h : isStuck s yid = true) :
    hasFetchJobFor s.queue yid = false := by
  unfold isStuck at h
  cases hg : getStatusEntry s.store yid with
  | none =>
    rw [hg] at h
    simp at h
  | some st =>
    rw [hg] at h
    have h2 : (st.status == Status.fetchingTranscripts
        && !(hasFetchJobFor s.queue yid)) = true := h
    rw [Bool.and_eq_true] at h2
    have h3 := h2.2
    rw [Bool.not_eq_true'] at h3
    exact h3

theorem mark_mem_of_some {db : DB} {yid : String} {v : Video} (hv : v ∈ db.videos)
    (hs : v.transcript.isSome = true) : v ∈ (markTranscriptless db yid).videos := by
  have hc : (v.youtuberId == yid && v.transcript.isNone) = false := by
    cases hn : v.transcript.isNone with
    | false => simp [hn]
    | true =>
      rw [Option.isNone_iff_eq_none] at hn
      rw [hn] at hs
      simp at hs
  have heq : (fun w => if w.youtuberId == yid && w.transcript.isNone
      then { w with transcript := some unavailableTranscript } else w) v = v := by
    simp [hc]
  have hmem := List.mem_map_of_mem (fun w => if w.youtuberId == yid && w.transcript.isNone
    then { w with transcript := some unavailableTranscript } else w) hv
  rw [heq] at hmem
  exact hmem

theorem forceStart_nextJobId_some (s : SysState) (yid : String) (y : YouTuberRec)
    (hy : s.db.findYoutuber yid = some y) :
    (forceStartAnalysisFn s yid).1.nextJobId
      = s.nextJobId + (analysisBatch s.db yid s.nextJobId).length := by
  simp only [forceStartAnalysisFn, analysisBatch]
  rw [hy]
  by_cases hv : (analysisCandidates s.db yid).isEmpty
  · simp [hv, writeStatus]
  · simp [hv, writeStatus, enqueueStaggered_spec, addJobS, List.length_append,
      staggeredJobsFrom_length]
    omega

theorem C6Inv_forceStartStuck (s : SysState) (yid : String)
    (hnofetch : hasFetchJobFor s.queue yid = false)
    (h : C6Inv s) : C6Inv (forceStartAnalysisFn s yid).1 := by
  cases hy : s.db.findYoutuber yid with
  | none =>
    rw [forceStart_state_none s yid hy]
    exact h
  | some y =>
    have h' := h
    obtain ⟨⟨hbound, hnd⟩, ⟨f1, f2, f3, f4, f5, f6⟩, hsu⟩ := h'
    have hfix : ∀ k ∈ s.queue, ∀ a ya, k.data = JobData.fetchTranscript a ya →
        ∀ v ∈ s.db.videos, v.id = a →
        (fun w => if w.youtuberId == yid && w.transcript.isNone then
          { w with transcript := some unavailableTranscript } else w) v = v := by
      intro k hk a ya hd v hv hvid
      obtain ⟨vr, hvr, hvrid, hvry, hvrt⟩ := f1 k hk a ya hd
      have hvvr : v = vr := nodup_ids_inj f6 hv hvr (by rw [hvid, hvrid])
      have hya : ya ≠ yid := by
        intro he
        have hno := List.any_eq_false.mp hnofetch k hk
        apply hno
        rw [hd, he]
        rw [Bool.and_eq_true]
        constructor
        · rfl
        · rw [beq_iff_eq]
          rfl
      have hvy : (v.youtuberId == yid) = false := by
        rw [hvvr, hvry]
        exact beq_eq_false_iff_ne.mpr hya
      simp [hvy]
    have hmid : C6Inv { s with db := markTranscriptless s.db yid } := by
      apply C6Inv_mapVideos s _
        (fun w => if w.youtuberId == yid && w.transcript.isNone then
          { w with transcript := some unavailableTranscript } else w)
        ?_ ?_ ?_ ?_ ?_ ?_ ?_ h
      · rfl
      · rfl
      · rfl
      · rfl
      · intro v
        by_cases hc : (v.youtuberId == yid && v.transcript.isNone) = true <;> simp [hc]
      · intro v hs
        by_cases hc : (v.youtuberId == yid && v.transcript.isNone) = true
        · rw [Bool.and_eq_true] at hc
          have := hc.2
          rw [Option.isNone_iff_eq_none] at this
          rw [this] at hs
          simp at hs
        · simp [hc, hs]
      · exact hfix
    apply C6Inv_appendJobs { s with db := markTranscriptless s.db yid } _
      (analysisBatch s.db yid s.nextJobId) ?_ ?_ ?_ ?_ ?_ ?_ ?_ ?_ ?_ ?_ ?_ ?_ hmid
    · exact forceStart_queue_some s yid y hy
    · rw [forceStart_db_some s yid y hy]
    · rw [forceStart_db_some s yid y hy]
    · rw [forceStart_nextJobId_some s yid y hy]
      exact Nat.le_add_right _ _
    · intro j hj
      have h2 := analysisBatch_ids s.db yid s.nextJobId j hj
      rw [forceStart_nextJobId_some s yid y hy]
      exact h2
    · exact analysisBatch_ids_nodup s.db yid s.nextJobId
    · exact analysisBatch_no_sync s.db yid s.nextJobId
    · intro j hj a ya hd
      exact absurd hd (analysisBatch_no_fetch_data s.db yid s.nextJobId j hj a ya)
    · intro j hj a ya hd
      exact absurd hd (analysisBatch_no_fetch_data s.db yid s.nextJobId j hj a ya)
    · intro j hj a ya hd
      exact absurd hd (analysisBatch_no_fetch_data s.db yid s.nextJobId j hj a ya)
    · intro j hj a ya hd
      obtain ⟨v, hvm, hvid, hvs⟩ := analysisBatch_analyze_ref s.db yid s.nextJobId j hj a ya hd
      exact ⟨v, mark_mem_of_some hvm hvs, hvid, hvs⟩
    · intro k hk hks j hj hjf
      have h2 := analysisBatch_not_fetch s.db yid s.nextJobId j hj
      rw [hjf] at h2
      simp at h2

theorem stuckSweepLoop_C6Inv :
    ∀ (ys : List YouTuberRec) (s : SysState) (log : List StatusWrite),
      C6Inv s → C6Inv (stuckSweepLoop s log ys).1 := by
  intro ys
  induction ys with
  | nil => intro s log h; exact h
  | cons y ys ih =>
    intro s log h
    rw [stuckSweepLoop]
    by_cases hstuck : isStuck s y.id = true
    · rw [if_pos hstuck]
      exact ih _ _ (C6Inv_forceStartStuck s y.id (isStuck_no_fetch s y.id hstuck) h)
    · rw [if_neg hstuck]
      exact ih s log h

theorem orphanStep_nextJobId (s : SysState) (yid : String) (vids : List Video) (q : Nat)
    (u : StatusUpdate) :
    (addJobS (enqueueJobsFrom (writeStatus s yid u).1
        (staggered (fun v => JobData.analyzeVideo v.id yid) PIPELINE_delayBetweenAnalysis q vids))
      (JobData.completePipeline yid)
      ((q + vids.length) * PIPELINE_delayBetweenAnalysis + 5000)).nextJobId
      = s.nextJobId + vids.length + 1 := by
  simp [writeStatus, enqueueStaggered_spec, addJobS]

theorem orphanStep_C6Inv (s : SysState) (yid : String) (vids : List Video) (q : Nat)
    (u : StatusUpdate)
    (hmem : ∀ v ∈ vids, v ∈ s.db.videos ∧ v.transcript.isSome = true)
    (h : C6Inv s) :
    C6Inv (addJobS (enqueueJobsFrom (writeStatus s yid u).1
        (staggered (fun v => JobData.analyzeVideo v.id yid) PIPELINE_delayBetweenAnalysis q vids))
      (JobData.completePipeline yid)
      ((q + vids.length) * PIPELINE_delayBetweenAnalysis + 5000)) := by
  apply C6Inv_appendJobs s _
    (staggeredJobsFrom (fun v => JobData.analyzeVideo v.id yid) PIPELINE_delayBetweenAnalysis q
        s.nextJobId vids
      ++ [completionJob yid (s.nextJobId + vids.length)
            ((q + vids.length) * PIPELINE_delayBetweenAnalysis + 5000)])
    ?_ ?_ ?_ ?_ ?_ ?_ ?_ ?_ ?_ ?_ ?_ ?_ h
  · rw [orphanStep_state, List.append_assoc]
  · rw [orphanStep_db]
  · rw [orphanStep_db]
  · rw [orphanStep_nextJobId]
    omega
  · intro j hj
    rw [orphanStep_nextJobId]
    rcases List.mem_append.mp hj with hh | hh
    · obtain ⟨v, hv, hd, hlt, hge⟩ := staggeredJobsFrom_data _ _ _ _ _ j hh
      omega
    · rw [List.mem_singleton] at hh
      subst hh
      show s.nextJobId ≤ s.nextJobId + vids.length ∧
        s.nextJobId + vids.length < s.nextJobId + vids.length + 1
      omega
  · rw [List.map_append, List.nodup_append]
    refine ⟨staggeredJobsFrom_ids_nodup _ _ _ _ _, by simp, ?_⟩
    intro a ha hb
    obtain ⟨j, hj, rfl⟩ := List.mem_map.mp ha
    obtain ⟨v, hv, hd, hlt, hge⟩ := staggeredJobsFrom_data _ _ _ _ _ j hj
    simp only [List.map_cons, List.map_nil, List.mem_singleton] at hb
    have h2 : j.id = s.nextJobId + vids.length := hb
    omega
  · intro j hj
    rcases List.mem_append.mp hj with hh | hh
    · obtain ⟨v, hv, hd, h3, h4⟩ := staggeredJobsFrom_data _ _ _ _ _ j hh
      rw [hd]
      rfl
    · rw [List.mem_singleton] at hh
      subst hh
      rfl
  · intro j hj a ya hd
    rcases List.mem_append.mp hj with hh | hh
    · obtain ⟨v, hv, hdv, h3, h4⟩ := staggeredJobsFrom_data _ _ _ _ _ j hh
      rw [hdv] at hd
      exact JobData.noConfusion hd
    · rw [List.mem_singleton] at hh
      subst hh
      exact JobData.noConfusion hd
  · intro j hj a ya hd
    rcases List.mem_append.mp hj with hh | hh
    · obtain ⟨v, hv, hdv, h3, h4⟩ := staggeredJobsFrom_data _ _ _ _ _ j hh
      rw [hdv] at hd
      exact JobData.noConfusion hd
    · rw [List.mem_singleton] at hh
      subst hh
      exact JobData.noConfusion hd
  · intro j hj a ya hd
    rcases List.mem_append.mp hj with hh | hh
    · obtain ⟨v, hv, hdv, h3, h4⟩ := staggeredJobsFrom_data _ _ _ _ _ j hh
      rw [hdv] at hd
      exact JobData.noConfusion hd
    · rw [List.mem_singleton] at hh
      subst hh
      exact JobData.noConfusion hd
  · intro j hj a ya hd
    rcases List.mem_append.mp hj with hh | hh
    · obtain ⟨v, hv, hdv, h3, h4⟩ := staggeredJobsFrom_data _ _ _ _ _ j hh
      rw [hdv] at hd
      injection hd with h1 h2
      obtain ⟨hm, hs⟩ := hmem v hv
      exact ⟨v, hm, h1, hs⟩
    · rw [List.mem_singleton] at hh
      subst hh
      exact JobData.noConfusion hd
  · intro k hk hks j hj hjf
    rcases List.mem_append.mp hj with hh | hh
    · obtain ⟨v, hv, hdv, h3, h4⟩ := staggeredJobsFrom_data _ _ _ _ _ j hh
      rw [hdv] at hjf
      simp [JobData.isFetch] at hjf
    · rw [List.mem_singleton] at hh
      subst hh
      simp [JobData.isFetch, completionJob] at hjf

theorem orphanLoop_C6Inv :
    ∀ (gs : List (String × List Video)) (s : SysState) (log : List StatusWrite) (q : Nat),
      (∀ g ∈ gs, ∀ v ∈ g.2, v ∈ s.db.videos ∧ v.transcript.isSome = true) →
      C6Inv s → C6Inv (orphanLoop s log q gs).1 := by
  intro gs
  induction gs with
  | nil => intro s log q _ h; exact h
  | cons g gs ih =>
    intro s log q hmem h
    obtain ⟨yid, vids⟩ := g
    rw [orphanLoop]
    by_cases hrun : isPipelineRunningFn s.store yid = true
    · rw [if_pos hrun]
      exact ih s log q (fun g hg => hmem g (List.mem_cons_of_mem _ hg)) h
    · rw [if_neg hrun]
      have main : ∀ (u : StatusUpdate) (s' : SysState),
          s' = addJobS (enqueueJobsFrom (writeStatus s yid u).1
              (staggered (fun v => JobData.analyzeVideo v.id yid)
                PIPELINE_delayBetweenAnalysis q vids))
            (JobData.completePipeline yid)
            ((q + vids.length) * PIPELINE_delayBetweenAnalysis + 5000) →
          ∀ (log' : List StatusWrite),
          C6Inv (orphanLoop s' log' (q + vids.length) gs).1 := by
        intro u s' hs' log'
        refine ih s' log' (q + vids.length) ?_ ?_
        · intro g hg v hv
          have h2 := hmem g (List.mem_cons_of_mem _ hg) v hv
          refine ⟨?_, h2.2⟩
          rw [hs', orphanStep_db]
          exact h2.1
        · rw [hs']
          exact orphanStep_C6Inv s yid vids q u (hmem (yid, vids) (List.mem_cons_self _ _)) h
      exact main _ _ rfl _

theorem sweep_C6Inv (s : SysState) (h : C6Inv s) : C6Inv (runStartupAnalysisFn s).1 := by
  have h1 := stuckSweepLoop_C6Inv s.db.youtubers s [] h
  unfold runStartupAnalysisFn
  refine orphanLoop_C6Inv _ _ _ _ ?_ h1
  intro g hg v hv
  have h2 := groupByCreatorAux_sub _ _ g hg v hv
  exact startupUnanalyzed_mem h2

theorem C6Inv_step (s : SysState) (op : Op) (hok : stepOkB s op = true) (h : C6Inv s) :
    C6Inv (applyOp s op).1 := by
  cases op with
  | start yid =>
    have hguard : ∀ j ∈ s.queue, j.data.creator ≠ yid := by
      intro j hj
      have h2 := List.all_eq_true.mp hok j hj
      simpa using h2
    exact C6Inv_start s yid hguard h
  | runSync jobId res err => exact C6Inv_runSync s jobId res err h
  | runFetch jobId res err => exact C6Inv_runFetch s jobId res err h
  | runAnalyze jobId fr ex cr => exact C6Inv_runAnalyze s jobId fr ex cr h
  | runComplete jobId err => exact C6Inv_runComplete s jobId err h
  | forceStart yid => simp [stepOkB] at hok
  | sweep => exact sweep_C6Inv s h

theorem C6Inv_runOps :
    ∀ (ops : List Op) (s : SysState), C6Inv s → okRunB s ops = true →
      C6Inv (runOps s ops).1 := by
  intro ops
  induction ops with
  | nil => intro s h _; exact h
  | cons op ops ih =>
    intro s h hok
    rw [okRunB, Bool.and_eq_true] at hok
    exact ih (applyOp s op).1 (C6Inv_step s op hok.1 h) hok.2

theorem C6Inv_init (db : DB) (h : DBWf db) : C6Inv (initState db) := by
  obtain ⟨h1, h2⟩ := h
  refine ⟨⟨?_, ?_⟩, ⟨?_, ?_, ?_, ?_, h1, h2⟩, ?_⟩
  · intro j hj
    exact absurd hj (List.not_mem_nil j)
  · exact List.nodup_nil
  · intro j hj
    exact absurd hj (List.not_mem_nil j)
  · intro j hj
    exact absurd hj (List.not_mem_nil j)
  · intro j hj
    exact absurd hj (List.not_mem_nil j)
  · intro c hex
    obtain ⟨k, hk, _⟩ := hex
    exact absurd hk (List.not_mem_nil k)
  · intro j hj
    exact absurd hj (List.not_mem_nil j)

/-- C6 amended: pending fetch-transcript jobs never reference a sentinel-marked
video, provided the administrative force-restart is never invoked and a
creator's pipeline is started only when no job of that creator is pending
(`stepOkB`/`okRunB`): the sync handler enqueues fetch jobs only for pairwise
distinct videos whose transcript is null, a failing fetch writes the sentinel
only to its own job's video — which no other pending fetch job references —
and the startup sweep's stuck-pipeline repair sentinel-marks only creators
with no remaining fetch job.  The claim as stated — over **all** reachable
states — is false: `forceStartAnalysis` sentinel-marks every transcript-less
video of the creator even while fetch-transcript jobs for those videos are
still pending. -/
theorem pendingFetch_sentinel_disjoint (s : SysState) (ops : List Op)
    (hInv : C6Inv s) (hok : okRunB s ops = true) :
    fetchRefersSentinel (runOps s ops).1 = false :=
  fetchRefersSentinel_false_of_C6Inv _ (C6Inv_runOps ops s hInv hok)

/-- One creator with a single transcript-less synced video. -/


theorem pendingFetch_sentinel_disjoint_counterexample :
    ¬ (fetchRefersSentinel (runOps (initState c6db) c6badOps).1 = false) := by
  decide

theorem pendingFetch_sentinel_disjoint_witness :
    fetchRefersSentinel (runOps (initState c6db) c6ops).1 = false :=
  pendingFetch_sentinel_disjoint (initState c6db) c6ops
    (C6Inv_init c6db ⟨by decide, by decide⟩) (by decide)


/-! ## C2: status-phase monotonicity -- chain and store basics -/

theorem statusLe_refl (a : Status) : statusLe a a = true := by
  cases a <;> rfl

theorem chainOk_cons_cons (a b : Status) (l : List Status) :
    chainOk (a :: b :: l) = (statusLe a b && chainOk (b :: l)) := rfl

theorem chainOk_cons_of (a b : Status) (l : List Status) (hab : statusLe a b = true)
    (h : chainOk (b :: l) = true) : chainOk (a :: b :: l) = true := by
  rw [chainOk_cons_cons, hab, h]
  rfl

theorem chainOk_append (a : Status) : ∀ (l1 l2 : List Status),
    chainOk (a :: l1) = true → chainOk (l1.getLastD a :: l2) = true →
    chainOk (a :: (l1 ++ l2)) = true := by
  intro l1
  induction l1 generalizing a with
  | nil => intro l2 _ h2; exact h2
  | cons b l1 ih =>
    intro l2 h1 h2
    rw [chainOk_cons_cons, Bool.and_eq_true] at h1
    rw [List.getLastD_cons] at h2
    rw [List.cons_append]
    exact chainOk_cons_of a b (l1 ++ l2) h1.1 (ih b l2 h1.2 h2)

theorem getLastD_append (l1 l2 : List Status) (a : Status) :
    (l1 ++ l2).getLastD a = l2.getLastD (l1.getLastD a) := by
  induction l1 generalizing a with
  | nil => rfl
  | cons b l1 ih => rw [List.cons_append, List.getLastD_cons, List.getLastD_cons, ih]

theorem statusLogFor_append (l1 l2 : List StatusWrite) (c : String) :
    statusLogFor (l1 ++ l2) c = statusLogFor l1 c ++ statusLogFor l2 c := by
  unfold statusLogFor
  rw [List.filter_append, List.map_append]

theorem statusLogFor_cons_self (r : PipelineStatus) (l : List StatusWrite) (c : String) :
    statusLogFor ((c, r) :: l) c = r.status :: statusLogFor l c := by
  unfold statusLogFor
  rw [List.filter_cons_of_pos (by simp)]
  rfl

theorem statusLogFor_cons_ne (yid : String) (r : PipelineStatus) (l : List StatusWrite)
    (c : String) (h : yid ≠ c) :
    statusLogFor ((yid, r) :: l) c = statusLogFor l c := by
  unfold statusLogFor
  rw [List.filter_cons_of_neg (by simp [h])]

theorem applyUpdate_status_some (e : Option PipelineStatus) (yid : String) (u : StatusUpdate)
    (st : Status) (hu : u.status = some st) : (applyUpdate yid e u).status = st := by
  show u.status.getD (e.getD (defaultStatus yid)).status = st
  rw [hu]
  rfl

theorem applyUpdate_status_none (s : SysState) (yid : String) (u : StatusUpdate)
    (hu : u.status = none) :
    (applyUpdate yid (getStatusEntry s.store yid) u).status = statusOfS s yid := by
  show u.status.getD ((getStatusEntry s.store yid).getD (defaultStatus yid)).status
    = statusOfS s yid
  rw [hu]
  unfold statusOfS
  cases getStatusEntry s.store yid <;> rfl

theorem statusOfS_congr (t t' : SysState) (h : t'.store = t.store) (c : String) :
    statusOfS t' c = statusOfS t c := by
  unfold statusOfS getStatusEntry
  rw [h]

theorem statusOfS_write_none (s : SysState) (yid : String) (u : StatusUpdate)
    (hu : u.status = none) : statusOfS (writeStatus s yid u).1 yid = statusOfS s yid := by
  have h1 : statusOfS (writeStatus s yid u).1 yid
      = (applyUpdate yid (getStatusEntry s.store yid) u).status := by
    show ((getStatusEntry (setStatusEntry s.store yid
        (applyUpdate yid (getStatusEntry s.store yid) u)) yid).map (·.status)).getD .idle
      = (applyUpdate yid (getStatusEntry s.store yid) u).status
    rw [getStatusEntry_set_self]
    rfl
  rw [h1, applyUpdate_status_none s yid u hu]

theorem jobsFor_congr (t t' : SysState) (h : t'.queue = t.queue) (c : String) :
    jobsFor t' c = jobsFor t c := by
  unfold jobsFor
  rw [h]

theorem jobsFor_append (t t' : SysState) (l : List QueuedJob) (c : String)
    (h : t'.queue = t.queue ++ l) :
    jobsFor t' c = jobsFor t c ++ l.filter (fun j => j.data.creator == c) := by
  unfold jobsFor
  rw [h, List.filter_append]

theorem filter_creator_nil (l : List QueuedJob) (yid c : String) (hne : yid ≠ c)
    (hl : ∀ j ∈ l, j.data.creator = yid) :
    l.filter (fun j => j.data.creator == c) = [] := by
  rw [List.filter_eq_nil_iff]
  intro j hj
  rw [hl j hj]
  simp [hne]

theorem filter_creator_all (l : List QueuedJob) (c : String)
    (hl : ∀ j ∈ l, j.data.creator = c) :
    l.filter (fun j => j.data.creator == c) = l := by
  rw [List.filter_eq_self]
  intro j hj
  rw [hl j hj]
  simp

theorem jobsFor_removeJob (s : SysState) (jobId : Nat) (c : String) :
    jobsFor (removeJob s jobId) c = (jobsFor s c).filter (fun j => j.id != jobId) := by
  unfold jobsFor
  rw [removeJob_queue, List.filter_filter, List.filter_filter]
  apply List.filter_congr
  intro j _
  rw [Bool.and_comm]

theorem jobsFor_removeJob_sublist (s : SysState) (jobId : Nat) (c : String) :
    (jobsFor (removeJob s jobId) c).Sublist (jobsFor s c) := by
  rw [jobsFor_removeJob]
  exact List.filter_sublist _

theorem mem_jobsFor_queue (s : SysState) (c : String) (j : QueuedJob)
    (h : j ∈ jobsFor s c) : j ∈ s.queue ∧ j.data.creator = c := by
  unfold jobsFor at h
  have h2 := List.mem_filter.mp h
  refine ⟨h2.1, ?_⟩
  have h3 := h2.2
  rwa [beq_iff_eq] at h3

theorem mem_jobsFor_intro (s : SysState) (c : String) (j : QueuedJob)
    (hj : j ∈ s.queue) (hc : j.data.creator = c) : j ∈ jobsFor s c := by
  unfold jobsFor
  rw [List.mem_filter]
  exact ⟨hj, by rw [hc]; simp⟩

theorem kind_unique (d : JobData) :
    (d.isSync = true → d.isFetch = false ∧ d.isAnalyze = false ∧ d.isComplete = false) ∧
    (d.isFetch = true → d.isSync = false ∧ d.isAnalyze = false ∧ d.isComplete = false) ∧
    (d.isAnalyze = true → d.isSync = false ∧ d.isFetch = false ∧ d.isComplete = false) ∧
    (d.isComplete = true → d.isSync = false ∧ d.isFetch = false ∧ d.isAnalyze = false) := by
  cases d <;> simp [JobData.isSync, JobData.isFetch, JobData.isAnalyze, JobData.isComplete]

theorem two_mem_length {α : Type} {l : List α} {a b : α} (ha : a ∈ l) (hb : b ∈ l)
    (hne : a ≠ b) : 2 ≤ l.length := by
  cases l with
  | nil => exact absurd ha (List.not_mem_nil a)
  | cons x xs =>
    rcases List.mem_cons.mp ha with h | h
    · rcases List.mem_cons.mp hb with h2 | h2
      · exact absurd (h.trans h2.symm) hne
      · have hp := List.length_pos.mpr (List.ne_nil_of_mem h2)
        simp only [List.length_cons]
        omega
    · have hp := List.length_pos.mpr (List.ne_nil_of_mem h)
      simp only [List.length_cons]
      omega

theorem TypeOk_of_status_eq_jobs (t t' : SysState) (c : String)
    (hst : statusOfS t' c = statusOfS t c)
    (hjq : (jobsFor t' c).Sublist (jobsFor t c))
    (h : TypeOk t c) : TypeOk t' c := by
  unfold TypeOk at h ⊢
  rw [hst]
  cases hcase : statusOfS t c <;> rw [hcase] at h
  · rw [h] at hjq
    exact List.sublist_nil.mp hjq
  · exact ⟨fun j hj => h.1 j (hjq.subset hj), le_trans hjq.length_le h.2⟩
  · exact fun j hj => h j (hjq.subset hj)
  · exact ⟨fun j hj => h.1 j (hjq.subset hj),
      le_trans (List.Sublist.length_le (hjq.filter _)) h.2⟩
  · exact fun j hj => h j (hjq.subset hj)
  · exact fun j hj => h j (hjq.subset hj)

theorem C2Post_id (s : SysState) (c : String) (hty : TypeOk s c) : C2Post s s [] c :=
  ⟨hty, rfl, rfl⟩

theorem C2Post_untouched (s t : SysState) (log : List StatusWrite) (c : String)
    (hty : TypeOk s c)
    (hst : statusOfS t c = statusOfS s c)
    (hjq : (jobsFor t c).Sublist (jobsFor s c))
    (hlog : statusLogFor log c = []) : C2Post s t log c := by
  refine ⟨TypeOk_of_status_eq_jobs s t c hst hjq hty, ?_, ?_⟩
  · simp only [hlog]
    exact rfl
  · simp only [hlog]
    exact hst

theorem status_of_sync_job (s : SysState) (j : QueuedJob) (c : String)
    (hj : j ∈ s.queue) (hjc : j.data.creator = c) (hjs : j.data.isSync = true)
    (h : TypeOk s c) : statusOfS s c = .syncing ∧ jobsFor s c = [j] := by
  have hm : j ∈ jobsFor s c := mem_jobsFor_intro s c j hj hjc
  unfold TypeOk at h
  cases hcase : statusOfS s c <;> rw [hcase] at h
  · rw [h] at hm
    exact absurd hm (List.not_mem_nil j)
  · refine ⟨rfl, ?_⟩
    cases hl : jobsFor s c with
    | nil => rw [hl] at hm; exact absurd hm (List.not_mem_nil j)
    | cons x xs =>
      cases xs with
      | nil =>
        rw [hl] at hm
        rw [List.mem_singleton.mp hm]
      | cons y ys =>
        rw [hl] at h
        have h2 := h.2
        simp only [List.length_cons] at h2
        omega
  · have hne := ((kind_unique j.data).2.1 (h j hm)).1
    rw [hne] at hjs
    exact absurd hjs (by decide)
  · rcases h.1 j hm with ha | hco
    · have hne := ((kind_unique j.data).2.2.1 ha).1
      rw [hne] at hjs
      exact absurd hjs (by decide)
    · have hne := ((kind_unique j.data).2.2.2 hco).1
      rw [hne] at hjs
      exact absurd hjs (by decide)
  · have hne := ((kind_unique j.data).2.2.1 (h j hm)).1
    rw [hne] at hjs
    exact absurd hjs (by decide)
  · have hne := ((kind_unique j.data).2.2.1 (h j hm)).1
    rw [hne] at hjs
    exact absurd hjs (by decide)

theorem status_of_fetch_job (s : SysState) (j : QueuedJob) (c : String)
    (hj : j ∈ s.queue) (hjc : j.data.creator = c) (hjf : j.data.isFetch = true)
    (h : TypeOk s c) :
    statusOfS s c = .fetchingTranscripts ∧ ∀ k ∈ jobsFor s c, k.data.isFetch = true := by
  have hm : j ∈ jobsFor s c := mem_jobsFor_intro s c j hj hjc
  unfold TypeOk at h
  cases hcase : statusOfS s c <;> rw [hcase] at h
  · rw [h] at hm
    exact absurd hm (List.not_mem_nil j)
  · have hne := ((kind_unique j.data).1 (h.1 j hm)).1
    rw [hne] at hjf
    exact absurd hjf (by decide)
  · exact ⟨rfl, h⟩
  · rcases h.1 j hm with ha | hco
    · have hne := ((kind_unique j.data).2.2.1 ha).2.1
      rw [hne] at hjf
      exact absurd hjf (by decide)
    · have hne := ((kind_unique j.data).2.2.2 hco).2.1
      rw [hne] at hjf
      exact absurd hjf (by decide)
  · have hne := ((kind_unique j.data).2.2.1 (h j hm)).2.1
    rw [hne] at hjf
    exact absurd hjf (by decide)
  · have hne := ((kind_unique j.data).2.2.1 (h j hm)).2.1
    rw [hne] at hjf
    exact absurd hjf (by decide)

theorem status_of_complete_job (s : SysState) (j : QueuedJob) (c : String)
    (hj : j ∈ s.queue) (hjc : j.data.creator = c) (hjco : j.data.isComplete = true)
    (h : TypeOk s c) :
    statusOfS s c = .analyzing ∧
      (∀ k ∈ jobsFor s c, k.data.isAnalyze = true ∨ k.data.isComplete = true) ∧
      ((jobsFor s c).filter (fun k => k.data.isComplete)).length ≤ 1 := by
  have hm : j ∈ jobsFor s c := mem_jobsFor_intro s c j hj hjc
  unfold TypeOk at h
  cases hcase : statusOfS s c <;> rw [hcase] at h
  · rw [h] at hm
    exact absurd hm (List.not_mem_nil j)
  · have hne := ((kind_unique j.data).1 (h.1 j hm)).2.2
    rw [hne] at hjco
    exact absurd hjco (by decide)
  · have hne := ((kind_unique j.data).2.1 (h j hm)).2.2
    rw [hne] at hjco
    exact absurd hjco (by decide)
  · exact ⟨rfl, h.1, h.2⟩
  · have hne := ((kind_unique j.data).2.2.1 (h j hm)).2.2
    rw [hne] at hjco
    exact absurd hjco (by decide)
  · have hne := ((kind_unique j.data).2.2.1 (h j hm)).2.2
    rw [hne] at hjco
    exact absurd hjco (by decide)

theorem removeJob_store (s : SysState) (jobId : Nat) :
    (removeJob s jobId).store = s.store := rfl

theorem addJobS_store (s : SysState) (d : JobData) (n : Nat) :
    (addJobS s d n).store = s.store := rfl

theorem requeueFailed_store (s : SysState) (j : QueuedJob) :
    (requeueFailed s j).store = s.store := by
  unfold requeueFailed
  split <;> rfl

theorem writeStatus_queue (s : SysState) (yid : String) (u : StatusUpdate) :
    (writeStatus s yid u).1.queue = s.queue := rfl

theorem jobsFor_requeueFailed_self (s : SysState) (j : QueuedJob) (c : String)
    (hc : j.data.creator = c) :
    jobsFor (requeueFailed s j) c = jobsFor s c ∨
      jobsFor (requeueFailed s j) c = jobsFor s c ++ [retriedJob j] := by
  unfold requeueFailed
  split
  · right
    rw [jobsFor_append s _ [retriedJob j] c rfl, filter_creator_all]
    intro k hk
    rw [List.mem_singleton.mp hk]
    exact hc
  · left
    exact jobsFor_congr s _ rfl c

theorem jobsFor_requeueFailed_ne (s : SysState) (j : QueuedJob) (c : String)
    (hc : j.data.creator ≠ c) :
    jobsFor (requeueFailed s j) c = jobsFor s c := by
  unfold requeueFailed
  split
  · have hfil : List.filter (fun k => k.data.creator == c) [retriedJob j] = [] := by
      apply filter_creator_nil _ j.data.creator c hc
      intro k hk
      rw [List.mem_singleton.mp hk]
      rfl
    rw [jobsFor_append s _ [retriedJob j] c rfl, hfil, List.append_nil]
  · exact jobsFor_congr s _ rfl c

/-! ## C2: composition machinery for per-operation status facts -/

theorem sublist_of_eq {α : Type} {l1 l2 : List α} (h : l1 = l2) : l1.Sublist l2 := by
  rw [h]

theorem C2Post_compose (s m t : SysState) (w log : List StatusWrite) (c : String)
    (h1 : C2Post s m w c) (h2 : C2Post m t log c) :
    C2Post s t (w ++ log) c := by
  obtain ⟨hty1, hch1, hlast1⟩ := h1
  obtain ⟨hty2, hch2, hlast2⟩ := h2
  refine ⟨hty2, ?_, ?_⟩
  · rw [statusLogFor_append]
    apply chainOk_append _ _ _ hch1
    rw [← hlast1]
    exact hch2
  · rw [statusLogFor_append, getLastD_append, ← hlast1]
    exact hlast2

theorem C2Post_silent (t t' : SysState) (c : String) (hstore : t'.store = t.store)
    (hty : TypeOk t' c) : C2Post t t' [] c :=
  ⟨hty, rfl, statusOfS_congr t t' hstore c⟩

theorem statusLogFor_write_some (t : SysState) (yid : String) (u : StatusUpdate) (st : Status)
    (l : List StatusWrite) (hu : u.status = some st) :
    statusLogFor ((writeStatus t yid u).2 :: l) yid = st :: statusLogFor l yid := by
  show statusLogFor ((yid, applyUpdate yid (getStatusEntry t.store yid) u) :: l) yid = _
  rw [statusLogFor_cons_self, applyUpdate_status_some (getStatusEntry t.store yid) yid u st hu]

theorem statusLogFor_write_none (t : SysState) (yid : String) (u : StatusUpdate)
    (l : List StatusWrite) (hu : u.status = none) :
    statusLogFor ((writeStatus t yid u).2 :: l) yid = statusOfS t yid :: statusLogFor l yid := by
  show statusLogFor ((yid, applyUpdate yid (getStatusEntry t.store yid) u) :: l) yid = _
  rw [statusLogFor_cons_self, applyUpdate_status_none t yid u hu]

theorem statusLogFor_write_ne (t : SysState) (yid : String) (u : StatusUpdate)
    (l : List StatusWrite) (c : String) (hne : yid ≠ c) :
    statusLogFor ((writeStatus t yid u).2 :: l) c = statusLogFor l c := by
  show statusLogFor ((yid, applyUpdate yid (getStatusEntry t.store yid) u) :: l) c = _
  exact statusLogFor_cons_ne yid _ l c hne

theorem C2Post_write_some (t : SysState) (yid : String) (u : StatusUpdate) (st : Status)
    (hu : u.status = some st)
    (hle : statusLe (statusOfS t yid) st = true)
    (hty : TypeOk (writeStatus t yid u).1 yid) :
    C2Post t (writeStatus t yid u).1 [(writeStatus t yid u).2] yid := by
  have hlog : statusLogFor [(writeStatus t yid u).2] yid = [st] :=
    statusLogFor_write_some t yid u st [] hu
  refine ⟨hty, ?_, ?_⟩
  · rw [hlog]
    exact chainOk_cons_of _ _ _ hle rfl
  · rw [hlog]
    exact statusOfS_write t yid u st hu

theorem C2Post_write_none (t : SysState) (yid : String) (u : StatusUpdate)
    (hu : u.status = none) (hty : TypeOk t yid) :
    C2Post t (writeStatus t yid u).1 [(writeStatus t yid u).2] yid := by
  have hst : statusOfS (writeStatus t yid u).1 yid = statusOfS t yid :=
    statusOfS_write_none t yid u hu
  have hlog : statusLogFor [(writeStatus t yid u).2] yid = [statusOfS t yid] :=
    statusLogFor_write_none t yid u [] hu
  refine ⟨?_, ?_, ?_⟩
  · exact TypeOk_of_status_eq_jobs t _ yid hst
      (sublist_of_eq (jobsFor_congr t _ rfl yid)) hty
  · rw [hlog]
    exact chainOk_cons_of _ _ _ (statusLe_refl _) rfl
  · rw [hlog]
    exact hst

theorem staggered_creator_fetch (yid : String) (spacing : Nat) :
    ∀ (vids : List Video) (offset baseId : Nat),
      ∀ j ∈ staggeredJobsFrom (fun v => JobData.fetchTranscript v.id yid)
          spacing offset baseId vids,
        j.data.creator = yid ∧ j.data.isFetch = true := by
  intro vids
  induction vids with
  | nil => intro offset baseId j hj; simp [staggeredJobsFrom] at hj
  | cons v vs ih =>
    intro offset baseId j hj
    simp only [staggeredJobsFrom, List.mem_cons] at hj
    rcases hj with h | h
    · subst h; exact ⟨rfl, rfl⟩
    · exact ih _ _ j h

theorem fetchEnqueue_queue (t1 : SysState) (yid : String) (vids : List Video) :
    (enqueueJobsFrom t1 (staggered (fun v => JobData.fetchTranscript v.id yid)
        PIPELINE_delayBetweenTranscripts 0 vids)).queue
      = t1.queue ++ staggeredJobsFrom (fun v => JobData.fetchTranscript v.id yid)
          PIPELINE_delayBetweenTranscripts 0 t1.nextJobId vids := by
  rw [enqueueStaggered_spec]

theorem analysisEnqueue_queue (t1 : SysState) (yid : String) (vids : List Video) :
    (addJobS (enqueueJobsFrom t1
        (staggered (fun v => JobData.analyzeVideo v.id yid) PIPELINE_delayBetweenAnalysis 0 vids))
      (JobData.completePipeline yid) (vids.length * PIPELINE_delayBetweenAnalysis + 5000)).queue
    = t1.queue ++ (staggeredJobsFrom (fun v => JobData.analyzeVideo v.id yid)
          PIPELINE_delayBetweenAnalysis 0 t1.nextJobId vids
        ++ [{ id := t1.nextJobId + vids.length, data := JobData.completePipeline yid,
              delay := vids.length * PIPELINE_delayBetweenAnalysis + 5000,
              attemptsMade := 0 }]) := by
  rw [enqueueStaggered_spec]
  unfold addJobS
  simp only []
  rw [List.append_assoc]

theorem analysisEnqueue_store (t1 : SysState) (yid : String) (vids : List Video) :
    (addJobS (enqueueJobsFrom t1
        (staggered (fun v => JobData.analyzeVideo v.id yid) PIPELINE_delayBetweenAnalysis 0 vids))
      (JobData.completePipeline yid) (vids.length * PIPELINE_delayBetweenAnalysis + 5000)).store
    = t1.store := by
  rw [addJobS_store]
  exact enqueueJobsFrom_store _ t1

theorem jobsFor_append_other (t t' : SysState) (l : List QueuedJob) (c yid : String)
    (hq : t'.queue = t.queue ++ l) (hne : yid ≠ c) (hl : ∀ j ∈ l, j.data.creator = yid) :
    jobsFor t' c = jobsFor t c := by
  rw [jobsFor_append t t' l c hq, filter_creator_nil l yid c hne hl, List.append_nil]

theorem TypeOk_fetchEnqueue (t1 t2 : SysState) (yid : String) (vids : List Video)
    (hq : t2.queue = t1.queue ++ staggeredJobsFrom (fun v => JobData.fetchTranscript v.id yid)
      PIPELINE_delayBetweenTranscripts 0 t1.nextJobId vids)
    (hstore : t2.store = t1.store)
    (hst : statusOfS t1 yid = Status.fetchingTranscripts)
    (hempty : jobsFor t1 yid = []) : TypeOk t2 yid := by
  have hst2 : statusOfS t2 yid = Status.fetchingTranscripts :=
    (statusOfS_congr t1 t2 hstore yid).trans hst
  have hf : (staggeredJobsFrom (fun v => JobData.fetchTranscript v.id yid)
      PIPELINE_delayBetweenTranscripts 0 t1.nextJobId vids).filter
        (fun j => j.data.creator == yid)
      = staggeredJobsFrom (fun v => JobData.fetchTranscript v.id yid)
          PIPELINE_delayBetweenTranscripts 0 t1.nextJobId vids :=
    filter_creator_all _ yid (fun k hk =>
      (staggered_creator_fetch yid PIPELINE_delayBetweenTranscripts vids 0 t1.nextJobId k hk).1)
  have hjf : jobsFor t2 yid = staggeredJobsFrom (fun v => JobData.fetchTranscript v.id yid)
      PIPELINE_delayBetweenTranscripts 0 t1.nextJobId vids := by
    rw [jobsFor_append t1 t2 _ yid hq, hempty, List.nil_append, hf]
  unfold TypeOk
  rw [hst2, hjf]
  intro j hj
  exact (staggered_creator_fetch yid PIPELINE_delayBetweenTranscripts vids 0 t1.nextJobId j hj).2

theorem TypeOk_analysisEnqueue (t1 t2 : SysState) (yid : String) (vids : List Video)
    (hq : t2.queue = t1.queue
      ++ (staggeredJobsFrom (fun v => JobData.analyzeVideo v.id yid)
            PIPELINE_delayBetweenAnalysis 0 t1.nextJobId vids
          ++ [{ id := t1.nextJobId + vids.length, data := JobData.completePipeline yid,
                delay := vids.length * PIPELINE_delayBetweenAnalysis + 5000,
                attemptsMade := 0 }]))
    (hstore : t2.store = t1.store)
    (hst : statusOfS t1 yid = Status.analyzing)
    (hempty : jobsFor t1 yid = []) : TypeOk t2 yid := by
  have hst2 : statusOfS t2 yid = Status.analyzing :=
    (statusOfS_congr t1 t2 hstore yid).trans hst
  have hall : ∀ k ∈ staggeredJobsFrom (fun v => JobData.analyzeVideo v.id yid)
      PIPELINE_delayBetweenAnalysis 0 t1.nextJobId vids
      ++ [{ id := t1.nextJobId + vids.length, data := JobData.completePipeline yid,
            delay := vids.length * PIPELINE_delayBetweenAnalysis + 5000,
            attemptsMade := 0 }],
      k.data.creator = yid := by
    intro k hk
    rcases List.mem_append.mp hk with h | h
    · exact (staggered_creator_analyze yid PIPELINE_delayBetweenAnalysis vids 0 t1.nextJobId k h).1
    · rw [List.mem_singleton.mp h]
      rfl
  have hjf : jobsFor t2 yid
      = staggeredJobsFrom (fun v => JobData.analyzeVideo v.id yid)
          PIPELINE_delayBetweenAnalysis 0 t1.nextJobId vids
        ++ [{ id := t1.nextJobId + vids.length, data := JobData.completePipeline yid,
              delay := vids.length * PIPELINE_delayBetweenAnalysis + 5000,
              attemptsMade := 0 }] := by
    rw [jobsFor_append t1 t2 _ yid hq, hempty, List.nil_append, filter_creator_all _ yid hall]
  unfold TypeOk
  rw [hst2, hjf]
  constructor
  · intro j hj
    rcases List.mem_append.mp hj with h | h
    · exact Or.inl
        (staggered_creator_analyze yid PIPELINE_delayBetweenAnalysis vids 0 t1.nextJobId j h).2
    · right
      rw [List.mem_singleton.mp h]
      rfl
  · rw [List.filter_append,
      filter_complete_staggered_nil yid PIPELINE_delayBetweenAnalysis vids 0 t1.nextJobId,
      List.nil_append]
    simp [JobData.isComplete]

/-! ## C2: the analysis-phase enqueue and pipeline completion -/

theorem completePipelineFn_frame (t : SysState) (yid : String) (err : Option String)
    (c : String) (hne : yid ≠ c) :
    statusOfS (completePipelineFn t yid err).1 c = statusOfS t c ∧
    jobsFor (completePipelineFn t yid err).1 c = jobsFor t c ∧
    statusLogFor (completePipelineFn t yid err).2 c = [] := by
  cases err with
  | some msg =>
    exact ⟨statusOfS_write_ne _ yid _ c hne, jobsFor_congr _ _ rfl c,
      statusLogFor_write_ne _ yid _ [] c hne⟩
  | none =>
    exact ⟨(statusOfS_write_ne _ yid _ c hne).trans (statusOfS_congr t _ rfl c),
      jobsFor_congr _ _ rfl c,
      statusLogFor_write_ne _ yid _ [] c hne⟩

theorem completePipelineFn_C2 (t : SysState) (yid : String) (err : Option String)
    (hst : statusOfS t yid = Status.analyzing)
    (hall : ∀ j ∈ jobsFor t yid, j.data.isAnalyze = true) :
    C2Post t (completePipelineFn t yid err).1 (completePipelineFn t yid err).2 yid := by
  cases err with
  | some msg =>
    have hsf : statusOfS (completePipelineFn t yid (some msg)).1 yid = Status.failed :=
      statusOfS_write _ yid _ Status.failed rfl
    have hjf : jobsFor (completePipelineFn t yid (some msg)).1 yid = jobsFor t yid :=
      jobsFor_congr t _ rfl yid
    have hlog : statusLogFor (completePipelineFn t yid (some msg)).2 yid = [Status.failed] :=
      statusLogFor_write_some _ yid _ Status.failed [] rfl
    refine ⟨?_, ?_, ?_⟩
    · unfold TypeOk
      rw [hsf, hjf]
      exact hall
    · rw [hst, hlog]
      decide
    · rw [hsf, hlog, hst]
      rfl
  | none =>
    have hsf : statusOfS (completePipelineFn t yid none).1 yid = Status.completed :=
      statusOfS_write _ yid _ Status.completed rfl
    have hjf : jobsFor (completePipelineFn t yid none).1 yid = jobsFor t yid :=
      jobsFor_congr t _ rfl yid
    have hlog : statusLogFor (completePipelineFn t yid none).2 yid = [Status.completed] :=
      statusLogFor_write_some _ yid _ Status.completed [] rfl
    refine ⟨?_, ?_, ?_⟩
    · unfold TypeOk
      rw [hsf, hjf]
      exact hall
    · rw [hst, hlog]
      decide
    · rw [hsf, hlog, hst]
      rfl

theorem queueAnalysisJobs_frame (t : SysState) (yid : String) (err : Option String)
    (c : String) (hne : yid ≠ c) :
    statusOfS (queueAnalysisJobs t yid err).1 c = statusOfS t c ∧
    jobsFor (queueAnalysisJobs t yid err).1 c = jobsFor t c ∧
    statusLogFor (queueAnalysisJobs t yid err).2 c = [] := by
  refine ⟨?_, ?_, ?_⟩
  · unfold queueAnalysisJobs
    simp only [writeStatus]
    split
    · exact ((completePipelineFn_frame _ yid err c hne).1).trans
        (statusOfS_write_ne t yid _ c hne)
    · exact (statusOfS_congr _ _ (by
        rw [addJobS_store]
        exact enqueueJobsFrom_store _ _) c).trans (statusOfS_write_ne t yid _ c hne)
  · unfold queueAnalysisJobs
    simp only [writeStatus]
    split
    · exact ((completePipelineFn_frame _ yid err c hne).2.1).trans
        (jobsFor_congr t _ rfl c)
    · exact (jobsFor_append_other _ _ _ c yid (analysisEnqueue_queue _ yid _) hne (by
        intro j hj
        rcases List.mem_append.mp hj with h | h
        · exact (staggered_creator_analyze yid PIPELINE_delayBetweenAnalysis _ 0 _ j h).1
        · rw [List.mem_singleton.mp h]
          rfl)).trans (jobsFor_congr t _ rfl c)
  · unfold queueAnalysisJobs
    simp only [writeStatus]
    split
    · exact (statusLogFor_cons_ne yid _ _ c hne).trans
        ((completePipelineFn_frame _ yid err c hne).2.2)
    · exact statusLogFor_write_ne t yid _ [] c hne

theorem queueAnalysisJobs_C2 (t : SysState) (yid : String) (err : Option String)
    (hempty : jobsFor t yid = [])
    (hle : statusLe (statusOfS t yid) Status.analyzing = true) :
    C2Post t (queueAnalysisJobs t yid err).1 (queueAnalysisJobs t yid err).2 yid := by
  have hw1st : statusOfS (writeStatus t yid
      { status := some Status.analyzing, currentStep := some "Starting video analysis..." }).1 yid
      = Status.analyzing := statusOfS_write t yid _ Status.analyzing rfl
  have hw1jf : jobsFor (writeStatus t yid
      { status := some Status.analyzing, currentStep := some "Starting video analysis..." }).1 yid
      = [] := (jobsFor_congr t _ rfl yid).trans hempty
  have hw1ty : TypeOk (writeStatus t yid
      { status := some Status.analyzing, currentStep := some "Starting video analysis..." }).1
      yid := by
    unfold TypeOk
    rw [hw1st, hw1jf]
    exact ⟨fun j hj => absurd hj (List.not_mem_nil j), by simp⟩
  have hpw1 : C2Post t (writeStatus t yid
      { status := some Status.analyzing, currentStep := some "Starting video analysis..." }).1
      [(writeStatus t yid
        { status := some Status.analyzing, currentStep := some "Starting video analysis..." }).2]
      yid := C2Post_write_some t yid _ Status.analyzing rfl hle hw1ty
  unfold queueAnalysisJobs
  simp only [writeStatus]
  split
  · refine C2Post_compose t _ _ _ _ yid hpw1 ?_
    apply completePipelineFn_C2
    · exact hw1st
    · intro j hj
      have hje : ∀ k, k ∈ jobsFor (writeStatus t yid
          { status := some Status.analyzing,
            currentStep := some "Starting video analysis..." }).1 yid
          → k.data.isAnalyze = true := by
        intro k hk
        rw [hw1jf] at hk
        exact absurd hk (List.not_mem_nil k)
      exact hje j hj
  · refine C2Post_compose t _ _ _ [] yid hpw1 ?_
    apply C2Post_silent
    · rw [addJobS_store]
      exact enqueueJobsFrom_store _ _
    · apply TypeOk_analysisEnqueue
      · exact analysisEnqueue_queue _ yid _
      · exact analysisEnqueue_store _ yid _
      · exact hw1st
      · exact hw1jf

/-! ## C2: the sync-videos delivery -/

theorem C2Post_db (t : SysState) (db1 : DB) (c : String) (hty : TypeOk t c) :
    C2Post t { t with db := db1 } [] c :=
  C2Post_silent t _ c rfl (TypeOk_of_status_eq_jobs t _ c (statusOfS_congr t _ rfl c)
    (sublist_of_eq (jobsFor_congr t _ rfl c)) hty)

theorem processSyncVideos_frame (t : SysState) (yid : String) (mb : Nat)
    (metas : List VideoMeta) (err : Option String) (c : String) (hne : yid ≠ c) :
    statusOfS (processSyncVideos t yid mb (.ok metas) err).state c = statusOfS t c ∧
    jobsFor (processSyncVideos t yid mb (.ok metas) err).state c = jobsFor t c ∧
    statusLogFor (processSyncVideos t yid mb (.ok metas) err).log c = [] := by
  refine ⟨?_, ?_, ?_⟩
  · unfold processSyncVideos
    simp only [writeStatus]
    split
    · exact ((queueAnalysisJobs_frame _ yid err c hne).1).trans
        ((statusOfS_write_ne _ yid _ c hne).trans
          ((statusOfS_congr _ _ rfl c).trans (statusOfS_write_ne t yid _ c hne)))
    · exact (statusOfS_congr _ _ (enqueueJobsFrom_store _ _) c).trans
        ((statusOfS_write_ne _ yid _ c hne).trans
          ((statusOfS_congr _ _ rfl c).trans (statusOfS_write_ne t yid _ c hne)))
  · unfold processSyncVideos
    simp only [writeStatus]
    split
    · exact ((queueAnalysisJobs_frame _ yid err c hne).2.1).trans (jobsFor_congr t _ rfl c)
    · exact (jobsFor_append_other _ _ _ c yid (fetchEnqueue_queue _ yid _) hne (fun j hj =>
        (staggered_creator_fetch yid PIPELINE_delayBetweenTranscripts _ 0 _ j hj).1)).trans
        (jobsFor_congr t _ rfl c)
  · unfold processSyncVideos
    simp only [writeStatus]
    split
    · exact (statusLogFor_cons_ne yid _ _ c hne).trans
        ((statusLogFor_cons_ne yid _ _ c hne).trans
          ((queueAnalysisJobs_frame _ yid err c hne).2.2))
    · exact (statusLogFor_cons_ne yid _ _ c hne).trans
        (statusLogFor_cons_ne yid _ _ c hne)

set_option maxHeartbeats 1600000 in
theorem processSync_C2_main (t : SysState) (yid : String) (mb : Nat)
    (metas : List VideoMeta) (err : Option String)
    (hst : statusOfS t yid = Status.syncing)
    (hempty : jobsFor t yid = []) :
    C2Post t (processSyncVideos t yid mb (.ok metas) err).state
      (processSyncVideos t yid mb (.ok metas) err).log yid := by
  have hty0 : TypeOk t yid := by
    unfold TypeOk
    rw [hst, hempty]
    exact ⟨fun j hj => absurd hj (List.not_mem_nil j), by simp⟩
  have main : ∀ s0 : SysState × StatusWrite, s0 = writeStatus t yid
      { currentStep := some ("Syncing videos from last " ++ timePeriodText mb ++ "...") } →
      ∀ s1 : SysState, s1 = { s0.1 with db := upsertVideos s0.1.db yid metas } →
      ∀ s2 : SysState × StatusWrite, s2 = writeStatus s1 yid
        { status := some Status.fetchingTranscripts,
          totalVideos := some (min metas.length PIPELINE_maxVideosToProcess),
          currentStep := some ("Found " ++ toString metas.length
            ++ " videos. Fetching transcripts...") } →
      C2Post t
        (if (transcriptNeededSelection s2.1.db yid).isEmpty = true
         then (⟨(queueAnalysisJobs s2.1 yid err).1,
               s0.2 :: s2.2 :: (queueAnalysisJobs s2.1 yid err).2, false⟩ : SyncOut)
         else ⟨enqueueJobsFrom s2.1 (staggered (fun v => JobData.fetchTranscript v.id yid)
                 PIPELINE_delayBetweenTranscripts 0 (transcriptNeededSelection s2.1.db yid)),
               [s0.2, s2.2], false⟩).state
        (if (transcriptNeededSelection s2.1.db yid).isEmpty = true
         then (⟨(queueAnalysisJobs s2.1 yid err).1,
               s0.2 :: s2.2 :: (queueAnalysisJobs s2.1 yid err).2, false⟩ : SyncOut)
         else ⟨enqueueJobsFrom s2.1 (staggered (fun v => JobData.fetchTranscript v.id yid)
                 PIPELINE_delayBetweenTranscripts 0 (transcriptNeededSelection s2.1.db yid)),
               [s0.2, s2.2], false⟩).log yid := by
    intro s0 hs0 s1 hs1 s2 hs2
    have hp0 : C2Post t s0.1 [s0.2] yid := by
      rw [hs0]
      exact C2Post_write_none t yid _ rfl hty0
    have hst0 : statusOfS s0.1 yid = Status.syncing := by
      rw [hs0]
      exact (statusOfS_write_none t yid _ rfl).trans hst
    have hjf0 : jobsFor s0.1 yid = [] := by
      rw [hs0]
      exact (jobsFor_congr t _ rfl yid).trans hempty
    have hp1 : C2Post s0.1 s1 [] yid := by
      rw [hs1]
      exact C2Post_db s0.1 _ yid hp0.1
    have hst1 : statusOfS s1 yid = Status.syncing := by
      rw [hs1]
      exact (statusOfS_congr s0.1 _ rfl yid).trans hst0
    have hjf1 : jobsFor s1 yid = [] := by
      rw [hs1]
      exact (jobsFor_congr s0.1 _ rfl yid).trans hjf0
    have hp2 : C2Post s1 s2.1 [s2.2] yid := by
      rw [hs2]
      refine C2Post_write_some s1 yid _ Status.fetchingTranscripts rfl ?_ ?_
      · simp only [hst1]
        decide
      · unfold TypeOk
        rw [statusOfS_write s1 yid _ Status.fetchingTranscripts rfl]
        intro j hj
        rw [(jobsFor_congr s1 (writeStatus s1 yid
            { status := some Status.fetchingTranscripts,
              totalVideos := some (min metas.length PIPELINE_maxVideosToProcess),
              currentStep := some ("Found " ++ toString metas.length
                ++ " videos. Fetching transcripts...") }).1 rfl yid).trans hjf1] at hj
        exact absurd hj (List.not_mem_nil j)
    have hst2 : statusOfS s2.1 yid = Status.fetchingTranscripts := by
      rw [hs2]
      exact statusOfS_write s1 yid _ Status.fetchingTranscripts rfl
    have hjf2 : jobsFor s2.1 yid = [] := by
      rw [hs2]
      exact (jobsFor_congr s1 _ rfl yid).trans hjf1
    split
    · exact C2Post_compose t s0.1 _ [s0.2] _ yid hp0
        (C2Post_compose s0.1 s1 _ [] _ yid hp1
          (C2Post_compose s1 s2.1 _ [s2.2] _ yid hp2
            (queueAnalysisJobs_C2 s2.1 yid err hjf2 (by
              simp only [hst2]
              decide))))
    · exact C2Post_compose t s0.1 _ [s0.2] _ yid hp0
        (C2Post_compose s0.1 s1 _ [] _ yid hp1
          (C2Post_compose s1 s2.1 _ [s2.2] [] yid hp2
            (C2Post_silent s2.1 _ yid (enqueueJobsFrom_store _ s2.1)
              (TypeOk_fetchEnqueue s2.1 _ yid (transcriptNeededSelection s2.1.db yid)
                (fetchEnqueue_queue s2.1 yid _) (enqueueJobsFrom_store _ s2.1) hst2 hjf2))))
  exact main _ rfl _ rfl _ rfl

theorem C2_runSync (s : SysState) (jobId : Nat) (metas : List VideoMeta)
    (err : Option String) (c : String) (hty : TypeOk s c) :
    C2Post s (applyOp s (Op.runSync jobId (Except.ok metas) err)).1
      (applyOp s (Op.runSync jobId (Except.ok metas) err)).2 c := by
  unfold applyOp
  simp only []
  cases hf : findJob s jobId with
  | none => exact C2Post_id s c hty
  | some j =>
    simp only []
    obtain ⟨hjmem, hjid⟩ := findJob_mem s jobId j hf
    cases hjd : j.data with
    | fetchTranscript a b => exact C2Post_id s c hty
    | analyzeVideo a b => exact C2Post_id s c hty
    | completePipeline a => exact C2Post_id s c hty
    | syncVideos yid ch mb =>
      show C2Post s
        (if (processSyncVideos (removeJob s jobId) yid mb (.ok metas) err).threw = true
         then requeueFailed (processSyncVideos (removeJob s jobId) yid mb (.ok metas) err).state j
         else (processSyncVideos (removeJob s jobId) yid mb (.ok metas) err).state)
        (processSyncVideos (removeJob s jobId) yid mb (.ok metas) err).log c
      rw [processSyncVideos_ok_threw, if_neg (by simp)]
      by_cases hc : yid = c
      · subst hc
        have hjs : j.data.isSync = true := by rw [hjd]; rfl
        have hjc : j.data.creator = yid := by rw [hjd]; rfl
        obtain ⟨hsst, hsingle⟩ := status_of_sync_job s j yid hjmem hjc hjs hty
        have hstrm : statusOfS (removeJob s jobId) yid = Status.syncing := hsst
        have hemptyrm : jobsFor (removeJob s jobId) yid = [] := by
          rw [jobsFor_removeJob, hsingle]
          simp [hjid]
        exact processSync_C2_main (removeJob s jobId) yid mb metas err hstrm hemptyrm
      · obtain ⟨hfst, hfjf, hflog⟩ :=
          processSyncVideos_frame (removeJob s jobId) yid mb metas err c hc
        apply C2Post_untouched s _ _ c hty
        · exact hfst.trans (statusOfS_congr s _ rfl c)
        · exact (sublist_of_eq hfjf).trans (jobsFor_removeJob_sublist s jobId c)
        · exact hflog

/-! ## C2: the fetch-transcript delivery -/

set_option maxHeartbeats 1600000 in
theorem processFetchTranscript_frame (t : SysState) (jobId vid : Nat) (yid : String)
    (res : Option (List TranscriptSegment)) (err : Option String) (c : String) (hne : yid ≠ c) :
    statusOfS (processFetchTranscript t jobId vid yid res err).state c = statusOfS t c ∧
    jobsFor (processFetchTranscript t jobId vid yid res err).state c = jobsFor t c ∧
    statusLogFor (processFetchTranscript t jobId vid yid res err).log c = [] := by
  have main : ∀ (s1 : SysState) (msg : String), s1.store = t.store → s1.queue = t.queue →
      ∀ s2 : SysState × StatusWrite, s2 = writeStatus s1 yid
        { transcriptsFetched := some (countVideosWithTranscript s1.db yid),
          currentStep := some msg } →
      statusOfS (if (s2.1.queue.filter (fun j =>
            j.data.isFetch && j.data.creator == yid && j.id != jobId)).isEmpty = true
          then (⟨(queueAnalysisJobs s2.1 yid err).1,
            s2.2 :: (queueAnalysisJobs s2.1 yid err).2, true, false⟩ : FetchOut)
          else ⟨s2.1, [s2.2], false, false⟩).state c = statusOfS t c ∧
      jobsFor (if (s2.1.queue.filter (fun j =>
            j.data.isFetch && j.data.creator == yid && j.id != jobId)).isEmpty = true
          then (⟨(queueAnalysisJobs s2.1 yid err).1,
            s2.2 :: (queueAnalysisJobs s2.1 yid err).2, true, false⟩ : FetchOut)
          else ⟨s2.1, [s2.2], false, false⟩).state c = jobsFor t c ∧
      statusLogFor (if (s2.1.queue.filter (fun j =>
            j.data.isFetch && j.data.creator == yid && j.id != jobId)).isEmpty = true
          then (⟨(queueAnalysisJobs s2.1 yid err).1,
            s2.2 :: (queueAnalysisJobs s2.1 yid err).2, true, false⟩ : FetchOut)
          else ⟨s2.1, [s2.2], false, false⟩).log c = [] := by
    intro s1 msg hstore hqueue s2 hs2
    have hsst : statusOfS s2.1 c = statusOfS t c := by
      rw [hs2]
      exact (statusOfS_write_ne s1 yid _ c hne).trans (statusOfS_congr t s1 hstore c)
    have hsjf : jobsFor s2.1 c = jobsFor t c := by
      rw [hs2]
      exact (jobsFor_congr s1 _ rfl c).trans (jobsFor_congr t s1 hqueue c)
    have hslog : statusLogFor [s2.2] c = [] := by
      rw [hs2]
      exact statusLogFor_write_ne s1 yid _ [] c hne
    split
    · refine ⟨((queueAnalysisJobs_frame s2.1 yid err c hne).1).trans hsst,
        ((queueAnalysisJobs_frame s2.1 yid err c hne).2.1).trans hsjf, ?_⟩
      rw [hs2]
      exact (statusLogFor_write_ne s1 yid _ _ c hne).trans
        ((queueAnalysisJobs_frame _ yid err c hne).2.2)
    · exact ⟨hsst, hsjf, hslog⟩
  unfold processFetchTranscript
  cases hfv : t.db.findVideo vid with
  | none => exact ⟨rfl, rfl, rfl⟩
  | some w =>
    refine main _ _ ?_ ?_ _ rfl
    · rfl
    · rfl

set_option maxHeartbeats 1600000 in
theorem processFetch_C2 (t : SysState) (jobId vid : Nat) (yid : String)
    (res : Option (List TranscriptSegment)) (err : Option String)
    (w : Video) (hw : t.db.findVideo vid = some w)
    (hst : statusOfS t yid = Status.fetchingTranscripts)
    (hall : ∀ j ∈ jobsFor t yid, j.data.isFetch = true)
    (hid : ∀ j ∈ t.queue, j.id ≠ jobId) :
    C2Post t (processFetchTranscript t jobId vid yid res err).state
      (processFetchTranscript t jobId vid yid res err).log yid := by
  have htyt : TypeOk t yid := by
    unfold TypeOk
    rw [hst]
    exact hall
  have main : ∀ (s1 : SysState) (msg : String), s1.store = t.store → s1.queue = t.queue →
      ∀ s2 : SysState × StatusWrite, s2 = writeStatus s1 yid
        { transcriptsFetched := some (countVideosWithTranscript s1.db yid),
          currentStep := some msg } →
      C2Post t
        (if (s2.1.queue.filter (fun j =>
              j.data.isFetch && j.data.creator == yid && j.id != jobId)).isEmpty = true
         then (⟨(queueAnalysisJobs s2.1 yid err).1,
               s2.2 :: (queueAnalysisJobs s2.1 yid err).2, true, false⟩ : FetchOut)
         else ⟨s2.1, [s2.2], false, false⟩).state
        (if (s2.1.queue.filter (fun j =>
              j.data.isFetch && j.data.creator == yid && j.id != jobId)).isEmpty = true
         then (⟨(queueAnalysisJobs s2.1 yid err).1,
               s2.2 :: (queueAnalysisJobs s2.1 yid err).2, true, false⟩ : FetchOut)
         else ⟨s2.1, [s2.2], false, false⟩).log yid := by
    intro s1 msg hstore hqueue s2 hs2
    have hst1 : statusOfS s1 yid = Status.fetchingTranscripts :=
      (statusOfS_congr t s1 hstore yid).trans hst
    have hjf1 : jobsFor s1 yid = jobsFor t yid := jobsFor_congr t s1 hqueue yid
    have hty1 : TypeOk s1 yid := TypeOk_of_status_eq_jobs t s1 yid
      (statusOfS_congr t s1 hstore yid) (sublist_of_eq hjf1) htyt
    have hp1 : C2Post s1 s2.1 [s2.2] yid := by
      rw [hs2]
      exact C2Post_write_none s1 yid _ rfl hty1
    have hst2 : statusOfS s2.1 yid = Status.fetchingTranscripts := by
      rw [hs2]
      exact (statusOfS_write_none s1 yid _ rfl).trans hst1
    have hjf2 : jobsFor s2.1 yid = jobsFor t yid := by
      rw [hs2]
      exact (jobsFor_congr s1 _ rfl yid).trans hjf1
    split
    case isTrue hsib =>
      have hsibnil : s2.1.queue.filter (fun j =>
          j.data.isFetch && j.data.creator == yid && j.id != jobId) = [] := by
        rw [← List.isEmpty_iff]
        exact hsib
      have hempty2 : jobsFor s2.1 yid = [] := by
        cases hjf : jobsFor s2.1 yid with
        | nil => rfl
        | cons k ks =>
          exfalso
          have hkmem : k ∈ jobsFor s2.1 yid := by
            rw [hjf]
            exact List.mem_cons_self k ks
          have hk2 := mem_jobsFor_queue s2.1 yid k hkmem
          have hkt : k ∈ jobsFor t yid := by
            rw [← hjf2]
            exact hkmem
          have hkf : k.data.isFetch = true := hall k hkt
          have hktq : k ∈ t.queue := (mem_jobsFor_queue t yid k hkt).1
          have hkid : k.id ≠ jobId := hid k hktq
          have hkin : k ∈ s2.1.queue.filter (fun j =>
              j.data.isFetch && j.data.creator == yid && j.id != jobId) := by
            rw [List.mem_filter]
            refine ⟨hk2.1, ?_⟩
            rw [hkf, hk2.2]
            simp [hkid]
          rw [hsibnil] at hkin
          exact absurd hkin (List.not_mem_nil k)
      exact C2Post_compose t s1 _ [] _ yid (C2Post_silent t s1 yid hstore hty1)
        (C2Post_compose s1 s2.1 _ [s2.2] _ yid hp1
          (queueAnalysisJobs_C2 s2.1 yid err hempty2 (by
            simp only [hst2]
            decide)))
    case isFalse hsib =>
      exact C2Post_compose t s1 _ [] _ yid (C2Post_silent t s1 yid hstore hty1) hp1
  unfold processFetchTranscript
  rw [hw]
  refine main _ _ ?_ ?_ _ rfl
  · rfl
  · rfl

set_option maxHeartbeats 1600000 in
theorem C2_runFetch (s : SysState) (jobId : Nat) (res : Option (List TranscriptSegment))
    (err : Option String) (c : String) (hty : TypeOk s c) :
    C2Post s (applyOp s (Op.runFetch jobId res err)).1
      (applyOp s (Op.runFetch jobId res err)).2 c := by
  unfold applyOp
  simp only []
  cases hf : findJob s jobId with
  | none => exact C2Post_id s c hty
  | some j =>
    simp only []
    obtain ⟨hjmem, hjid⟩ := findJob_mem s jobId j hf
    cases hjd : j.data with
    | syncVideos a b d => exact C2Post_id s c hty
    | analyzeVideo a b => exact C2Post_id s c hty
    | completePipeline a => exact C2Post_id s c hty
    | fetchTranscript vid yid =>
      show C2Post s
        (if (processFetchTranscript (removeJob s jobId) jobId vid yid res err).threw = true
         then requeueFailed
           (processFetchTranscript (removeJob s jobId) jobId vid yid res err).state j
         else (processFetchTranscript (removeJob s jobId) jobId vid yid res err).state)
        (processFetchTranscript (removeJob s jobId) jobId vid yid res err).log c
      have hidrm : ∀ k ∈ (removeJob s jobId).queue, k.id ≠ jobId := by
        intro k hk
        rw [removeJob_queue] at hk
        have hk2 := List.mem_filter.mp hk
        have hb : (k.id != jobId) = true := hk2.2
        simpa using hb
      cases hfv : (removeJob s jobId).db.findVideo vid with
      | none =>
        have hout : processFetchTranscript (removeJob s jobId) jobId vid yid res err
            = ⟨removeJob s jobId, [], false, true⟩ := by
          unfold processFetchTranscript
          rw [hfv]
        rw [hout]
        show C2Post s (requeueFailed (removeJob s jobId) j) [] c
        by_cases hc : yid = c
        · subst hc
          have hjf : j.data.isFetch = true := by rw [hjd]; rfl
          have hjc : j.data.creator = yid := by rw [hjd]; rfl
          obtain ⟨hsst, hallf⟩ := status_of_fetch_job s j yid hjmem hjc hjf hty
          have hstq : statusOfS (requeueFailed (removeJob s jobId) j) yid
              = Status.fetchingTranscripts :=
            (statusOfS_congr s (requeueFailed (removeJob s jobId) j)
              ((requeueFailed_store _ j).trans (removeJob_store s jobId)) yid).trans hsst
          refine ⟨?_, rfl, ?_⟩
          · unfold TypeOk
            rw [hstq]
            intro k hk
            rcases jobsFor_requeueFailed_self (removeJob s jobId) j yid hjc with he | he
            · rw [he] at hk
              exact hallf k ((jobsFor_removeJob_sublist s jobId yid).subset hk)
            · rw [he] at hk
              rcases List.mem_append.mp hk with h | h
              · exact hallf k ((jobsFor_removeJob_sublist s jobId yid).subset h)
              · rw [List.mem_singleton.mp h]
                show j.data.isFetch = true
                exact hjf
          · exact (statusOfS_congr s _
              ((requeueFailed_store _ j).trans (removeJob_store s jobId)) yid)
        · apply C2Post_untouched s _ _ c hty
          · exact statusOfS_congr s _
              ((requeueFailed_store _ j).trans (removeJob_store s jobId)) c
          · have hjcne : j.data.creator ≠ c := by rw [hjd]; exact hc
            exact (sublist_of_eq (jobsFor_requeueFailed_ne (removeJob s jobId) j c hjcne)).trans
              (jobsFor_removeJob_sublist s jobId c)
          · exact rfl
      | some w =>
        have hthrew : (processFetchTranscript (removeJob s jobId) jobId vid yid res err).threw
            = false := processFetchTranscript_threw (removeJob s jobId) jobId vid yid res err w hfv
        rw [hthrew, if_neg (by simp)]
        by_cases hc : yid = c
        · subst hc
          have hjf : j.data.isFetch = true := by rw [hjd]; rfl
          have hjc : j.data.creator = yid := by rw [hjd]; rfl
          obtain ⟨hsst, hallf⟩ := status_of_fetch_job s j yid hjmem hjc hjf hty
          have hstrm : statusOfS (removeJob s jobId) yid = Status.fetchingTranscripts := hsst
          have hallrm : ∀ k ∈ jobsFor (removeJob s jobId) yid, k.data.isFetch = true :=
            fun k hk => hallf k ((jobsFor_removeJob_sublist s jobId yid).subset hk)
          exact processFetch_C2 (removeJob s jobId) jobId vid yid res err w hfv hstrm hallrm hidrm
        · obtain ⟨hfst, hfjf, hflog⟩ :=
            processFetchTranscript_frame (removeJob s jobId) jobId vid yid res err c hc
          apply C2Post_untouched s _ _ c hty
          · exact hfst.trans (statusOfS_congr s _ rfl c)
          · exact (sublist_of_eq hfjf).trans (jobsFor_removeJob_sublist s jobId c)
          · exact hflog

/-! ## C2: analyze-video and complete-pipeline deliveries, controller start -/

theorem processAnalyze_C2 (t : SysState) (vid : Nat) (yid : String)
    (fetchRes : Option (List TranscriptSegment)) (extracted : List ExtractedPred) (crash : Bool)
    (c : String) (hty : TypeOk t c) :
    C2Post t (processAnalyzeVideo t vid yid fetchRes extracted crash).1
      (processAnalyzeVideo t vid yid fetchRes extracted crash).2 c := by
  unfold processAnalyzeVideo
  cases hres : analyzeVideoFn t.db vid fetchRes extracted crash with
  | none => exact C2Post_id t c hty
  | some out =>
    obtain ⟨db1, r⟩ := out
    simp only []
    by_cases hc : yid = c
    · subst hc
      exact C2Post_compose t _ _ [] _ yid (C2Post_db t db1 yid hty)
        (C2Post_write_none { t with db := db1 } yid _ rfl (C2Post_db t db1 yid hty).1)
    · apply C2Post_untouched t _ _ c hty
      · exact (statusOfS_write_ne _ yid _ c hc).trans (statusOfS_congr t _ rfl c)
      · exact sublist_of_eq (jobsFor_congr t _ rfl c)
      · exact statusLogFor_write_ne _ yid _ [] c hc

theorem C2_runAnalyze (s : SysState) (jobId : Nat) (fetchRes : Option (List TranscriptSegment))
    (extracted : List ExtractedPred) (crash : Bool) (c : String) (hty : TypeOk s c) :
    C2Post s (applyOp s (Op.runAnalyze jobId fetchRes extracted crash)).1
      (applyOp s (Op.runAnalyze jobId fetchRes extracted crash)).2 c := by
  unfold applyOp
  simp only []
  cases hf : findJob s jobId with
  | none => exact C2Post_id s c hty
  | some j =>
    simp only []
    cases hjd : j.data with
    | syncVideos a b d => exact C2Post_id s c hty
    | fetchTranscript a b => exact C2Post_id s c hty
    | completePipeline a => exact C2Post_id s c hty
    | analyzeVideo vid yid =>
      show C2Post s (processAnalyzeVideo (removeJob s jobId) vid yid fetchRes extracted crash).1
        (processAnalyzeVideo (removeJob s jobId) vid yid fetchRes extracted crash).2 c
      have htyrm : TypeOk (removeJob s jobId) c := TypeOk_of_status_eq_jobs s _ c
        (statusOfS_congr s _ rfl c) (jobsFor_removeJob_sublist s jobId c) hty
      exact processAnalyze_C2 (removeJob s jobId) vid yid fetchRes extracted crash c htyrm

theorem C2_runComplete (s : SysState) (jobId : Nat) (err : Option String)
    (c : String) (hty : TypeOk s c) :
    C2Post s (applyOp s (Op.runComplete jobId err)).1
      (applyOp s (Op.runComplete jobId err)).2 c := by
  unfold applyOp
  simp only []
  cases hf : findJob s jobId with
  | none => exact C2Post_id s c hty
  | some j =>
    simp only []
    obtain ⟨hjmem, hjid⟩ := findJob_mem s jobId j hf
    cases hjd : j.data with
    | syncVideos a b d => exact C2Post_id s c hty
    | fetchTranscript a b => exact C2Post_id s c hty
    | analyzeVideo a b => exact C2Post_id s c hty
    | completePipeline yid =>
      show C2Post s (completePipelineFn (removeJob s jobId) yid err).1
        (completePipelineFn (removeJob s jobId) yid err).2 c
      by_cases hc : yid = c
      · subst hc
        have hjco : j.data.isComplete = true := by rw [hjd]; rfl
        have hjc : j.data.creator = yid := by rw [hjd]; rfl
        obtain ⟨hsan, hkinds, hcnt⟩ := status_of_complete_job s j yid hjmem hjc hjco hty
        have hstrm : statusOfS (removeJob s jobId) yid = Status.analyzing := hsan
        have hallrm : ∀ k ∈ jobsFor (removeJob s jobId) yid, k.data.isAnalyze = true := by
          intro k hk
          have hks : k ∈ jobsFor s yid := (jobsFor_removeJob_sublist s jobId yid).subset hk
          rcases hkinds k hks with ha | hco
          · exact ha
          · exfalso
            have hkid : k.id ≠ jobId := by
              rw [jobsFor_removeJob] at hk
              have hk2 := List.mem_filter.mp hk
              have hb : (k.id != jobId) = true := hk2.2
              simpa using hb
            have hkne : k ≠ j := by
              intro he
              rw [he, hjid] at hkid
              exact hkid rfl
            have hjfj : j ∈ (jobsFor s yid).filter (fun m => m.data.isComplete) := by
              rw [List.mem_filter]
              exact ⟨mem_jobsFor_intro s yid j hjmem hjc, hjco⟩
            have hkfj : k ∈ (jobsFor s yid).filter (fun m => m.data.isComplete) := by
              rw [List.mem_filter]
              exact ⟨hks, hco⟩
            have h2 := two_mem_length hkfj hjfj hkne
            omega
        exact completePipelineFn_C2 (removeJob s jobId) yid err hstrm hallrm
      · obtain ⟨hfst, hfjf, hflog⟩ := completePipelineFn_frame (removeJob s jobId) yid err c hc
        apply C2Post_untouched s _ _ c hty
        · exact hfst.trans (statusOfS_congr s _ rfl c)
        · exact (sublist_of_eq hfjf).trans (jobsFor_removeJob_sublist s jobId c)
        · exact hflog

theorem TypeOk_syncing_single (t1 t2 : SysState) (yid : String) (jnew : QueuedJob)
    (hq : t2.queue = t1.queue ++ [jnew]) (hstore : t2.store = t1.store)
    (hst : statusOfS t1 yid = Status.syncing)
    (hempty : jobsFor t1 yid = [])
    (hdata : jnew.data.isSync = true) : TypeOk t2 yid := by
  have hst2 : statusOfS t2 yid = Status.syncing :=
    (statusOfS_congr t1 t2 hstore yid).trans hst
  unfold TypeOk
  rw [hst2, jobsFor_append t1 t2 [jnew] yid hq, hempty, List.nil_append]
  refine ⟨?_, ?_⟩
  · intro j hj
    have hj2 := List.mem_filter.mp hj
    rw [List.mem_singleton.mp hj2.1]
    exact hdata
  · calc (List.filter (fun j => j.data.creator == yid) [jnew]).length
        ≤ ([jnew] : List QueuedJob).length := (List.filter_sublist _).length_le
    _ ≤ 1 := by simp

theorem C2_start (s : SysState) (yid c : String) (hty : TypeOk s c)
    (hst : statusOfS s yid = Status.idle) (hjf : jobsFor s yid = []) :
    C2Post s (applyOp s (Op.start yid)).1 (applyOp s (Op.start yid)).2 c := by
  unfold applyOp startChannelPipelineFn
  simp only []
  cases hfy : s.db.findYoutuber yid with
  | none => exact C2Post_id s c hty
  | some y =>
    simp only []
    by_cases hc : yid = c
    · subst hc
      have main : ∀ s1 : SysState × StatusWrite, s1 = writeStatus s yid
          { status := some Status.syncing, totalVideos := some 0, transcriptsFetched := some 0,
            videosAnalyzed := some 0,
            currentStep := some "Starting video sync (last 1 year)...",
            startedAt := some nowISO } →
          C2Post s (addJobS s1.1 (JobData.syncVideos yid y.channelId PIPELINE_defaultMonthsBack) 0)
            [s1.2] yid := by
        intro s1 hs1
        have hst1 : statusOfS s1.1 yid = Status.syncing := by
          rw [hs1]
          exact statusOfS_write s yid _ Status.syncing rfl
        have hjf1 : jobsFor s1.1 yid = [] := by
          rw [hs1]
          exact (jobsFor_congr s _ rfl yid).trans hjf
        have hp1 : C2Post s s1.1 [s1.2] yid := by
          rw [hs1]
          refine C2Post_write_some s yid _ Status.syncing rfl ?_ ?_
          · simp only [hst]
            decide
          · refine TypeOk_of_status_eq_jobs s1.1 _ yid ?_ ?_ ?_
            · rw [← hs1]
            · rw [← hs1]
            · unfold TypeOk
              rw [hst1, hjf1]
              exact ⟨fun j hj => absurd hj (List.not_mem_nil j), by simp⟩
        have hp2 : C2Post s1.1
            (addJobS s1.1 (JobData.syncVideos yid y.channelId PIPELINE_defaultMonthsBack) 0)
            [] yid := by
          refine C2Post_silent _ _ yid (addJobS_store _ _ _) ?_
          refine TypeOk_syncing_single s1.1 _ yid
            { id := s1.1.nextJobId,
              data := JobData.syncVideos yid y.channelId PIPELINE_defaultMonthsBack,
              delay := 0, attemptsMade := 0 }
            ?_ (addJobS_store _ _ _) hst1 hjf1 ?_
          · rfl
          · rfl
        exact C2Post_compose s s1.1 _ [s1.2] [] yid hp1 hp2
      exact main _ rfl
    · apply C2Post_untouched s _ _ c hty
      · exact (statusOfS_congr _ _ (addJobS_store _ _ _) c).trans
          (statusOfS_write_ne s yid _ c hc)
      · refine sublist_of_eq (jobsFor_append_other s _
          [{ id := s.nextJobId,
             data := JobData.syncVideos yid y.channelId PIPELINE_defaultMonthsBack,
             delay := 0, attemptsMade := 0 }] c yid ?_ hc ?_)
        · rfl
        · intro k hk
          rw [List.mem_singleton.mp hk]
          rfl
      · exact statusLogFor_write_ne s yid _ [] c hc

theorem C2_step (s : SysState) (op : Op) (c : String) (hty : TypeOk s c)
    (htm : stepTameB s op = true) :
    C2Post s (applyOp s op).1 (applyOp s op).2 c := by
  cases op with
  | start yid =>
    have htm2 : ((statusOfS s yid == Status.idle) && (jobsFor s yid).isEmpty) = true := htm
    rw [Bool.and_eq_true] at htm2
    have hst : statusOfS s yid = Status.idle := by
      have h1 := htm2.1
      rwa [beq_iff_eq] at h1
    have hjf : jobsFor s yid = [] := by
      have h2 := htm2.2
      rwa [List.isEmpty_iff] at h2
    exact C2_start s yid c hty hst hjf
  | runSync jobId res err =>
    cases res with
    | ok metas => exact C2_runSync s jobId metas err c hty
    | error msg => exact absurd htm (by simp [stepTameB])
  | runFetch jobId res err => exact C2_runFetch s jobId res err c hty
  | runAnalyze jobId fr ex cr => exact C2_runAnalyze s jobId fr ex cr c hty
  | runComplete jobId err => exact C2_runComplete s jobId err c hty
  | forceStart yid => exact absurd htm (by simp [stepTameB])
  | sweep => exact absurd htm (by simp [stepTameB])

theorem C2_run : ∀ (ops : List Op) (s : SysState) (c : String), TypeOk s c →
    tameRunB s ops = true →
    C2Post s (runOps s ops).1 (runOps s ops).2 c := by
  intro ops
  induction ops with
  | nil =>
    intro s c hty _
    exact C2Post_id s c hty
  | cons op ops ih =>
    intro s c hty htame
    have htame2 : (stepTameB s op && tameRunB (applyOp s op).1 ops) = true := htame
    rw [Bool.and_eq_true] at htame2
    have hstep := C2_step s op c hty htame2.1
    have hrest := ih (applyOp s op).1 c hstep.1 htame2.2
    exact C2Post_compose s (applyOp s op).1 (runOps (applyOp s op).1 ops).1
      (applyOp s op).2 (runOps (applyOp s op).1 ops).2 c hstep hrest

/-! ## C2: the claim, its counterexample trace, and a witness run -/


/-- C2 (amended): for every creator, over any run whose steps are all
status-tame (queue deliveries whose sync oracle, if any, succeeds, and
controller starts only of a creator that is idle with no pending jobs; no
administrative force-restart and no startup sweep), the stored status
followed by the statuses written for that creator never regresses: each
consecutive pair advances along idle → syncing → fetching-transcripts →
analyzing → completed, with failed terminal.  The original claim excepted
only the explicit force-restart; it is refuted by the counterexample trace,
in which the startup sweep's orphan pass rewinds a completed creator back to
analyzing although no force-restart occurs. -/
theorem statusWrites_monotone (s : SysState) (ops : List Op) (c : String)
    (hty : TypeOk s c) (htame : tameRunB s ops = true) :
    chainOk (statusOfS s c :: statusLogFor (runOps s ops).2 c) = true :=
  (C2_run ops s c hty htame).2.1

theorem statusWrites_monotone_counterexample :
    ¬ (chainOk (statusOfS (initState c2db) "c"
        :: statusLogFor (runOps (initState c2db) c2badOps).2 "c") = true) := by
  decide

theorem statusWrites_monotone_witness :
    chainOk (statusOfS (initState c2db) "c"
      :: statusLogFor (runOps (initState c2db) c2ops).2 "c") = true :=
  statusWrites_monotone (initState c2db) c2ops "c" rfl (by decide)

end Receipts
